import Mathlib

/-!
# Address pool of log-courier (`src/lc-lib/transports/address_pool.go`)

A shallow embedding of the `AddressPool` state machine: server list shuffling,
the round-robin cursor, SRV expansion and lazy re-resolution.

Conventions of the embedding.

* Go's `int` cursor is an `Int` kept in the 64-bit range: `p.roundrobin++` is
  `goInc`, which wraps from `maxInt` round to `minInt`; Go's `%` on `int` is
  `Int.tmod` (truncated, the sign of the dividend); indexing a slice with an
  `int` is `goIndex`, which panics on a negative index.
* A Go slice that may be `nil` is an `Option (List _)`: `none` is `nil`,
  `some []` is the empty non-nil slice made by `make(.., 0)`.
* A Go run-time panic (index out of range, division by zero) is the outer
  `Option` of an operation returning `none`; a Go `error` value is data.
* Everything the pool asks of the outside world (the random source, the DNS
  resolver, the textual helpers of package `net`) is a field of `Env`.  The
  answers of the random source and the resolver may depend on the whole
  history of earlier calls, which is kept in `Sys.trace`.
-/

namespace AddressPool

/-! ## Data model -/

/-- Go's `net.IP`: the bytes of an address. -/
structure NetIP where
  bytes : List Nat
deriving DecidableEq, Repr

/-- Go's `net.TCPAddr` as the pool builds it (the zone is never set). -/
structure TCPAddr where
  IP : NetIP
  Port : Nat
deriving DecidableEq, Repr

/-- Go's `net.SRV` record. -/
structure SRV where
  Target : String
  Port : Nat
  Priority : Nat
  Weight : Nat
deriving DecidableEq, Repr

/-- The errors built with `fmt.Errorf` in the source, one constructor per call site. -/
inductive PoolError where
  | invalidHostport (selected : String)
  | invalidPort (port_str : String)
  | srvLookupFailure (host : String) (err : String)
  | srvNoTargets (host : String)
  | lookupFailure (host : String) (err : String)
  | lookupNoAddresses (host : String)
deriving DecidableEq, Repr

/-- The text of an error, as formatted by the source. -/
def PoolError.message : PoolError → String
  | .invalidHostport selected => "Invalid hostport given: " ++ selected
  | .invalidPort port_str => "Invalid port given: " ++ port_str
  | .srvLookupFailure host err => "DNS SRV lookup failure \"" ++ host ++ "\": " ++ err
  | .srvNoTargets host => "DNS SRV lookup failure \"" ++ host ++ "\": No targets found"
  | .lookupFailure host err => "DNS lookup failure \"" ++ host ++ "\": " ++ err
  | .lookupNoAddresses host => "DNS lookup failure \"" ++ host ++ "\": No addresses found"

/-- A format error: the specifier is not a well-formed `host:port`. -/
def PoolError.isFormat : PoolError → Bool
  | .invalidHostport _ => true
  | .invalidPort _ => true
  | _ => false

/-- An SRV lookup error. -/
def PoolError.isSrvLookup : PoolError → Bool
  | .srvLookupFailure _ _ => true
  | .srvNoTargets _ => true
  | _ => false

/-- What the pool did to the outside world, oldest first.  `select` is a ghost
event: it records the specifier taken by `populateAddresses`. -/
inductive Event where
  | perm (n : Nat)
  | select (server : String)
  | lookupSRV (service : String) (protocol : String) (name : String)
  | lookupIP (host : String)
deriving DecidableEq, Repr

/-- The largest value of Go's `int` on a 64-bit platform. -/
def maxInt : Int := 9223372036854775807

/-- The smallest value of Go's `int` on a 64-bit platform. -/
def minInt : Int := -9223372036854775808

/-- Go's `x++` on an `int`: addition of one in two's complement, so that
`maxInt` is followed by `minInt`. -/
def goInc (x : Int) : Int :=
  (x + 1 + 9223372036854775808) % 18446744073709551616 - 9223372036854775808

/-- Go's `l[i]` with an `int` index: a negative index, like one past the end,
is a run-time panic. -/
def goIndex (l : List String) (i : Int) : Option String :=
  if i < 0 then none else l[i.toNat]?

/-- The fields of the Go struct `AddressPool`. -/
structure Pool where
  servers : List String
  rfc2782 : Bool
  rfc2782Service : String
  roundrobin : Int
  host_is_ip : Bool
  host : String
  addresses : Option (List TCPAddr)
deriving DecidableEq, Repr

/-- A pool together with the history of its external calls. -/
structure Sys where
  pool : Pool
  trace : List Event
deriving DecidableEq, Repr

/-- The outside world.  `Perm` is `rand.Perm`, `LookupSRV` and `LookupIP` are
the resolver (an error carries its text), `ParseIP`, `SplitHostPort` (host,
port, error) and `JoinHostPort` are the helpers of package `net`, and
`TCPAddrString` is what `%s` prints for a `*net.TCPAddr`. -/
structure Env where
  Perm : List Event → Nat → List Nat
  LookupSRV : List Event → String → String → String → Except String (List SRV)
  LookupIP : List Event → String → Except String (List NetIP)
  ParseIP : String → Option NetIP
  SplitHostPort : String → String × String × Option String
  JoinHostPort : String → String → String
  TCPAddrString : TCPAddr → String

/-- The contract of `rand.Perm`: a permutation of `0..n-1`. -/
def Env.PermOK (env : Env) : Prop :=
  ∀ (tr : List Event) (n : Nat), (env.Perm tr n).Perm (List.range n)

/-! ## `strconv.ParseUint(s, 10, 16)` -/

/-- The digit loop of `strconv.ParseUint` at base 10 and bit size 16, on the
64-bit accumulator `n`; `none` is a syntax or range error. -/
def parseUintLoop : List Char → Nat → Option Nat
  | [], n => some n
  | c :: cs, n =>
    if '0' ≤ c ∧ c ≤ '9' then
      let d := c.toNat - '0'.toNat
      if n ≥ (2 ^ 64 - 1) / 10 + 1 then none
      else
        let n10 := (n * 10) % 2 ^ 64
        let n1 := (n10 + d) % 2 ^ 64
        if n1 < n10 ∨ n1 > 2 ^ 16 - 1 then none
        else parseUintLoop cs n1
    else none

/-- The call `strconv.ParseUint(s, 10, 16)`; `none` when it returns an error. -/
def ParseUint16 (s : String) : Option Nat :=
  if s.data = [] then none else parseUintLoop s.data 0

/-! ## Operations -/

/-- The elements of `oldList` at the indices `perm`, in that order; `none` when
an index is out of range. -/
def pickAll (oldList : List String) : List Nat → Option (List String)
  | [] => some []
  | v :: vs =>
    match oldList[v]?, pickAll oldList vs with
    | some x, some rest => some (x :: rest)
    | _, _ => none

/-- The method `shuffleServers`. -/
def shuffleServers (env : Env) (s : Sys) : Option Sys :=
  match pickAll s.pool.servers (env.Perm s.trace s.pool.servers.length) with
  | none => none
  | some newList =>
    some { pool := { s.pool with servers := newList },
           trace := s.trace ++ [Event.perm s.pool.servers.length] }

/-- The constructor `NewAddressPool`. -/
def NewAddressPool (env : Env) (servers : List String) : Option Sys :=
  shuffleServers env
    { pool := { servers := servers, rfc2782 := false, rfc2782Service := "",
                roundrobin := 0, host_is_ip := false, host := "", addresses := none },
      trace := [] }

/-- The method `SetRfc2782`. -/
def SetRfc2782 (s : Sys) (enabled : Bool) (service : String) : Sys :=
  { s with pool := { s.pool with rfc2782 := enabled, rfc2782Service := service } }

/-- The method `IsLast`. -/
def IsLast (s : Sys) : Bool :=
  s.pool.addresses.isNone

/-- The method `IsLastServer`; it panics on an empty server list. -/
def IsLastServer (s : Sys) : Option Bool :=
  if s.pool.servers.length = 0 then none
  else some (Int.tmod s.pool.roundrobin s.pool.servers.length == 0)

/-- The method `Host`. -/
def Host (s : Sys) : String :=
  s.pool.host

/-- Go's `append(addresses, a)`. -/
def appendAddr (addresses : Option (List TCPAddr)) (a : TCPAddr) : Option (List TCPAddr) :=
  some (addresses.getD [] ++ [a])

/-- The method `populateLookup`: the returned pair is `(bool, error)`. -/
def populateLookup (env : Env) (host : String) (port : Nat) (s : Sys) :
    (Bool × Option PoolError) × Sys :=
  match env.ParseIP host with
  | some ip =>
    ((true, none),
      { s with pool := { s.pool with addresses := appendAddr s.pool.addresses ⟨ip, port⟩ } })
  | none =>
    let s1 : Sys := { s with trace := s.trace ++ [Event.lookupIP host] }
    match env.LookupIP s.trace host with
    | .error err => ((false, some (.lookupFailure host err)), s1)
    | .ok ips =>
      if ips.length = 0 then ((false, some (.lookupNoAddresses host)), s1)
      else
        ((false, none),
          { s1 with pool := { s1.pool with
              addresses := ips.foldl (fun acc ip => appendAddr acc ⟨ip, port⟩) s1.pool.addresses } })

/-- The method `processSrv`. -/
def processSrv (env : Env) (server : String) (s : Sys) : Except PoolError (List SRV) × Sys :=
  let service := if s.pool.rfc2782 then s.pool.rfc2782Service else ""
  let protocol := if s.pool.rfc2782 then "tcp" else ""
  let s1 : Sys :=
    { pool := { s.pool with host := server, host_is_ip := false },
      trace := s.trace ++ [Event.lookupSRV service protocol server] }
  match env.LookupSRV s.trace service protocol server with
  | .error err => (.error (.srvLookupFailure server err), s1)
  | .ok srvs =>
    if srvs.length = 0 then (.error (.srvNoTargets server), s1)
    else (.ok srvs, s1)

/-- The loop over the SRV records in `populateAddresses`: it stops at the first
target whose lookup fails. -/
def populateTargets (env : Env) : List SRV → Sys → Option PoolError × Sys
  | [], s => (none, s)
  | srv :: rest, s =>
    match populateLookup env srv.Target srv.Port s with
    | ((_, some err), s1) => (some err, s1)
    | ((_, none), s1) => populateTargets env rest s1

/-- The first statements of `populateAddresses`: reshuffle when the cursor has
run off the list, take `servers[roundrobin]` and advance the cursor.  The
increment is written without wrap-around: it is only reached when the index
was in range, so the cursor is below `len(p.servers)`, itself an `int`, and
`p.roundrobin++` cannot overflow here (`selectServer_no_overflow`). -/
def selectServer (env : Env) (s : Sys) : Option (String × Sys) :=
  match (if s.pool.roundrobin ≥ s.pool.servers.length then
          (shuffleServers env s).map
            (fun s1 => { s1 with pool := { s1.pool with roundrobin := 0 } })
         else some s) with
  | none => none
  | some s1 =>
    match goIndex s1.pool.servers s1.pool.roundrobin with
    | none => none
    | some selected =>
      some (selected,
        { pool := { s1.pool with roundrobin := s1.pool.roundrobin + 1 },
          trace := s1.trace ++ [Event.select selected] })

/-- The rest of `populateAddresses`, on the specifier `selected`. -/
def resolveSelected (env : Env) (selected : String) (s : Sys) : Option PoolError × Sys :=
  if selected.data.head? = some '@' then
    match processSrv env (String.mk (selected.data.drop 1)) s with
    | (.error err, s1) => (some err, s1)
    | (.ok srvs, s1) => populateTargets env srvs s1
  else
    let hp := env.SplitHostPort selected
    let s1 : Sys := { s with pool := { s.pool with host := hp.1 } }
    match hp.2.2 with
    | some _ => (some (.invalidHostport selected), s1)
    | none =>
      match ParseUint16 hp.2.1 with
      | none => (some (.invalidPort hp.2.1), s1)
      | some port =>
        match populateLookup env s1.pool.host port s1 with
        | ((b, err), s2) => (err, { s2 with pool := { s2.pool with host_is_ip := b } })

/-- The method `populateAddresses`. -/
def populateAddresses (env : Env) (s : Sys) : Option (Option PoolError × Sys) :=
  match selectServer env s with
  | none => none
  | some (selected, s1) => some (resolveSelected env selected s1)

/-- What `Next` returns: `(*net.TCPAddr, string, error)`. -/
structure NextResult where
  addr : Option TCPAddr
  desc : String
  err : Option PoolError
deriving DecidableEq, Repr

/-- The description `Next` builds for the address `next`. -/
def describe (env : Env) (host_is_ip : Bool) (host : String) (next : TCPAddr) : String :=
  if host_is_ip then env.TCPAddrString next
  else env.TCPAddrString next ++ " (" ++ host ++ ")"

/-- The tail of `Next`: pop the head of the queue (indexing a `nil` or empty
slice panics) and describe it. -/
def popAddress (env : Env) (s : Sys) : Option (NextResult × Sys) :=
  match s.pool.addresses with
  | none => none
  | some [] => none
  | some (next :: rest) =>
    let s1 : Sys :=
      { s with pool := { s.pool with
          addresses := if (next :: rest).length > 1 then some rest else none } }
    some (⟨some next, describe env s.pool.host_is_ip s.pool.host next, none⟩, s1)

/-- The method `Next`. -/
def Next (env : Env) (s : Sys) : Option (NextResult × Sys) :=
  match s.pool.addresses with
  | none =>
    match populateAddresses env { s with pool := { s.pool with addresses := some [] } } with
    | none => none
    | some (some err, s1) =>
      some (⟨none, "", some err⟩, { s1 with pool := { s1.pool with addresses := none } })
    | some (none, s1) => popAddress env s1
  | some _ => popAddress env s

/-- The method `NextServer`: the returned pair is `(string, error)`.  The
cursor is never reset here, so its increment is the wrapping `goInc`, and the
index `roundrobin % len(servers)` is negative once the cursor is. -/
def NextServer (env : Env) (s : Sys) : Option ((String × Option PoolError) × Sys) :=
  if s.pool.servers.length = 0 then none
  else
    match goIndex s.pool.servers (Int.tmod s.pool.roundrobin s.pool.servers.length) with
    | none => none
    | some selected =>
      let s1 : Sys := { s with pool := { s.pool with roundrobin := goInc s.pool.roundrobin } }
      if selected.data.head? = some '@' then
        match processSrv env (String.mk (selected.data.drop 1)) s1 with
        | (.error err, s2) => some (("", some err), s2)
        | (.ok srvs, s2) =>
          match srvs[0]? with
          | none => none
          | some srv => some ((env.JoinHostPort srv.Target (toString srv.Port), none), s2)
      else some ((selected, none), s1)

/-! ## A concrete outside world, for evaluating the operations -/

/-- Split at the last colon; an error when there is none (the bracket-free
case of `net.SplitHostPort`). -/
def splitLastColon (hostport : String) : String × String × Option String :=
  let r := hostport.data.reverse
  if r.contains ':' then
    (String.mk (r.dropWhile (fun c => c != ':')).tail.reverse,
      String.mk (r.takeWhile (fun c => c != ':')).reverse, none)
  else ("", "", some "missing port in address")

/-- A small resolver world: identity permutation at construction and the
reversed one at every later shuffle, a fixed zone, dotted-quad literals for
two addresses. -/
def demoEnv : Env where
  Perm := fun tr n => if tr = [] then List.range n else (List.range n).reverse
  LookupSRV := fun _ _ _ name =>
    if name = "logs.example.com" then
      .ok [⟨"a.example.com", 5043, 10, 0⟩, ⟨"10.0.0.2", 5044, 20, 0⟩]
    else if name = "half.example.com" then
      .ok [⟨"a.example.com", 5043, 10, 0⟩, ⟨"gone.example.com", 5044, 20, 0⟩]
    else if name = "empty.example.com" then .ok []
    else .error "no such host"
  LookupIP := fun _ host =>
    if host = "a.example.com" then .ok [⟨[192, 0, 2, 1]⟩, ⟨[192, 0, 2, 2]⟩]
    else if host = "backup" then .ok [⟨[192, 0, 2, 9]⟩]
    else if host = "void" then .ok []
    else .error "no such host"
  ParseIP := fun s =>
    if s = "10.0.0.1" then some ⟨[10, 0, 0, 1]⟩
    else if s = "10.0.0.2" then some ⟨[10, 0, 0, 2]⟩
    else none
  SplitHostPort := splitLastColon
  JoinHostPort := fun host port =>
    if host.data.contains ':' then "[" ++ host ++ "]:" ++ port else host ++ ":" ++ port
  TCPAddrString := fun a =>
    ".".intercalate (a.IP.bytes.map toString) ++ ":" ++ toString a.Port

/-! ## Vocabulary of the statements -/

/-- The specifiers taken by `populateAddresses`, oldest first. -/
def selections (tr : List Event) : List String :=
  tr.filterMap (fun e => match e with
    | .select server => some server
    | _ => none)

/-- The DNS lookups (SRV and address) of a history, oldest first. -/
def lookups (tr : List Event) : List Event :=
  tr.filter (fun e => match e with
    | .lookupSRV _ _ _ => true
    | .lookupIP _ => true
    | _ => false)

/-- The shuffles of a history, oldest first. -/
def shuffles (tr : List Event) : List Event :=
  tr.filter (fun e => match e with
    | .perm _ => true
    | _ => false)

/-- Call `Next` `n` times in a row: the results in order and the final state. -/
def runNext (env : Env) : Nat → Sys → Option (List NextResult × Sys)
  | 0, s => some ([], s)
  | n + 1, s =>
    match Next env s with
    | none => none
    | some (r, s1) =>
      match runNext env n s1 with
      | none => none
      | some (rs, s2) => some (r :: rs, s2)

/-- Call `Next` `n` times in a row: every result with the state it leaves. -/
def runStates (env : Env) : Nat → Sys → Option (List (NextResult × Sys))
  | 0, _ => some []
  | n + 1, s =>
    match Next env s with
    | none => none
    | some (r, s1) =>
      match runStates env n s1 with
      | none => none
      | some rest => some ((r, s1) :: rest)

/-- The server resolutions made by `n` calls of `Next` in a row: the specifier
each one took and whether it succeeded. -/
def resolutionLog (env : Env) : Nat → Sys → Option (List (String × Bool))
  | 0, _ => some []
  | n + 1, s =>
    match Next env s with
    | none => none
    | some (r, s1) =>
      match resolutionLog env n s1 with
      | none => none
      | some rest =>
        some (((selections s1.trace).drop (selections s.trace).length).map
          (fun server => (server, r.err.isNone)) ++ rest)

/-- The states a pool built from `servers` can be in between two calls of its
public methods. -/
inductive Reachable (env : Env) (servers : List String) : Sys → Prop where
  | init {s : Sys} : NewAddressPool env servers = some s → Reachable env servers s
  | next {s s1 : Sys} {r : NextResult} :
      Reachable env servers s → Next env s = some (r, s1) → Reachable env servers s1
  | nextServer {s s1 : Sys} {r : String × Option PoolError} :
      Reachable env servers s → NextServer env s = some (r, s1) → Reachable env servers s1
  | setRfc2782 {s : Sys} (enabled : Bool) (service : String) :
      Reachable env servers s → Reachable env servers (SetRfc2782 s enabled service)

/-- What a resolution leaves alone: the server list, the cursor, the SRV mode,
and the selections and shuffles of the history. -/
def Frame (s s1 : Sys) : Prop :=
  s1.pool.servers = s.pool.servers ∧ s1.pool.roundrobin = s.pool.roundrobin ∧
  s1.pool.rfc2782 = s.pool.rfc2782 ∧ s1.pool.rfc2782Service = s.pool.rfc2782Service ∧
  selections s1.trace = selections s.trace ∧ shuffles s1.trace = shuffles s.trace

/-- The cursor `populateAddresses` reads the list at: 0 after a reshuffle. -/
def cursorBase (s : Sys) : Nat :=
  if s.pool.servers.length ≤ s.pool.roundrobin then 0 else s.pool.roundrobin.toNat

/-- The effect of the selection step of `populateAddresses` from `s`: it took
`sel` and left `s1`. -/
def Selected (s : Sys) (sel : String) (s1 : Sys) : Prop :=
  s1.pool.servers.Perm s.pool.servers ∧
  s1.pool.roundrobin = cursorBase s + 1 ∧
  cursorBase s < s.pool.servers.length ∧
  s1.pool.servers[cursorBase s]? = some sel ∧
  s1.pool.host = s.pool.host ∧ s1.pool.host_is_ip = s.pool.host_is_ip ∧
  s1.pool.rfc2782 = s.pool.rfc2782 ∧ s1.pool.rfc2782Service = s.pool.rfc2782Service ∧
  (s.pool.roundrobin < s.pool.servers.length →
    s1.pool.servers = s.pool.servers ∧ s1.trace = s.trace ++ [Event.select sel]) ∧
  (s.pool.servers.length ≤ s.pool.roundrobin →
    s1.trace = s.trace ++ [Event.perm s.pool.servers.length, Event.select sel])

/-- The round-robin bookkeeping: `S` is the current server list, `r` the
cursor and `sel` the selections so far.  The selections split into complete
cycles, each a permutation of `servers`, followed by the first `r` entries of
the current list. -/
def CycleState (servers S : List String) (r : Nat) (sel : List String) : Prop :=
  S.Perm servers ∧ r ≤ servers.length ∧ (0 < sel.length → 0 < r) ∧
  ∃ q, sel.length = q * servers.length + r ∧
    sel.drop (q * servers.length) = S.take r ∧
    ∀ c, c < q → ((sel.drop (c * servers.length)).take servers.length).Perm servers

/-- The invariant of a pool driven by `Next` alone. -/
def CycleInv (servers : List String) (s : Sys) : Prop :=
  s.pool.addresses ≠ some [] ∧ 0 ≤ s.pool.roundrobin ∧
  CycleState servers s.pool.servers s.pool.roundrobin.toNat (selections s.trace)

/-- The specifiers of the resolutions of a log that succeeded, in order. -/
def successfulSelections (log : List (String × Bool)) : List String :=
  (log.filter (fun e => e.2)).map (fun e => e.1)

/-- A freshly built pool over `servers` in their given order, nothing resolved yet. -/
def freshPool (servers : List String) : Sys :=
  { pool := { servers := servers, rfc2782 := false, rfc2782Service := "",
              roundrobin := 0, host_is_ip := false, host := "", addresses := none },
    trace := [] }

/-- What draining the queue `l` of the pool `base` yields, call by call: each
address with its description, and the pool with the rest of the queue. -/
def drained (env : Env) (base : Sys) : List TCPAddr → List (NextResult × Sys)
  | [] => []
  | a :: rest =>
    (⟨some a, describe env base.pool.host_is_ip base.pool.host a, none⟩,
      { base with pool := { base.pool with
          addresses := if rest = [] then none else some rest } })
      :: drained env base rest

/-- The pool `s1` once a resolution has set its host fields and its queue and
has added the events `evs` to the history. -/
def resolvedTo (s1 : Sys) (host : String) (host_is_ip : Bool)
    (queue : Option (List TCPAddr)) (evs : List Event) : Sys :=
  { pool := { s1.pool with host := host, host_is_ip := host_is_ip, addresses := queue },
    trace := s1.trace ++ evs }

/-- The pool `a.example.com:5043`, `backup:9000` right after the selection step
has taken its first server. -/
def demoSelected : Sys :=
  { pool := { servers := ["a.example.com:5043", "backup:9000"], rfc2782 := false,
              rfc2782Service := "", roundrobin := 1, host_is_ip := false, host := "",
              addresses := some [] },
    trace := [Event.select "a.example.com:5043"] }

/-- The queue an SRV answer `recs` expands to, when a non-literal target `t`
resolves to `ans t`: record by record, each target's addresses (the literal
itself, or `ans t` in resolver order) paired with the record's port. -/
def expandSrv (env : Env) (ans : String → List NetIP) (recs : List SRV) : List TCPAddr :=
  recs.flatMap (fun r =>
    (match env.ParseIP r.Target with
      | some ip => [ip]
      | none => ans r.Target).map (fun ip => (⟨ip, r.Port⟩ : TCPAddr)))

/-- The address lookups made while expanding `recs`: one per non-literal target. -/
def targetLookups (env : Env) (recs : List SRV) : List Event :=
  recs.filterMap (fun r =>
    match env.ParseIP r.Target with
    | some _ => none
    | none => some (Event.lookupIP r.Target))

/-- The pool `@logs.example.com`, `backup:9000` right after the selection step
has taken its first server. -/
def demoSrvSelected : Sys :=
  { pool := { servers := ["@logs.example.com", "backup:9000"], rfc2782 := false,
              rfc2782Service := "", roundrobin := 1, host_is_ip := false, host := "",
              addresses := some [] },
    trace := [Event.select "@logs.example.com"] }

/-- The value of a string of decimal digits. -/
def decimalValue (cs : List Char) : Nat :=
  cs.foldl (fun n c => n * 10 + (c.toNat - '0'.toNat)) 0

/-- The string `port_str` is a decimal numeral (one or more digits `0`-`9`,
nothing else) whose value `p` fits 16 bits. -/
def IsPortNumeral (port_str : String) (p : Nat) : Prop :=
  port_str.data ≠ [] ∧ (∀ c ∈ port_str.data, c.isDigit = true) ∧
  decimalValue port_str.data = p ∧ p ≤ 65535

/-- The pool `freshPool servers` right after the selection step has taken its
first server `sel`. -/
def freshSelected (servers : List String) (sel : String) : Sys :=
  { pool := { (freshPool servers).pool with roundrobin := 1, addresses := some [] },
    trace := [Event.select sel] }

/-- The pool built by `demoEnv` from `a.example.com:5043`. -/
def demoBuilt : Sys :=
  { pool := { servers := ["a.example.com:5043"], rfc2782 := false, rfc2782Service := "",
              roundrobin := 0, host_is_ip := false, host := "", addresses := none },
    trace := [Event.perm 1] }

/-- The pool `demoBuilt` after one call of `Next`: the second address of
`a.example.com` is still queued. -/
def demoQueued : Sys :=
  { pool := { servers := ["a.example.com:5043"], rfc2782 := false, rfc2782Service := "",
              roundrobin := 1, host_is_ip := false, host := "a.example.com",
              addresses := some [⟨⟨[192, 0, 2, 2]⟩, 5043⟩] },
    trace := [Event.perm 1, Event.select "a.example.com:5043", Event.lookupIP "a.example.com"] }

/-- The states a pool built from `servers` can be in between two calls of its
public methods, when `NextServer` is only called in states that satisfy
`allow`. -/
inductive ReachableVia (env : Env) (servers : List String) (allow : Sys → Prop) : Sys → Prop where
  | init {s : Sys} : NewAddressPool env servers = some s → ReachableVia env servers allow s
  | next {s s1 : Sys} {r : NextResult} :
      ReachableVia env servers allow s → Next env s = some (r, s1) →
      ReachableVia env servers allow s1
  | nextServer {s s1 : Sys} {r : String × Option PoolError} :
      ReachableVia env servers allow s → allow s → NextServer env s = some (r, s1) →
      ReachableVia env servers allow s1
  | setRfc2782 {s : Sys} (enabled : Bool) (service : String) :
      ReachableVia env servers allow s →
      ReachableVia env servers allow (SetRfc2782 s enabled service)

/-- The `(service, protocol)` pair of an SRV query in the pool's current mode:
the configured service and `tcp` under RFC 2782, two empty strings otherwise. -/
def srvQuery (p : Pool) : String × String :=
  if p.rfc2782 then (p.rfc2782Service, "tcp") else ("", "")

/-- What the pool makes of the resolver's answer to an SRV query for `name`,
whatever the mode: an error for a failed or empty answer, the records
otherwise. -/
def srvOutcome (name : String) : Except String (List SRV) → Except PoolError (List SRV)
  | .error err => .error (.srvLookupFailure name err)
  | .ok [] => .error (.srvNoTargets name)
  | .ok (r :: rs) => .ok (r :: rs)

/-- What `NextServer` returns for an `@name` specifier, given the outcome of
the SRV query. -/
def srvConnectTarget (env : Env) : Except PoolError (List SRV) → String × Option PoolError
  | .error err => ("", some err)
  | .ok [] => ("", none)
  | .ok (r :: _) => (env.JoinHostPort r.Target (toString r.Port), none)

/-- The pool `@logs.example.com`, `backup:9000` switched to RFC 2782 mode with
the service `courier`. -/
def demoRfcPool : Sys :=
  SetRfc2782 (freshPool ["@logs.example.com", "backup:9000"]) true "courier"

/-- The shuffles and selections of a history, in the order they happened. -/
def skeleton (tr : List Event) : List Event :=
  tr.filter (fun e => match e with
    | .perm _ => true
    | .select _ => true
    | _ => false)

/-- The selections `sel`, numbered from `k`, each as its event, with a shuffle
of `N` servers right before every selection whose number is a positive
multiple of `N`. -/
def withShuffles (N : Nat) : Nat → List String → List Event
  | _, [] => []
  | k, x :: xs =>
    (if k ≠ 0 ∧ k % N = 0 then [Event.perm N] else []) ++
      Event.select x :: withShuffles N (k + 1) xs

/-- The shuffles of a pool built from `servers` happened at construction and
right before the selections numbered `N`, `2N`, ... (counting from 0), and at
no other time. -/
def ShuffleInv (servers : List String) (s : Sys) : Prop :=
  skeleton s.trace =
    Event.perm servers.length :: withShuffles servers.length 0 (selections s.trace)

/-- The state a run that started in `s` and produced `L` ends in. -/
def endState (s : Sys) : List (NextResult × Sys) → Sys
  | [] => s
  | x :: xs => endState x.2 xs

/-- A resolver world for the two-server example: every shuffle reverses the
list, `logs.example.com` has two SRV targets, and each target and `backup`
have one address. -/
def cycleEnv : Env where
  Perm := fun _ n => (List.range n).reverse
  LookupSRV := fun _ _ _ name =>
    if name = "logs.example.com" then
      .ok [⟨"t1.example.com", 5043, 10, 0⟩, ⟨"t2.example.com", 5044, 20, 0⟩]
    else .error "no such host"
  LookupIP := fun _ host =>
    if host = "t1.example.com" then .ok [⟨[192, 0, 2, 1]⟩]
    else if host = "t2.example.com" then .ok [⟨[192, 0, 2, 2]⟩]
    else if host = "backup" then .ok [⟨[192, 0, 2, 9]⟩]
    else .error "no such host"
  ParseIP := fun _ => none
  SplitHostPort := splitLastColon
  JoinHostPort := demoEnv.JoinHostPort
  TCPAddrString := demoEnv.TCPAddrString

/-- The addresses `cycleEnv` answers for the SRV targets of `logs.example.com`. -/
def cycleAns (target : String) : List NetIP :=
  if target = "t1.example.com" then [⟨[192, 0, 2, 1]⟩]
  else if target = "t2.example.com" then [⟨[192, 0, 2, 2]⟩]
  else []

/-- The description the specifier `sel` calls for on the address `a`: for
`@name` the address with `name` in parentheses; for `host:port` the bare
address when the host is a literal IP, and the address with the host in
parentheses otherwise. -/
def expectedDesc (env : Env) (sel : String) (a : TCPAddr) : String :=
  if sel.data.head? = some '@' then
    env.TCPAddrString a ++ " (" ++ String.mk (sel.data.drop 1) ++ ")"
  else if (env.ParseIP (env.SplitHostPort sel).1).isSome then env.TCPAddrString a
  else env.TCPAddrString a ++ " (" ++ (env.SplitHostPort sel).1 ++ ")"

/-- The host fields of the pool are those of the specifier that built the
queue, which is the last one selected. -/
def LabelInv (env : Env) (s : Sys) : Prop :=
  s.pool.addresses = none ∨
  ∃ sel, (selections s.trace).getLast? = some sel ∧
    ∀ a, describe env s.pool.host_is_ip s.pool.host a = expectedDesc env sel a

/-- A state in which `NextServer` does not disturb the host fields of a queue
in use: the queue is exhausted, or the specifier `NextServer` would take is
not an `@name`. -/
def quietNextServer (s : Sys) : Prop :=
  s.pool.addresses = none ∨
  ∀ sel, goIndex s.pool.servers (Int.tmod s.pool.roundrobin s.pool.servers.length) = some sel →
    sel.data.head? ≠ some '@'

/-- The pool `demoQueued` after one more call of `Next`: the queue is exhausted. -/
def demoDrained : Sys :=
  { demoQueued with pool := { demoQueued.pool with addresses := none } }

/-- Every target of `recs` resolves, record by record, to the address lists
`ips`: a literal IP stands for itself and is not looked up; any other target
answers, when it is looked up (at the history `tr` extended by the lookups of
the earlier records), the non-empty list given for its record. -/
def TargetsResolve (env : Env) : List Event → List SRV → List (List NetIP) → Prop
  | _, [], ips => ips = []
  | tr, r :: rest, ips =>
    match ips with
    | [] => False
    | l :: ls =>
      match env.ParseIP r.Target with
      | some ip => l = [ip] ∧ TargetsResolve env tr rest ls
      | none =>
        env.LookupIP tr r.Target = .ok l ∧ l ≠ [] ∧
          TargetsResolve env (tr ++ [Event.lookupIP r.Target]) rest ls

/-- The concatenation, in record order, of each record's addresses, each
paired with that record's port. -/
def srvQueue : List SRV → List (List NetIP) → List TCPAddr
  | r :: rest, l :: ls => l.map (fun ip => (⟨ip, r.Port⟩ : TCPAddr)) ++ srvQueue rest ls
  | _, _ => []

/-- A resolver world with round-robin DNS: `pair.example.com` has two SRV
records with the same target `t.example.com`, and the two addresses of
`t.example.com` come in the opposite order at every other lookup. -/
def rotEnv : Env where
  Perm := fun _ n => List.range n
  LookupSRV := fun _ _ _ name =>
    if name = "pair.example.com" then
      .ok [⟨"t.example.com", 5043, 10, 0⟩, ⟨"t.example.com", 5044, 20, 0⟩]
    else .error "no such host"
  LookupIP := fun tr host =>
    if host = "t.example.com" then
      if (tr.filter (fun e => e == Event.lookupIP "t.example.com")).length % 2 = 0 then
        .ok [⟨[192, 0, 2, 1]⟩, ⟨[192, 0, 2, 2]⟩]
      else .ok [⟨[192, 0, 2, 2]⟩, ⟨[192, 0, 2, 1]⟩]
    else .error "no such host"
  ParseIP := demoEnv.ParseIP
  SplitHostPort := splitLastColon
  JoinHostPort := demoEnv.JoinHostPort
  TCPAddrString := demoEnv.TCPAddrString

/-- The SRV records `rotEnv` answers for `pair.example.com`. -/
def rotRecs : List SRV :=
  [⟨"t.example.com", 5043, 10, 0⟩, ⟨"t.example.com", 5044, 20, 0⟩]

/-- The pool `@pair.example.com` right after the selection step has taken its
server. -/
def rotSelected : Sys :=
  { pool := { servers := ["@pair.example.com"], rfc2782 := false,
              rfc2782Service := "", roundrobin := 1, host_is_ip := false, host := "",
              addresses := some [] },
    trace := [Event.select "@pair.example.com"] }

/-- The pool built by `demoEnv` from `10.0.0.1:9000`, `10.0.0.2:9000`. -/
def demoPair : Sys :=
  { pool := { servers := ["10.0.0.1:9000", "10.0.0.2:9000"], rfc2782 := false,
              rfc2782Service := "", roundrobin := 0, host_is_ip := false, host := "",
              addresses := none },
    trace := [Event.perm 2] }

/-- The pool `demoPair` with its cursor at `c`: what `c` calls of `NextServer`
make of `demoPair`, for a `c` the cursor can count up to. -/
def demoCursorAt (c : Int) : Sys :=
  { demoPair with pool := { demoPair.pool with roundrobin := c } }

/-- The pool `demoPair` after three calls of `Next`: the third one found the
cursor at the end of the list, reshuffled, and took the first server of the
new order. -/
def demoThird : Sys :=
  { pool := { servers := ["10.0.0.2:9000", "10.0.0.1:9000"], rfc2782 := false,
              rfc2782Service := "", roundrobin := 1, host_is_ip := true, host := "10.0.0.2",
              addresses := none },
    trace := [Event.perm 2, Event.select "10.0.0.1:9000", Event.select "10.0.0.2:9000",
      Event.perm 2, Event.select "10.0.0.2:9000"] }

/-- The pool `demoThird` after `SetRfc2782(true, "courier")` and one call of
`NextServer`, which took the plain specifier `10.0.0.1:9000`. -/
def demoFourth : Sys :=
  { pool := { demoThird.pool with
      rfc2782 := true, rfc2782Service := "courier", roundrobin := 2 },
    trace := demoThird.trace }

end AddressPool

/-! # Theorems -/

namespace AddressPool

/-! ## The shuffle -/

theorem pickAll_eq_map (l : List String) (p : List Nat) (h : ∀ v ∈ p, v < l.length) :
    pickAll l p = some (p.map (fun v => l.getD v "")) := by
  induction p with
  | nil => rfl
  | cons v vs ih =>
    have hv : v < l.length := h v (List.mem_cons_self _ _)
    have hvs : ∀ w ∈ vs, w < l.length := fun w hw => h w (List.mem_cons_of_mem _ hw)
    simp [pickAll, ih hvs, List.getElem?_eq_getElem hv, List.getD_eq_getElem?_getD]

theorem map_getD_range (l : List String) :
    (List.range l.length).map (fun v => l.getD v "") = l := by
  apply List.ext_getElem
  · simp
  · intro n h₁ h₂
    simp [List.getD_eq_getElem?_getD, List.getElem?_eq_getElem h₂]

theorem pickAll_perm (l : List String) (p : List Nat) (hp : p.Perm (List.range l.length)) :
    ∃ l1, pickAll l p = some l1 ∧ l1.Perm l := by
  refine ⟨p.map (fun v => l.getD v ""), pickAll_eq_map l p ?_, ?_⟩
  · intro v hv
    exact List.mem_range.mp ((hp.mem_iff).mp hv)
  · have h := hp.map (fun v => l.getD v "")
    rw [map_getD_range] at h
    exact h

theorem shuffleServers_spec (env : Env) (hperm : env.PermOK) (s : Sys) :
    ∃ l1, l1.Perm s.pool.servers ∧
      shuffleServers env s =
        some { pool := { s.pool with servers := l1 },
               trace := s.trace ++ [Event.perm s.pool.servers.length] } := by
  obtain ⟨l1, h1, h2⟩ := pickAll_perm s.pool.servers _ (hperm s.trace s.pool.servers.length)
  exact ⟨l1, h2, by simp [shuffleServers, h1]⟩

/-! ## Histories -/

theorem selections_append (a b : List Event) :
    selections (a ++ b) = selections a ++ selections b := by
  simp [selections]

theorem lookups_append (a b : List Event) : lookups (a ++ b) = lookups a ++ lookups b := by
  simp [lookups]

theorem shuffles_append (a b : List Event) : shuffles (a ++ b) = shuffles a ++ shuffles b := by
  simp [shuffles]

/-! ## The selection step -/

theorem goIndex_natCast (l : List String) (n : Nat) : goIndex l (n : Int) = l[n]? := by
  simp [goIndex]

theorem goIndex_of_nonneg (l : List String) (i : Int) (h : 0 ≤ i) :
    goIndex l i = l[i.toNat]? := by
  simp [goIndex, Int.not_lt.mpr h]

theorem goIndex_neg (l : List String) (i : Int) (h : i < 0) : goIndex l i = none := by
  simp [goIndex, h]

theorem goInc_eq (x : Int) (h0 : 0 ≤ x) (h1 : x < maxInt) : goInc x = x + 1 := by
  unfold goInc
  unfold maxInt at h1
  omega

theorem selectServer_nonneg (env : Env) (s s1 : Sys) (sel : String)
    (h : selectServer env s = some (sel, s1)) : 0 ≤ s.pool.roundrobin := by
  by_contra hneg
  have hlt : s.pool.roundrobin < 0 := by omega
  have hge : ¬ (s.pool.roundrobin ≥ (s.pool.servers.length : Int)) := by omega
  simp [selectServer, hge, goIndex_neg _ _ hlt] at h

theorem cursorBase_cast (s : Sys) (hrr : 0 ≤ s.pool.roundrobin) :
    ((cursorBase s : Nat) : Int) =
      (if s.pool.servers.length ≤ s.pool.roundrobin then 0 else s.pool.roundrobin) := by
  unfold cursorBase
  split
  · rfl
  · exact Int.toNat_of_nonneg hrr

theorem selectServer_spec (env : Env) (hperm : env.PermOK) (s : Sys)
    (hne : s.pool.servers ≠ []) (hrr : 0 ≤ s.pool.roundrobin) :
    ∃ sel l1 tr1,
      selectServer env s =
        some (sel,
          { pool := { s.pool with
              servers := l1,
              roundrobin := (cursorBase s : Int) + 1 },
            trace := tr1 }) ∧
      l1.Perm s.pool.servers ∧
      l1[cursorBase s]? = some sel ∧
      (s.pool.roundrobin < s.pool.servers.length →
        l1 = s.pool.servers ∧ tr1 = s.trace ++ [Event.select sel]) ∧
      (s.pool.servers.length ≤ s.pool.roundrobin →
        tr1 = s.trace ++ [Event.perm s.pool.servers.length, Event.select sel]) := by
  have hpos : 0 < s.pool.servers.length := List.length_pos.mpr hne
  by_cases h : (s.pool.servers.length : Int) ≤ s.pool.roundrobin
  · obtain ⟨l1, hl1, hsh⟩ := shuffleServers_spec env hperm s
    have hlen : 0 < l1.length := by rw [hl1.length_eq]; exact hpos
    have hb : cursorBase s = 0 := by unfold cursorBase; rw [if_pos h]
    have hg : goIndex l1 0 = some l1[0] := by
      have := goIndex_natCast l1 0
      simpa [List.getElem?_eq_getElem hlen] using this
    refine ⟨l1[0], l1,
      s.trace ++ [Event.perm s.pool.servers.length, Event.select l1[0]], ?_, hl1, ?_, ?_, ?_⟩
    · simp [selectServer, h, hsh, hg, hb]
    · simp [hb, List.getElem?_eq_getElem hlen]
    · intro h2; omega
    · intro _; simp
  · have hlt : s.pool.roundrobin.toNat < s.pool.servers.length := by omega
    have hb : cursorBase s = s.pool.roundrobin.toNat := by unfold cursorBase; rw [if_neg h]
    have hc : ((s.pool.roundrobin.toNat : Nat) : Int) = s.pool.roundrobin :=
      Int.toNat_of_nonneg hrr
    have hg : goIndex s.pool.servers s.pool.roundrobin =
        some s.pool.servers[s.pool.roundrobin.toNat] := by
      rw [goIndex_of_nonneg _ _ hrr, List.getElem?_eq_getElem hlt]
    refine ⟨s.pool.servers[s.pool.roundrobin.toNat], s.pool.servers,
      s.trace ++ [Event.select s.pool.servers[s.pool.roundrobin.toNat]], ?_,
      List.Perm.refl _, ?_, ?_, ?_⟩
    · simp [selectServer, h, hg, hb, hc]
    · simp [hb, List.getElem?_eq_getElem hlt]
    · intro _; exact ⟨rfl, rfl⟩
    · intro h2; omega

theorem selectServer_selected (env : Env) (hperm : env.PermOK) (s : Sys)
    (hne : s.pool.servers ≠ []) (hrr : 0 ≤ s.pool.roundrobin) :
    ∃ sel s1, selectServer env s = some (sel, s1) ∧ Selected s sel s1 ∧
      s1.pool.addresses = s.pool.addresses := by
  obtain ⟨sel, l1, tr1, hsel, hl1, hx, hlt, hge⟩ := selectServer_spec env hperm s hne hrr
  refine ⟨sel, _, hsel, ⟨hl1, rfl, ?_, hx, rfl, rfl, rfl, rfl, hlt, hge⟩, rfl⟩
  have hpos : 0 < s.pool.servers.length := List.length_pos.mpr hne
  unfold cursorBase
  split <;> omega

/-- On a server list as long as a Go slice can be, the increment of the
selection step is the increment of an `int`: it does not wrap. -/
theorem selectServer_no_overflow (env : Env) (hperm : env.PermOK) (s s1 : Sys) (sel : String)
    (hne : s.pool.servers ≠ []) (hlen : (s.pool.servers.length : Int) ≤ maxInt)
    (h : selectServer env s = some (sel, s1)) :
    s1.pool.roundrobin = goInc (cursorBase s) := by
  obtain ⟨sel2, s2, h2, hS, _⟩ :=
    selectServer_selected env hperm s hne (selectServer_nonneg env s s1 sel h)
  rw [h] at h2
  simp only [Option.some.injEq, Prod.mk.injEq] at h2
  obtain ⟨rfl, rfl⟩ := h2
  have hb := hS.2.2.1
  rw [hS.2.1, goInc_eq _ (Int.ofNat_nonneg _) (by omega)]

/-! ## The resolution step -/

theorem Frame.refl (s : Sys) : Frame s s :=
  ⟨rfl, rfl, rfl, rfl, rfl, rfl⟩

theorem Frame.trans {a b c : Sys} (h1 : Frame a b) (h2 : Frame b c) : Frame a c := by
  obtain ⟨a1, a2, a3, a4, a5, a6⟩ := h1
  obtain ⟨b1, b2, b3, b4, b5, b6⟩ := h2
  exact ⟨b1.trans a1, b2.trans a2, b3.trans a3, b4.trans a4, b5.trans a5, b6.trans a6⟩

theorem foldl_appendAddr (port : Nat) (ips : List NetIP) (q : List TCPAddr) :
    ips.foldl (fun acc ip => appendAddr acc ⟨ip, port⟩) (some q) =
      some (q ++ ips.map (fun ip => ⟨ip, port⟩)) := by
  induction ips generalizing q with
  | nil => simp
  | cons ip rest ih =>
    simp only [List.foldl, List.map]
    rw [appendAddr, Option.getD_some, ih]
    simp

theorem foldl_appendAddr_ne_nil (port : Nat) (ips : List NetIP) (hne : ips ≠ [])
    (a : Option (List TCPAddr)) :
    ips.foldl (fun acc ip => appendAddr acc ⟨ip, port⟩) a =
      some (a.getD [] ++ ips.map (fun ip => ⟨ip, port⟩)) := by
  cases ips with
  | nil => exact absurd rfl hne
  | cons ip rest =>
    simp only [List.foldl, List.map]
    rw [appendAddr, foldl_appendAddr]
    simp

theorem populateLookup_literal (env : Env) (host : String) (port : Nat) (s : Sys) (ip : NetIP)
    (h : env.ParseIP host = some ip) :
    populateLookup env host port s =
      ((true, none),
        { s with pool := { s.pool with
            addresses := some (s.pool.addresses.getD [] ++ [⟨ip, port⟩]) } }) := by
  simp [populateLookup, h, appendAddr]

theorem populateLookup_resolved (env : Env) (host : String) (port : Nat) (s : Sys)
    (ips : List NetIP) (h : env.ParseIP host = none) (hl : env.LookupIP s.trace host = .ok ips)
    (hne : ips ≠ []) :
    populateLookup env host port s =
      ((false, none),
        { pool := { s.pool with
            addresses := some (s.pool.addresses.getD [] ++ ips.map (fun ip => ⟨ip, port⟩)) },
          trace := s.trace ++ [Event.lookupIP host] }) := by
  simp [populateLookup, h, hl, hne, foldl_appendAddr_ne_nil port ips hne]

theorem populateLookup_frame (env : Env) (host : String) (port : Nat) (s : Sys) :
    Frame s (populateLookup env host port s).2 ∧
    (populateLookup env host port s).2.pool.host = s.pool.host ∧
    (populateLookup env host port s).2.pool.host_is_ip = s.pool.host_is_ip ∧
    ((populateLookup env host port s).1.2 = none →
      ∃ a l, (populateLookup env host port s).2.pool.addresses =
        some (s.pool.addresses.getD [] ++ a :: l)) ∧
    ((populateLookup env host port s).1.2 ≠ none →
      (populateLookup env host port s).1.1 = false) := by
  cases hp : env.ParseIP host with
  | some ip =>
    rw [populateLookup_literal env host port s ip hp]
    exact ⟨Frame.refl _, rfl, rfl, fun _ => ⟨_, [], rfl⟩, fun h => absurd rfl h⟩
  | none =>
    cases hl : env.LookupIP s.trace host with
    | error err =>
      simp [populateLookup, hp, hl, Frame, selections_append, shuffles_append, selections,
        shuffles]
    | ok ips =>
      by_cases hne : ips = []
      · subst hne
        simp [populateLookup, hp, hl, Frame, selections_append, shuffles_append, selections,
          shuffles]
      · rw [populateLookup_resolved env host port s ips hp hl hne]
        refine ⟨?_, rfl, rfl, ?_, fun h => absurd rfl h⟩
        · simp [Frame, selections_append, shuffles_append, selections, shuffles]
        · intro _
          cases ips with
          | nil => exact absurd rfl hne
          | cons ip rest => exact ⟨_, _, rfl⟩

theorem processSrv_spec (env : Env) (server : String) (s : Sys) :
    Frame s (processSrv env server s).2 ∧
    (processSrv env server s).2.pool.addresses = s.pool.addresses ∧
    (processSrv env server s).2.pool.host = server ∧
    (processSrv env server s).2.pool.host_is_ip = false ∧
    (∀ srvs, (processSrv env server s).1 = .ok srvs → srvs ≠ []) := by
  cases hl : env.LookupSRV s.trace (if s.pool.rfc2782 then s.pool.rfc2782Service else "")
      (if s.pool.rfc2782 then "tcp" else "") server with
  | error err =>
    simp [processSrv, hl, Frame, selections_append, shuffles_append, selections, shuffles]
  | ok srvs =>
    by_cases hne : srvs = []
    · subst hne
      simp [processSrv, hl, Frame, selections_append, shuffles_append, selections, shuffles]
    · simp [processSrv, hl, hne, Frame, selections_append, shuffles_append, selections,
        shuffles]

theorem populateTargets_frame (env : Env) (srvs : List SRV) (s : Sys) :
    Frame s (populateTargets env srvs s).2 ∧
    (populateTargets env srvs s).2.pool.host = s.pool.host ∧
    (populateTargets env srvs s).2.pool.host_is_ip = s.pool.host_is_ip ∧
    ((populateTargets env srvs s).1 = none → srvs ≠ [] →
      ∃ a l, (populateTargets env srvs s).2.pool.addresses =
        some (s.pool.addresses.getD [] ++ a :: l)) := by
  induction srvs generalizing s with
  | nil => exact ⟨Frame.refl _, rfl, rfl, fun _ h => absurd rfl h⟩
  | cons srv rest ih =>
    obtain ⟨f1, h1, i1, ok1, _⟩ := populateLookup_frame env srv.Target srv.Port s
    unfold populateTargets
    generalize populateLookup env srv.Target srv.Port s = r at f1 h1 i1 ok1
    obtain ⟨⟨b, e⟩, s1⟩ := r
    cases e with
    | some err => exact ⟨f1, h1, i1, fun h => by simp at h⟩
    | none =>
      obtain ⟨f2, h2, i2, ok2⟩ := ih s1
      refine ⟨f1.trans f2, h2.trans h1, i2.trans i1, ?_⟩
      intro hnone _
      obtain ⟨a, l, hq⟩ := ok1 rfl
      simp only at hq
      by_cases hr : rest = []
      · subst hr
        exact ⟨a, l, by simpa [populateTargets] using hq⟩
      · obtain ⟨a2, l2, hq2⟩ := ok2 hnone hr
        refine ⟨a, l ++ a2 :: l2, ?_⟩
        simp only at hq2 ⊢
        rw [hq2, hq]
        simp

theorem resolveSelected_frame (env : Env) (selected : String) (s : Sys) :
    Frame s (resolveSelected env selected s).2 ∧
    ((resolveSelected env selected s).1 = none →
      ∃ a l, (resolveSelected env selected s).2.pool.addresses =
        some (s.pool.addresses.getD [] ++ a :: l)) := by
  unfold resolveSelected
  by_cases hat : selected.data.head? = some '@'
  · simp only [hat, if_true]
    obtain ⟨f1, q1, _, _, ne1⟩ := processSrv_spec env (String.mk (selected.data.drop 1)) s
    generalize processSrv env (String.mk (selected.data.drop 1)) s = r at f1 q1 ne1
    obtain ⟨res, s1⟩ := r
    cases res with
    | error err => exact ⟨f1, fun h => by simp at h⟩
    | ok srvs =>
      obtain ⟨f2, _, _, ok2⟩ := populateTargets_frame env srvs s1
      refine ⟨f1.trans f2, fun h => ?_⟩
      obtain ⟨a, l, hq⟩ := ok2 h (ne1 srvs rfl)
      simp only at q1
      exact ⟨a, l, by rw [← q1]; exact hq⟩
  · simp only [hat, if_false]
    cases hsplit : (env.SplitHostPort selected).2.2 with
    | some e => exact ⟨Frame.refl _, fun h => by simp at h⟩
    | none =>
      cases hport : ParseUint16 (env.SplitHostPort selected).2.1 with
      | none => exact ⟨Frame.refl _, fun h => by simp at h⟩
      | some port =>
        simp only
        obtain ⟨f1, _, _, ok1, _⟩ := populateLookup_frame env (env.SplitHostPort selected).1 port
          { s with pool := { s.pool with host := (env.SplitHostPort selected).1 } }
        generalize populateLookup env (env.SplitHostPort selected).1 port
          { s with pool := { s.pool with host := (env.SplitHostPort selected).1 } } = r
          at f1 ok1
        obtain ⟨⟨b, e⟩, s2⟩ := r
        exact ⟨f1, ok1⟩

/-! ## One call of `Next` -/

theorem popAddress_cons (env : Env) (s : Sys) (a : TCPAddr) (q : List TCPAddr)
    (h : s.pool.addresses = some (a :: q)) :
    popAddress env s =
      some (⟨some a, describe env s.pool.host_is_ip s.pool.host a, none⟩,
        { s with pool := { s.pool with addresses := if q = [] then none else some q } }) := by
  cases q with
  | nil => simp [popAddress, h]
  | cons b q => simp [popAddress, h]

theorem Next_queued (env : Env) (s : Sys) (a : TCPAddr) (q : List TCPAddr)
    (h : s.pool.addresses = some (a :: q)) :
    Next env s =
      some (⟨some a, describe env s.pool.host_is_ip s.pool.host a, none⟩,
        { s with pool := { s.pool with addresses := if q = [] then none else some q } }) := by
  rw [← popAddress_cons env s a q h]
  simp [Next, h]

theorem Next_exhausted_error (env : Env) (s s1 s2 : Sys) (sel : String) (err : PoolError)
    (h : s.pool.addresses = none)
    (hsel : selectServer env { s with pool := { s.pool with addresses := some [] } }
      = some (sel, s1))
    (hres : resolveSelected env sel s1 = (some err, s2)) :
    Next env s =
      some (⟨none, "", some err⟩, { s2 with pool := { s2.pool with addresses := none } }) := by
  simp [Next, h, populateAddresses, hsel, hres]

theorem Next_exhausted_ok (env : Env) (s s1 s2 : Sys) (sel : String) (a : TCPAddr)
    (q : List TCPAddr) (h : s.pool.addresses = none)
    (hsel : selectServer env { s with pool := { s.pool with addresses := some [] } }
      = some (sel, s1))
    (hres : resolveSelected env sel s1 = (none, s2))
    (hq : s2.pool.addresses = some (a :: q)) :
    Next env s =
      some (⟨some a, describe env s2.pool.host_is_ip s2.pool.host a, none⟩,
        { s2 with pool := { s2.pool with addresses := if q = [] then none else some q } }) := by
  rw [← popAddress_cons env s2 a q hq]
  simp [Next, h, populateAddresses, hsel, hres]

/-- One call of `Next` on an exhausted pool: the selection, the resolution,
and what `Next` makes of either outcome. -/
theorem Next_exhausted (env : Env) (hperm : env.PermOK) (s : Sys)
    (hne : s.pool.servers ≠ []) (h : s.pool.addresses = none)
    (hrr : 0 ≤ s.pool.roundrobin) :
    ∃ sel s1 e s2,
      selectServer env { s with pool := { s.pool with addresses := some [] } } = some (sel, s1) ∧
      Selected s sel s1 ∧ s1.pool.addresses = some [] ∧
      resolveSelected env sel s1 = (e, s2) ∧ Frame s1 s2 ∧
      ((∃ err, e = some err ∧
          Next env s =
            some (⟨none, "", some err⟩,
              { s2 with pool := { s2.pool with addresses := none } })) ∨
       (e = none ∧ ∃ a q, s2.pool.addresses = some (a :: q) ∧
          Next env s =
            some (⟨some a, describe env s2.pool.host_is_ip s2.pool.host a, none⟩,
              { s2 with pool := { s2.pool with
                  addresses := if q = [] then none else some q } }))) := by
  obtain ⟨sel, s1, hsel, hS, hq1⟩ :=
    selectServer_selected env hperm { s with pool := { s.pool with addresses := some [] } } hne hrr
  obtain ⟨fr, hok⟩ := resolveSelected_frame env sel s1
  generalize hres : resolveSelected env sel s1 = r at fr hok
  obtain ⟨e, s2⟩ := r
  refine ⟨sel, s1, e, s2, hsel, hS, hq1, hres, fr, ?_⟩
  cases e with
  | some err => exact Or.inl ⟨err, rfl, Next_exhausted_error env s s1 s2 sel err h hsel hres⟩
  | none =>
    obtain ⟨a, l, hq⟩ := hok rfl
    rw [hq1] at hq
    simp only [Option.getD_some, List.nil_append] at hq
    exact Or.inr ⟨rfl, a, l, hq, Next_exhausted_ok env s s1 s2 sel a l h hsel hres hq⟩

/-! ## Round-robin cycles -/

theorem cycle_advance (servers S : List String) (r : Nat) (sel : List String) (x : String)
    (h : CycleState servers S r sel) (hr : r < servers.length) (hx : S[r]? = some x) :
    CycleState servers S (r + 1) (sel ++ [x]) := by
  obtain ⟨hS, _, _, q, hlen, hdrop, hch⟩ := h
  refine ⟨hS, hr, fun _ => Nat.succ_pos r, q, ?_, ?_, ?_⟩
  · simp [hlen]; omega
  · rw [List.drop_append_of_le_length (by omega), hdrop, List.take_succ, hx]
    rfl
  · intro c hc
    have h1 : (c + 1) * servers.length ≤ q * servers.length :=
      Nat.mul_le_mul_right _ hc
    have h2 : c * servers.length + servers.length ≤ sel.length := by
      rw [Nat.succ_mul] at h1; omega
    rw [List.drop_append_of_le_length (by omega),
      List.take_append_of_le_length (by rw [List.length_drop]; omega)]
    exact hch c hc

theorem cycle_wrap (servers S l1 : List String) (r : Nat) (sel : List String) (x : String)
    (h : CycleState servers S r sel) (hpos : 0 < servers.length) (hr : servers.length ≤ r)
    (hl1 : l1.Perm S) (hx : l1[0]? = some x) :
    CycleState servers l1 1 (sel ++ [x]) := by
  obtain ⟨hS, hle, _, q, hlen, hdrop, hch⟩ := h
  have hrN : r = servers.length := Nat.le_antisymm hle hr
  have hSlen : S.length = servers.length := hS.length_eq
  refine ⟨hl1.trans hS, hpos, fun _ => Nat.one_pos, q + 1, ?_, ?_, ?_⟩
  · simp [hlen, Nat.succ_mul]; omega
  · have : (q + 1) * servers.length = sel.length := by rw [Nat.succ_mul]; omega
    rw [this, List.drop_append_of_le_length (Nat.le_refl _), List.drop_length,
      List.take_succ, hx]
    rfl
  · intro c hc
    have hcq : c ≤ q := Nat.lt_succ_iff.mp hc
    have h1 : c * servers.length ≤ q * servers.length := Nat.mul_le_mul_right _ hcq
    rw [List.drop_append_of_le_length (by omega),
      List.take_append_of_le_length (by rw [List.length_drop]; omega)]
    rcases Nat.lt_or_ge c q with hlt | hge
    · exact hch c hlt
    · have hceq : c = q := Nat.le_antisymm hcq hge
      rw [hceq, hdrop, hrN, List.take_take, Nat.min_self,
        List.take_of_length_le (Nat.le_of_eq hSlen)]
      exact hS

theorem cycle_chunks (servers S : List String) (r : Nat) (sel : List String)
    (h : CycleState servers S r sel) (hpos : 0 < servers.length) (c : Nat)
    (hc : (c + 1) * servers.length ≤ sel.length) :
    ((sel.drop (c * servers.length)).take servers.length).Perm servers := by
  obtain ⟨hS, hle, _, q, hlen, hdrop, hch⟩ := h
  rcases Nat.lt_or_ge c q with hlt | hge
  · exact hch c hlt
  · have h1 : q * servers.length ≤ c * servers.length := Nat.mul_le_mul_right _ hge
    have h2 : (c + 1) * servers.length ≤ (q + 1) * servers.length := by
      rw [Nat.succ_mul q]; omega
    have hcq : c + 1 ≤ q + 1 := Nat.le_of_mul_le_mul_right h2 hpos
    have hceq : c = q := by omega
    have hrN : r = servers.length := by
      rw [hceq, Nat.succ_mul] at hc; omega
    rw [hceq, hdrop, hrN, List.take_take, Nat.min_self,
      List.take_of_length_le (Nat.le_of_eq hS.length_eq)]
    exact hS

theorem cycle_select (servers : List String) (s s1 : Sys) (sel : String)
    (hpos : 0 < servers.length) (hrr0 : 0 ≤ s.pool.roundrobin)
    (h : CycleState servers s.pool.servers s.pool.roundrobin.toNat (selections s.trace))
    (hS : Selected s sel s1) :
    (0 ≤ s1.pool.roundrobin ∧
      CycleState servers s1.pool.servers s1.pool.roundrobin.toNat (selections s1.trace)) ∧
    selections s1.trace = selections s.trace ++ [sel] := by
  obtain ⟨hperm, hrr, hbase, hx, _, _, _, _, hlt, hge⟩ := hS
  have hlen : s.pool.servers.length = servers.length := h.1.length_eq
  have hnn : 0 ≤ s1.pool.roundrobin := by rw [hrr]; omega
  have hrr1 : s1.pool.roundrobin.toNat = cursorBase s + 1 := by rw [hrr]; omega
  rcases Nat.lt_or_ge s.pool.roundrobin.toNat s.pool.servers.length with hr | hr
  · have hr2 : s.pool.roundrobin < s.pool.servers.length := by omega
    obtain ⟨hsrv, htr⟩ := hlt hr2
    have hb : cursorBase s = s.pool.roundrobin.toNat := by
      unfold cursorBase; rw [if_neg (by omega)]
    have hsel : selections s1.trace = selections s.trace ++ [sel] := by
      rw [htr, selections_append]; rfl
    rw [hrr1, hb, hsrv, hsel]
    rw [hb, hsrv] at hx
    exact ⟨⟨hnn, cycle_advance servers _ _ _ sel h (by omega) hx⟩, rfl⟩
  · have hr2 : (s.pool.servers.length : Int) ≤ s.pool.roundrobin := by omega
    have htr := hge hr2
    have hb : cursorBase s = 0 := by
      unfold cursorBase; rw [if_pos hr2]
    have hsel : selections s1.trace = selections s.trace ++ [sel] := by
      rw [htr, selections_append]; rfl
    rw [hrr1, hb, hsel]
    rw [hb] at hx
    exact ⟨⟨hnn, cycle_wrap servers _ _ _ _ sel h hpos (by omega) hperm hx⟩, rfl⟩

/-- One call of `Next` keeps the invariant; it adds one selection exactly when
the queue was exhausted. -/
theorem Next_cycle (env : Env) (hperm : env.PermOK) (servers : List String)
    (hne : servers ≠ []) (s : Sys) (hinv : CycleInv servers s) :
    ∃ r s1, Next env s = some (r, s1) ∧ CycleInv servers s1 ∧
      ((s.pool.addresses = none ∧ ∃ sel, selections s1.trace = selections s.trace ++ [sel]) ∨
       (s.pool.addresses ≠ none ∧ selections s1.trace = selections s.trace ∧
          s1.pool.roundrobin = s.pool.roundrobin ∧ r.err = none)) := by
  obtain ⟨hq, hnn, hc⟩ := hinv
  have hpos : 0 < servers.length := List.length_pos.mpr hne
  have hsne : s.pool.servers ≠ [] := by
    intro h0
    have := hc.1.length_eq
    rw [h0] at this
    simp at this
    omega
  cases hadd : s.pool.addresses with
  | some l =>
    cases l with
    | nil => exact absurd hadd hq
    | cons a q =>
      refine ⟨_, _, Next_queued env s a q hadd, ⟨?_, hnn, hc⟩, Or.inr ⟨by simp, rfl, rfl, rfl⟩⟩
      by_cases hqe : q = [] <;> simp [hqe]
  | none =>
    obtain ⟨sel, s1, e, s2, _, hS, _, _, ⟨f1, f2, _, _, f5, _⟩, hcases⟩ :=
      Next_exhausted env hperm s hsne hadd hnn
    obtain ⟨⟨hnn1, hc1⟩, hsel1⟩ := cycle_select servers s s1 sel hpos hnn hc hS
    rcases hcases with ⟨err, _, hN⟩ | ⟨_, a, q, _, hN⟩
    · refine ⟨_, _, hN, ⟨by simp, ?_, ?_⟩, Or.inl ⟨rfl, sel, ?_⟩⟩
      · simpa [f2] using hnn1
      · simpa [f1, f2, f5] using hc1
      · simpa [f5] using hsel1
    · refine ⟨_, _, hN, ⟨?_, ?_, ?_⟩, Or.inl ⟨rfl, sel, ?_⟩⟩
      · by_cases hqe : q = [] <;> simp [hqe]
      · simpa [f2] using hnn1
      · simpa [f1, f2, f5] using hc1
      · simpa [f5] using hsel1

/-! ## Construction and runs -/

theorem NewAddressPool_spec (env : Env) (hperm : env.PermOK) (servers : List String) :
    ∃ l1, l1.Perm servers ∧
      NewAddressPool env servers =
        some { pool := { servers := l1, rfc2782 := false, rfc2782Service := "",
                         roundrobin := 0, host_is_ip := false, host := "", addresses := none },
               trace := [Event.perm servers.length] } := by
  obtain ⟨l1, h1, h2⟩ := shuffleServers_spec env hperm
    { pool := { servers := servers, rfc2782 := false, rfc2782Service := "",
                roundrobin := 0, host_is_ip := false, host := "", addresses := none },
      trace := [] }
  exact ⟨l1, h1, by simpa [NewAddressPool] using h2⟩

theorem NewAddressPool_cycle (env : Env) (hperm : env.PermOK) (servers : List String) :
    ∃ s0, NewAddressPool env servers = some s0 ∧ CycleInv servers s0 ∧
      selections s0.trace = [] ∧ s0.pool.roundrobin = 0 ∧ s0.pool.addresses = none := by
  obtain ⟨l1, h1, h2⟩ := NewAddressPool_spec env hperm servers
  refine ⟨_, h2, ⟨by simp, Int.le_refl 0, h1, Nat.zero_le _, ?_, 0, ?_, ?_, ?_⟩, rfl, rfl, rfl⟩
  · intro h; simp [selections] at h
  · simp [selections]
  · simp [selections]
  · intro c hc; omega

/-- A run of `Next` from a state satisfying the invariant never panics, ends in
a state satisfying it, and its resolution log lists the selections it added. -/
theorem run_cycle (env : Env) (hperm : env.PermOK) (servers : List String)
    (hne : servers ≠ []) (n : Nat) (s : Sys) (hinv : CycleInv servers s) :
    ∃ log rs sn, resolutionLog env n s = some log ∧ runNext env n s = some (rs, sn) ∧
      CycleInv servers sn ∧
      selections sn.trace = selections s.trace ++ log.map (fun e => e.1) := by
  induction n generalizing s with
  | zero => exact ⟨[], [], s, rfl, rfl, hinv, by simp⟩
  | succ n ih =>
    obtain ⟨r, s1, hN, hinv1, hsel⟩ := Next_cycle env hperm servers hne s hinv
    obtain ⟨log, rs, sn, hlog, hrun, hinvn, hseln⟩ := ih s1 hinv1
    refine ⟨((selections s1.trace).drop (selections s.trace).length).map
        (fun server => (server, r.err.isNone)) ++ log, r :: rs, sn, ?_, ?_, hinvn, ?_⟩
    · simp only [resolutionLog, hN, hlog]
    · simp only [runNext, hN, hrun]
    · rcases hsel with ⟨_, sel, h1⟩ | ⟨_, h1, _, _⟩
      · rw [hseln, h1]
        simp
      · rw [hseln, h1]
        simp

theorem demoEnv_permOK : demoEnv.PermOK := by
  intro tr n
  show (if tr = [] then List.range n else (List.range n).reverse).Perm (List.range n)
  split
  · exact List.Perm.refl _
  · exact List.reverse_perm _

/-! ## C1: round-robin coverage -/

/-- C1 (as stated, refuted): a run of `N` consecutive successful resolutions
need not cover the list.  With two literal servers, identity permutation at
construction and the reversed one at the reshuffle, the second and third
resolutions both take `10.0.0.2:9000`; and when `nohost:9000` fails to resolve,
the first two successful resolutions both take `10.0.0.1:9000`. -/
theorem roundRobin_window_counterexample :
    demoEnv.PermOK ∧
    (NewAddressPool demoEnv ["10.0.0.1:9000", "10.0.0.2:9000"]).bind (resolutionLog demoEnv 3)
      = some [("10.0.0.1:9000", true), ("10.0.0.2:9000", true), ("10.0.0.2:9000", true)] ∧
    ¬ (((successfulSelections
          [("10.0.0.1:9000", true), ("10.0.0.2:9000", true), ("10.0.0.2:9000", true)]).drop 1).take
        2).Perm ["10.0.0.1:9000", "10.0.0.2:9000"] ∧
    (NewAddressPool demoEnv ["nohost:9000", "10.0.0.1:9000"]).bind (resolutionLog demoEnv 3)
      = some [("nohost:9000", false), ("10.0.0.1:9000", true), ("10.0.0.1:9000", true)] ∧
    ¬ ((successfulSelections
          [("nohost:9000", false), ("10.0.0.1:9000", true), ("10.0.0.1:9000", true)]).take
        2).Perm ["nohost:9000", "10.0.0.1:9000"] := by
  refine ⟨demoEnv_permOK, by decide, by decide, by decide, by decide⟩

/-- C1 (amended): for a pool built from a non-empty list of `N` servers and
driven by `Next` alone, number the server resolutions 1, 2, 3, ... counting
failed and successful ones alike; no call panics, and for every `c` the
resolutions numbered `cN+1 .. (c+1)N` take, as a multiset, exactly the list
given to `NewAddressPool`. -/
theorem roundRobin_cycle_coverage (env : Env) (hperm : env.PermOK) (servers : List String)
    (hne : servers ≠ []) (n : Nat) :
    ∃ s0 log, NewAddressPool env servers = some s0 ∧ resolutionLog env n s0 = some log ∧
      ∀ c, (c + 1) * servers.length ≤ log.length →
        (((log.map (fun e => e.1)).drop (c * servers.length)).take servers.length).Perm
          servers := by
  obtain ⟨s0, h0, hinv, hsel0, _, _⟩ := NewAddressPool_cycle env hperm servers
  obtain ⟨log, rs, sn, hlog, _, hinvn, hseln⟩ := run_cycle env hperm servers hne n s0 hinv
  refine ⟨s0, log, h0, hlog, fun c hc => ?_⟩
  rw [hsel0, List.nil_append] at hseln
  rw [← hseln]
  apply cycle_chunks servers _ _ _ hinvn.2.2 (List.length_pos.mpr hne) c
  rw [hseln, List.length_map]
  exact hc

/-- C1 (amended), at the two-server pool of the counterexample over five calls. -/
theorem roundRobin_cycle_coverage_witness :
    ∃ s0 log, NewAddressPool demoEnv ["10.0.0.1:9000", "10.0.0.2:9000"] = some s0 ∧
      resolutionLog demoEnv 5 s0 = some log ∧
      ∀ c, (c + 1) * ["10.0.0.1:9000", "10.0.0.2:9000"].length ≤ log.length →
        (((log.map (fun e => e.1)).drop (c * ["10.0.0.1:9000", "10.0.0.2:9000"].length)).take
          ["10.0.0.1:9000", "10.0.0.2:9000"].length).Perm ["10.0.0.1:9000", "10.0.0.2:9000"] :=
  roundRobin_cycle_coverage demoEnv demoEnv_permOK ["10.0.0.1:9000", "10.0.0.2:9000"]
    (by decide) 5

/-! ## C2: `IsLastServer` -/

/-- C2 (as stated, refuted): counting only the resolutions that succeeded is
wrong.  In the pool `nohost:9000`, `10.0.0.1:9000` the first resolution fails:
after one call no resolution has succeeded (0 is a multiple of 2) yet
`IsLastServer` is false, and after two calls one has succeeded (1 is not a
multiple of 2) yet `IsLastServer` is true. -/
theorem IsLastServer_successful_count_counterexample :
    demoEnv.PermOK ∧
    ((NewAddressPool demoEnv ["nohost:9000", "10.0.0.1:9000"]).bind
        (resolutionLog demoEnv 1)).map successfulSelections = some [] ∧
    (NewAddressPool demoEnv ["nohost:9000", "10.0.0.1:9000"]).bind
        (fun s0 => (runNext demoEnv 1 s0).map (fun x => IsLastServer x.2)) = some (some false) ∧
    ((NewAddressPool demoEnv ["nohost:9000", "10.0.0.1:9000"]).bind
        (resolutionLog demoEnv 2)).map successfulSelections = some ["10.0.0.1:9000"] ∧
    (NewAddressPool demoEnv ["nohost:9000", "10.0.0.1:9000"]).bind
        (fun s0 => (runNext demoEnv 2 s0).map (fun x => IsLastServer x.2)) = some (some true) := by
  refine ⟨demoEnv_permOK, by decide, by decide, by decide, by decide⟩

/-- C2 (amended): for a non-empty server list, `IsLastServer` is true right
after `NewAddressPool`, and after any number of `Next` calls (none of which
panics) it is true exactly when the number of server selections made since
construction, failed resolutions included, is a multiple of `len(servers)`. -/
theorem IsLastServer_iff_cycle_boundary (env : Env) (hperm : env.PermOK)
    (servers : List String) (hne : servers ≠ []) (n : Nat) :
    ∃ s0 rs sn log, NewAddressPool env servers = some s0 ∧ IsLastServer s0 = some true ∧
      runNext env n s0 = some (rs, sn) ∧ resolutionLog env n s0 = some log ∧
      IsLastServer sn = some (decide (servers.length ∣ log.length)) := by
  have hpos : 0 < servers.length := List.length_pos.mpr hne
  obtain ⟨s0, h0, hinv, hsel0, hrr0, _⟩ := NewAddressPool_cycle env hperm servers
  obtain ⟨log, rs, sn, hlog, hrun, hinvn, hseln⟩ := run_cycle env hperm servers hne n s0 hinv
  have hlen0 : s0.pool.servers.length = servers.length := hinv.2.2.1.length_eq
  refine ⟨s0, rs, sn, log, h0, ?_, hrun, hlog, ?_⟩
  · have hz : ¬ s0.pool.servers.length = 0 := by omega
    simp [IsLastServer, hz, hrr0]
  · obtain ⟨_, hnn, hS, hle, _, q, hlen, _, _⟩ := hinvn
    have hlenn : sn.pool.servers.length = servers.length := hS.length_eq
    rw [hsel0, List.nil_append] at hseln
    rw [hseln, List.length_map] at hlen
    obtain ⟨m, hm⟩ := Int.eq_ofNat_of_zero_le hnn
    have hmn : sn.pool.roundrobin.toNat = m := by rw [hm]; rfl
    rw [hmn] at hlen
    have hdvd : servers.length ∣ log.length ↔ m % servers.length = 0 := by
      rw [hlen, ← Nat.dvd_iff_mod_eq_zero]
      exact (Nat.dvd_add_right (Dvd.intro_left q rfl))
    simp only [IsLastServer, hlenn]
    rw [if_neg (by omega), hm, ← Int.ofNat_tmod]
    by_cases hz : m % servers.length = 0
    · simp [hdvd, hz]
    · simp [hdvd, hz]
      rw [Int.natCast_dvd_natCast, Nat.dvd_iff_mod_eq_zero]
      exact hz

/-- C2 (amended), at the pool whose first server fails, over three calls. -/
theorem IsLastServer_iff_cycle_boundary_witness :
    ∃ s0 rs sn log, NewAddressPool demoEnv ["nohost:9000", "10.0.0.1:9000"] = some s0 ∧
      IsLastServer s0 = some true ∧
      runNext demoEnv 3 s0 = some (rs, sn) ∧ resolutionLog demoEnv 3 s0 = some log ∧
      IsLastServer sn = some (decide (["nohost:9000", "10.0.0.1:9000"].length ∣ log.length)) :=
  IsLastServer_iff_cycle_boundary demoEnv demoEnv_permOK ["nohost:9000", "10.0.0.1:9000"]
    (by decide) 3

/-! ## C3: failure atomicity -/

theorem Selected.trace_facts {s s1 : Sys} {sel : String} (h : Selected s sel s1) :
    selections s1.trace = selections s.trace ++ [sel] ∧ lookups s1.trace = lookups s.trace := by
  obtain ⟨_, _, _, _, _, _, _, _, hlt, hge⟩ := h
  rcases lt_or_le s.pool.roundrobin (s.pool.servers.length : Int) with hr | hr
  · rw [(hlt hr).2]
    simp [selections, lookups]
  · rw [hge hr]
    simp [selections, lookups]

/-- C3: on a pool with a non-empty server list, an exhausted queue and a
cursor that is not negative (the resolution reads `servers[roundrobin]`),
`Next` returns; and if the resolution it triggers (`populateAddresses`)
fails, for whatever reason, `Next` returns `(nil, "", err)` with that error,
the queue is `nil` again, exactly one server specifier was consumed, and the cursor is one
past the cursor the selection read (the old cursor, or 0 when the old cursor
had run off the list). -/
theorem Next_failure_atomic (env : Env) (hperm : env.PermOK) (s : Sys)
    (hne : s.pool.servers ≠ []) (hnil : s.pool.addresses = none)
    (hrr : 0 ≤ s.pool.roundrobin) :
    ∃ r s1, Next env s = some (r, s1) ∧
      (∀ err s2,
        populateAddresses env { s with pool := { s.pool with addresses := some [] } }
          = some (some err, s2) → r.err = some err) ∧
      (r.err ≠ none →
        r.addr = none ∧ r.desc = "" ∧ s1.pool.addresses = none ∧ IsLast s1 = true ∧
        (∃ sel, selections s1.trace = selections s.trace ++ [sel]) ∧
        s1.pool.roundrobin =
          (if s.pool.servers.length ≤ s.pool.roundrobin then 0 else s.pool.roundrobin) + 1) := by
  obtain ⟨sel, s1, e, s2, hsel, hS, _, hres, ⟨_, f2, _, _, f5, _⟩, hcases⟩ :=
    Next_exhausted env hperm s hne hnil hrr
  have hpop : populateAddresses env { s with pool := { s.pool with addresses := some [] } }
      = some (e, s2) := by
    simp [populateAddresses, hsel, hres]
  rcases hcases with ⟨err, he, hN⟩ | ⟨he, a, q, _, hN⟩
  · refine ⟨_, _, hN, ?_, fun _ => ⟨rfl, rfl, rfl, rfl, ⟨sel, ?_⟩, ?_⟩⟩
    · intro err2 s3 h3
      rw [hpop, he] at h3
      simp only [Option.some.injEq, Prod.mk.injEq] at h3
      simp [h3.1]
    · show selections s2.trace = _
      rw [f5, hS.trace_facts.1]
    · show s2.pool.roundrobin = _
      rw [f2, hS.2.1, cursorBase_cast s hrr]
  · refine ⟨_, _, hN, ?_, fun h => absurd rfl h⟩
    intro err2 s3 h3
    rw [hpop, he] at h3
    simp at h3

/-- C3, at an SRV specifier whose first target resolves to two addresses and
whose second target fails: the two addresses already appended are discarded. -/
theorem Next_failure_atomic_witness :
    demoEnv.PermOK ∧ (freshPool ["@half.example.com", "backup:9000"]).pool.servers ≠ [] ∧
    (Next demoEnv (freshPool ["@half.example.com", "backup:9000"])).map (fun x => x.1.err)
      = some (some (PoolError.lookupFailure "gone.example.com" "no such host")) ∧
    ∃ r s1, Next demoEnv (freshPool ["@half.example.com", "backup:9000"]) = some (r, s1) ∧
      (∀ err s2,
        populateAddresses demoEnv
          { freshPool ["@half.example.com", "backup:9000"] with
            pool := { (freshPool ["@half.example.com", "backup:9000"]).pool with
              addresses := some [] } }
          = some (some err, s2) → r.err = some err) ∧
      (r.err ≠ none →
        r.addr = none ∧ r.desc = "" ∧ s1.pool.addresses = none ∧ IsLast s1 = true ∧
        (∃ sel, selections s1.trace
          = selections (freshPool ["@half.example.com", "backup:9000"]).trace ++ [sel]) ∧
        s1.pool.roundrobin =
          (if (freshPool ["@half.example.com", "backup:9000"]).pool.servers.length
              ≤ (freshPool ["@half.example.com", "backup:9000"]).pool.roundrobin then 0
            else (freshPool ["@half.example.com", "backup:9000"]).pool.roundrobin) + 1) :=
  ⟨demoEnv_permOK, by decide, by decide,
    Next_failure_atomic demoEnv demoEnv_permOK (freshPool ["@half.example.com", "backup:9000"])
      (by decide) rfl (by decide)⟩

/-! ## Draining the queue -/

theorem drained_queue_irrelevant (env : Env) (t : Sys) (x : Option (List TCPAddr))
    (l : List TCPAddr) :
    drained env { t with pool := { t.pool with addresses := x } } l = drained env t l := by
  induction l with
  | nil => rfl
  | cons a q ih =>
    simp only [drained]
    rw [ih]

theorem drained_length (env : Env) (t : Sys) (l : List TCPAddr) :
    (drained env t l).length = l.length := by
  induction l with
  | nil => rfl
  | cons a q ih => simp [drained, ih]

theorem drained_getElem (env : Env) (t : Sys) (l : List TCPAddr) (j : Nat)
    (hj : j < l.length) :
    (drained env t l)[j]? =
      some (⟨some l[j], describe env t.pool.host_is_ip t.pool.host l[j], none⟩,
        { t with pool := { t.pool with
            addresses := if j + 1 = l.length then none else some (l.drop (j + 1)) } }) := by
  induction l generalizing j with
  | nil => simp at hj
  | cons a q ih =>
    cases j with
    | zero =>
      cases q with
      | nil => simp [drained]
      | cons b q => simp [drained]
    | succ j =>
      have hj2 : j < q.length := by simpa using hj
      simp only [drained, List.getElem?_cons_succ, ih j hj2]
      simp

/-- Calls of `Next` on a pool whose queue is `l` pop it address by address. -/
theorem runStates_drain (env : Env) (l : List TCPAddr) (t : Sys)
    (h : t.pool.addresses = if l = [] then none else some l) :
    runStates env l.length t = some (drained env t l) := by
  induction l generalizing t with
  | nil => rfl
  | cons a q ih =>
    have hq : t.pool.addresses = some (a :: q) := by simpa using h
    have h1 := ih { t with pool := { t.pool with addresses := if q = [] then none else some q } }
      rfl
    rw [drained_queue_irrelevant] at h1
    simp only [List.length_cons, runStates, Next_queued env t a q hq, h1, drained]

theorem runStates_resolve_drain (env : Env) (s s1 s2 : Sys) (sel : String) (a : TCPAddr)
    (q : List TCPAddr) (hnil : s.pool.addresses = none)
    (hsel : selectServer env { s with pool := { s.pool with addresses := some [] } }
      = some (sel, s1))
    (hres : resolveSelected env sel s1 = (none, s2))
    (hq : s2.pool.addresses = some (a :: q)) :
    runStates env (q.length + 1) s = some (drained env s2 (a :: q)) := by
  have h1 := runStates_drain env q
    { s2 with pool := { s2.pool with addresses := if q = [] then none else some q } } rfl
  rw [drained_queue_irrelevant] at h1
  simp only [runStates, Next_exhausted_ok env s s1 s2 sel a q hnil hsel hres hq, h1, drained]

/-- A call of `Next` on an exhausted pool takes exactly the specifier the
selection step picks. -/
theorem Next_exhausted_selects (env : Env) (hperm : env.PermOK) (s : Sys)
    (hne : s.pool.servers ≠ []) (hnil : s.pool.addresses = none)
    (hrr : 0 ≤ s.pool.roundrobin) :
    ∃ sel s1 r t,
      selectServer env { s with pool := { s.pool with addresses := some [] } } = some (sel, s1) ∧
      Selected s sel s1 ∧ Next env s = some (r, t) ∧
      selections t.trace = selections s.trace ++ [sel] ∧
      t.pool.roundrobin = s1.pool.roundrobin ∧ t.pool.servers = s1.pool.servers ∧
      t.pool.addresses ≠ some [] ∧ (r.err ≠ none → t.pool.addresses = none) ∧
      shuffles t.trace = shuffles s1.trace := by
  obtain ⟨sel, s1, e, s2, hsel, hS, _, _, ⟨f1, f2, _, _, f5, f6⟩, hcases⟩ :=
    Next_exhausted env hperm s hne hnil hrr
  rcases hcases with ⟨err, _, hN⟩ | ⟨_, a, q, _, hN⟩
  · refine ⟨sel, s1, _, _, hsel, hS, hN, ?_, f2, f1, by simp, fun _ => rfl, f6⟩
    show selections s2.trace = _
    rw [f5, hS.trace_facts.1]
  · refine ⟨sel, s1, _, _, hsel, hS, hN, ?_, f2, f1, ?_, fun h => absurd rfl h, f6⟩
    · show selections s2.trace = _
      rw [f5, hS.trace_facts.1]
    · by_cases hqe : q = [] <;> simp [hqe]

/-! ## C4: a DNS name with several addresses -/

theorem resolveSelected_hostport_dns (env : Env) (s1 : Sys) (sel host port_str : String)
    (p : Nat) (ips : List NetIP)
    (hat : sel.data.head? ≠ some '@')
    (hsplit : env.SplitHostPort sel = (host, port_str, none))
    (hport : ParseUint16 port_str = some p)
    (hip : env.ParseIP host = none)
    (hlook : env.LookupIP s1.trace host = .ok ips) (hne : ips ≠ []) :
    resolveSelected env sel s1 =
      (none,
        { pool := { s1.pool with
            host := host, host_is_ip := false,
            addresses := some (s1.pool.addresses.getD [] ++ ips.map (fun ip => ⟨ip, p⟩)) },
          trace := s1.trace ++ [Event.lookupIP host] }) := by
  have hpl := populateLookup_resolved env host p
    { s1 with pool := { s1.pool with host := host } } ips hip hlook hne
  simp only [resolveSelected, hat, if_false, hsplit, hport, hpl]

/-- C4: on an exhausted pool whose next selected specifier splits into a
non-IP host and a valid port `p`, with the resolver answering the non-empty
list `ips` for the host, the next `k = len(ips)` calls of `Next` return
`(ips[0], p), ..., (ips[k-1], p)` in that order, each described as
`address (host)` and without error; the state after every one of them has the
history and the cursor the first call left (one selection, one lookup), its
queue is the not yet returned addresses, so `IsLast` is false after the first
`k-1` calls and true after the `k`-th; and the call after these performs a
selection of its own. -/
theorem Next_drains_resolved_host (env : Env) (hperm : env.PermOK) (s s1 : Sys)
    (sel host port_str : String) (p : Nat) (ips : List NetIP)
    (hsrv : s.pool.servers ≠ [])
    (hnil : s.pool.addresses = none)
    (hsel : selectServer env { s with pool := { s.pool with addresses := some [] } }
      = some (sel, s1))
    (hat : sel.data.head? ≠ some '@')
    (hsplit : env.SplitHostPort sel = (host, port_str, none))
    (hport : ParseUint16 port_str = some p)
    (hip : env.ParseIP host = none)
    (hlook : env.LookupIP s1.trace host = .ok ips) (hne : ips ≠ []) :
    (selections s1.trace = selections s.trace ++ [sel] ∧ lookups s1.trace = lookups s.trace) ∧
    (∃ L, runStates env ips.length s = some L ∧ L.length = ips.length ∧
      ∀ j (hj : j < ips.length),
        L[j]? =
          some (⟨some ⟨ips[j], p⟩, env.TCPAddrString ⟨ips[j], p⟩ ++ " (" ++ host ++ ")", none⟩,
            resolvedTo s1 host false
              (if j + 1 = ips.length then none
                else some ((ips.drop (j + 1)).map (fun ip => ⟨ip, p⟩)))
              [Event.lookupIP host]) ∧
        IsLast (resolvedTo s1 host false
              (if j + 1 = ips.length then none
                else some ((ips.drop (j + 1)).map (fun ip => ⟨ip, p⟩)))
              [Event.lookupIP host])
          = decide (j + 1 = ips.length)) ∧
    (∃ sel2 s2 r t,
      selectServer env (resolvedTo s1 host false (some []) [Event.lookupIP host])
        = some (sel2, s2) ∧
      Next env (resolvedTo s1 host false none [Event.lookupIP host]) = some (r, t) ∧
      selections t.trace
        = selections (resolvedTo s1 host false none [Event.lookupIP host]).trace ++ [sel2]) := by
  obtain ⟨sel', s1', hsel', hS, hq1⟩ :=
    selectServer_selected env hperm { s with pool := { s.pool with addresses := some [] } } hsrv
      (selectServer_nonneg env _ s1 sel hsel)
  rw [hsel] at hsel'
  simp only [Option.some.injEq, Prod.mk.injEq] at hsel'
  obtain ⟨rfl, rfl⟩ := hsel'
  have hres := resolveSelected_hostport_dns env s1 sel host port_str p ips hat hsplit hport hip
    hlook hne
  rw [hq1] at hres
  simp only [Option.getD_some, List.nil_append] at hres
  refine ⟨hS.trace_facts, ?_, ?_⟩
  · obtain ⟨a, q, haq⟩ : ∃ a q, ips.map (fun ip => (⟨ip, p⟩ : TCPAddr)) = a :: q := by
      cases ips with
      | nil => exact absurd rfl hne
      | cons ip rest => exact ⟨_, _, rfl⟩
    have hlen : q.length + 1 = ips.length := by
      have := congrArg List.length haq
      simpa using this.symm
    rw [haq] at hres
    have hrun := runStates_resolve_drain env s s1 _ sel a q hnil hsel hres rfl
    rw [hlen, ← haq] at hrun
    refine ⟨_, hrun, by simp [drained_length], fun j hj => ?_⟩
    have hj2 : j < (ips.map (fun ip => (⟨ip, p⟩ : TCPAddr))).length := by simpa using hj
    rw [drained_getElem env _ _ j hj2]
    by_cases hlast : j + 1 = ips.length
    · simp [describe, IsLast, hlast, resolvedTo]
    · simp [describe, IsLast, hlast, resolvedTo]
  · have hsrv1 : s1.pool.servers ≠ [] := by
      intro h0
      have := hS.1.length_eq
      rw [h0] at this
      exact hsrv (List.length_eq_zero.mp this.symm)
    have hnn1 : 0 ≤ s1.pool.roundrobin := by rw [hS.2.1]; omega
    obtain ⟨sel2, s2, r, t, h1, _, h3, h4, _⟩ := Next_exhausted_selects env hperm
      { pool := { s1.pool with host := host, host_is_ip := false, addresses := none },
        trace := s1.trace ++ [Event.lookupIP host] } hsrv1 rfl hnn1
    exact ⟨sel2, s2, r, t, h1, h3, h4⟩

/-- C4, at `a.example.com:5043`, which the resolver maps to two addresses. -/
theorem Next_drains_resolved_host_witness :
    demoEnv.PermOK ∧
    selectServer demoEnv
      { freshPool ["a.example.com:5043", "backup:9000"] with
        pool := { (freshPool ["a.example.com:5043", "backup:9000"]).pool with
          addresses := some [] } }
      = some ("a.example.com:5043", demoSelected) ∧
    demoEnv.LookupIP demoSelected.trace "a.example.com"
      = .ok [⟨[192, 0, 2, 1]⟩, ⟨[192, 0, 2, 2]⟩] ∧
    ∃ L, runStates demoEnv 2 (freshPool ["a.example.com:5043", "backup:9000"]) = some L ∧
      L.length = 2 ∧
      L.map (fun x => x.1) =
        [⟨some ⟨⟨[192, 0, 2, 1]⟩, 5043⟩, "192.0.2.1:5043 (a.example.com)", none⟩,
         ⟨some ⟨⟨[192, 0, 2, 2]⟩, 5043⟩, "192.0.2.2:5043 (a.example.com)", none⟩] ∧
      L.map (fun x => IsLast x.2) = [false, true] :=
  ⟨demoEnv_permOK, by decide, rfl,
    (Next_drains_resolved_host demoEnv demoEnv_permOK
      (freshPool ["a.example.com:5043", "backup:9000"]) demoSelected
      "a.example.com:5043" "a.example.com" "5043" 5043 [⟨[192, 0, 2, 1]⟩, ⟨[192, 0, 2, 2]⟩]
      (by decide) rfl (by decide) (by decide) (by decide) (by decide) (by decide) rfl
      (by decide)).2.1.elim
      (fun L hL => ⟨L, hL.1, hL.2.1, by
        have h0 := (hL.2.2 0 (by decide)).1
        have h1 := (hL.2.2 1 (by decide)).1
        have hlen := hL.2.1
        match L, hlen, h0, h1 with
        | [x, y], _, h0, h1 =>
          simp only [List.getElem?_cons_zero, List.getElem?_cons_succ, Option.some.injEq] at h0 h1
          subst h0 h1
          exact ⟨by decide, by decide⟩⟩)⟩

/-! ## C5: a literal IP address -/

theorem shuffleServers_trace (env : Env) (s s1 : Sys) (h : shuffleServers env s = some s1) :
    s1.trace = s.trace ++ [Event.perm s.pool.servers.length] ∧
    s1.pool.addresses = s.pool.addresses := by
  unfold shuffleServers at h
  split at h
  · simp at h
  · simp only [Option.some.injEq] at h
    subst h
    exact ⟨rfl, rfl⟩

/-- Whatever the random source does, a selection that returns adds one
selection and no lookup to the history and leaves the queue alone. -/
theorem selectServer_trace (env : Env) (s s1 : Sys) (sel : String)
    (h : selectServer env s = some (sel, s1)) :
    selections s1.trace = selections s.trace ++ [sel] ∧ lookups s1.trace = lookups s.trace ∧
    s1.pool.addresses = s.pool.addresses := by
  unfold selectServer at h
  split at h
  · simp at h
  · rename_i s2 hs2
    split at h
    · simp at h
    · rename_i selected hsel
      simp only [Option.some.injEq, Prod.mk.injEq] at h
      obtain ⟨rfl, rfl⟩ := h
      by_cases hr : s.pool.roundrobin ≥ s.pool.servers.length
      · rw [if_pos hr] at hs2
        cases hsh : shuffleServers env s with
        | none => simp [hsh] at hs2
        | some s3 =>
          obtain ⟨ht, ha⟩ := shuffleServers_trace env s s3 hsh
          simp only [hsh, Option.map_some', Option.some.injEq] at hs2
          subst hs2
          simp [ht, ha, selections, lookups]
      · rw [if_neg hr] at hs2
        simp only [Option.some.injEq] at hs2
        subst hs2
        simp [selections, lookups]

theorem resolveSelected_hostport_literal (env : Env) (s1 : Sys) (sel host port_str : String)
    (p : Nat) (ip : NetIP)
    (hat : sel.data.head? ≠ some '@')
    (hsplit : env.SplitHostPort sel = (host, port_str, none))
    (hport : ParseUint16 port_str = some p)
    (hip : env.ParseIP host = some ip) :
    resolveSelected env sel s1 =
      (none,
        { pool := { s1.pool with
            host := host, host_is_ip := true,
            addresses := some (s1.pool.addresses.getD [] ++ [⟨ip, p⟩]) },
          trace := s1.trace }) := by
  have hpl := populateLookup_literal env host p
    { s1 with pool := { s1.pool with host := host } } ip hip
  simp only [resolveSelected, hat, if_false, hsplit, hport, hpl]

theorem Next_literal (env : Env) (s s1 : Sys) (sel host port_str : String) (p : Nat)
    (ip : NetIP) (hnil : s.pool.addresses = none)
    (hsel : selectServer env { s with pool := { s.pool with addresses := some [] } }
      = some (sel, s1))
    (hat : sel.data.head? ≠ some '@')
    (hsplit : env.SplitHostPort sel = (host, port_str, none))
    (hport : ParseUint16 port_str = some p)
    (hip : env.ParseIP host = some ip) :
    Next env s =
      some (⟨some ⟨ip, p⟩, env.TCPAddrString ⟨ip, p⟩, none⟩, resolvedTo s1 host true none []) := by
  have hres := resolveSelected_hostport_literal env s1 sel host port_str p ip hat hsplit hport hip
  have hq1 := (selectServer_trace env _ s1 sel hsel).2.2
  rw [hq1] at hres
  simp only [Option.getD_some, List.nil_append] at hres
  rw [Next_exhausted_ok env s s1 _ sel ⟨ip, p⟩ [] hnil hsel hres rfl]
  simp [describe, resolvedTo]

theorem single_literal_run (env : Env) (hperm : env.PermOK) (server host port_str : String)
    (p : Nat) (ip : NetIP)
    (hat : server.data.head? ≠ some '@')
    (hsplit : env.SplitHostPort server = (host, port_str, none))
    (hport : ParseUint16 port_str = some p)
    (hip : env.ParseIP host = some ip) (n : Nat) (s : Sys)
    (hs : s.pool.servers = [server]) (hnil : s.pool.addresses = none)
    (hrr : 0 ≤ s.pool.roundrobin) :
    ∃ rs sn, runNext env n s = some (rs, sn) ∧
      rs = List.replicate n ⟨some ⟨ip, p⟩, env.TCPAddrString ⟨ip, p⟩, none⟩ ∧
      selections sn.trace = selections s.trace ++ List.replicate n server ∧
      lookups sn.trace = lookups s.trace := by
  induction n generalizing s with
  | zero => exact ⟨[], s, rfl, rfl, by simp, rfl⟩
  | succ n ih =>
    have hne : s.pool.servers ≠ [] := by rw [hs]; simp
    obtain ⟨sel, s1, hsel, hS, _⟩ :=
      selectServer_selected env hperm { s with pool := { s.pool with addresses := some [] } } hne
        hrr
    have hnn1 : 0 ≤ s1.pool.roundrobin := by rw [hS.2.1]; omega
    have hs0 : ({ s with pool := { s.pool with addresses := some [] } } : Sys).pool.servers
        = [server] := hs
    have hs1 : s1.pool.servers = [server] := by
      have h1 := hS.1
      rw [hs0] at h1
      exact List.perm_singleton.mp h1
    have hsel_eq : sel = server := by
      have hb := hS.2.2.1
      have hx := hS.2.2.2.1
      rw [hs0, List.length_singleton] at hb
      have h0 : cursorBase { s with pool := { s.pool with addresses := some [] } } = 0 := by
        omega
      rw [h0, hs1] at hx
      simpa using hx.symm
    subst hsel_eq
    have hN := Next_literal env s s1 sel host port_str p ip hnil hsel hat hsplit hport hip
    obtain ⟨rs, sn, hrun, hrs, hseln, hlookn⟩ :=
      ih (resolvedTo s1 host true none []) hs1 rfl hnn1
    refine ⟨⟨some ⟨ip, p⟩, env.TCPAddrString ⟨ip, p⟩, none⟩ :: rs, sn,
      by simp only [runNext, hN, hrun], ?_, ?_, ?_⟩
    · rw [hrs, List.replicate_succ]
    · rw [hseln]
      have := hS.trace_facts.1
      simp only [resolvedTo, List.append_nil] at this ⊢
      rw [this, List.replicate_succ]
      simp
    · rw [hlookn]
      have := hS.trace_facts.2
      simpa [resolvedTo] using this

/-- C5: on an exhausted pool whose next selected specifier splits into a
literal IP and a valid port, `Next` returns the one address made of that IP
and port, described by its bare text, without error and without a DNS lookup,
and the queue is exhausted again; in particular the pool `10.0.0.1:9000`
answers every call of `Next` with that address and the description
`10.0.0.1:9000`, re-resolving each time and never asking the resolver. -/
theorem Next_literal_ip (env : Env) (hperm : env.PermOK) :
    (∀ (s s1 : Sys) (sel host port_str : String) (p : Nat) (ip : NetIP),
      s.pool.addresses = none →
      selectServer env { s with pool := { s.pool with addresses := some [] } }
        = some (sel, s1) →
      sel.data.head? ≠ some '@' →
      env.SplitHostPort sel = (host, port_str, none) →
      ParseUint16 port_str = some p →
      env.ParseIP host = some ip →
      ∃ t, Next env s = some (⟨some ⟨ip, p⟩, env.TCPAddrString ⟨ip, p⟩, none⟩, t) ∧
        lookups t.trace = lookups s.trace ∧
        selections t.trace = selections s.trace ++ [sel] ∧
        t.pool.addresses = none ∧ IsLast t = true) ∧
    (∀ ip : NetIP,
      env.SplitHostPort "10.0.0.1:9000" = ("10.0.0.1", "9000", none) →
      env.ParseIP "10.0.0.1" = some ip →
      env.TCPAddrString ⟨ip, 9000⟩ = "10.0.0.1:9000" →
      ∀ n, ∃ s0 rs sn, NewAddressPool env ["10.0.0.1:9000"] = some s0 ∧
        runNext env n s0 = some (rs, sn) ∧
        rs = List.replicate n ⟨some ⟨ip, 9000⟩, "10.0.0.1:9000", none⟩ ∧
        selections sn.trace = List.replicate n "10.0.0.1:9000" ∧
        lookups sn.trace = []) := by
  constructor
  · intro s s1 sel host port_str p ip hnil hsel hat hsplit hport hip
    obtain ⟨h1, h2, _⟩ := selectServer_trace env _ s1 sel hsel
    refine ⟨_, Next_literal env s s1 sel host port_str p ip hnil hsel hat hsplit hport hip,
      ?_, ?_, rfl, rfl⟩
    · simpa [resolvedTo] using h2
    · simpa [resolvedTo] using h1
  · intro ip hsplit hip hstr n
    obtain ⟨l1, hl1, h0⟩ := NewAddressPool_spec env hperm ["10.0.0.1:9000"]
    have hl : l1 = ["10.0.0.1:9000"] := List.perm_singleton.mp hl1
    subst hl
    obtain ⟨rs, sn, hrun, hrs, hseln, hlookn⟩ :=
      single_literal_run env hperm "10.0.0.1:9000" "10.0.0.1" "9000" 9000 ip (by decide) hsplit
        (by decide) hip n
        { pool := { servers := ["10.0.0.1:9000"], rfc2782 := false, rfc2782Service := "",
                    roundrobin := 0, host_is_ip := false, host := "", addresses := none },
          trace := [Event.perm ["10.0.0.1:9000"].length] } rfl rfl (Int.le_refl 0)
    refine ⟨_, rs, sn, h0, hrun, ?_, ?_, ?_⟩
    · rw [hrs, hstr]
    · simpa [selections] using hseln
    · simpa [lookups] using hlookn

/-- C5, on the pool `10.0.0.1:9000`: one call from a fresh pool, and four calls
in a row from construction. -/
theorem Next_literal_ip_witness :
    demoEnv.PermOK ∧
    (∃ t, Next demoEnv (freshPool ["10.0.0.1:9000"])
        = some (⟨some ⟨⟨[10, 0, 0, 1]⟩, 9000⟩,
            demoEnv.TCPAddrString ⟨⟨[10, 0, 0, 1]⟩, 9000⟩, none⟩, t) ∧
      lookups t.trace = lookups (freshPool ["10.0.0.1:9000"]).trace ∧
      selections t.trace = selections (freshPool ["10.0.0.1:9000"]).trace ++ ["10.0.0.1:9000"] ∧
      t.pool.addresses = none ∧ IsLast t = true) ∧
    (∃ s0 rs sn, NewAddressPool demoEnv ["10.0.0.1:9000"] = some s0 ∧
      runNext demoEnv 4 s0 = some (rs, sn) ∧
      rs = List.replicate 4 ⟨some ⟨⟨[10, 0, 0, 1]⟩, 9000⟩, "10.0.0.1:9000", none⟩ ∧
      selections sn.trace = List.replicate 4 "10.0.0.1:9000" ∧
      lookups sn.trace = []) :=
  ⟨demoEnv_permOK,
    (Next_literal_ip demoEnv demoEnv_permOK).1 (freshPool ["10.0.0.1:9000"])
      { pool := { (freshPool ["10.0.0.1:9000"]).pool with roundrobin := 1, addresses := some [] },
        trace := [Event.select "10.0.0.1:9000"] }
      "10.0.0.1:9000" "10.0.0.1" "9000" 9000 ⟨[10, 0, 0, 1]⟩ rfl (by decide) (by decide)
      (by decide) (by decide) (by decide),
    (Next_literal_ip demoEnv demoEnv_permOK).2 ⟨[10, 0, 0, 1]⟩ (by decide) (by decide)
      (by decide) 4⟩

/-! ## C6: SRV expansion -/

theorem populateTargets_expand (env : Env) (ans : String → List NetIP) (recs : List SRV)
    (hres : ∀ r ∈ recs, env.ParseIP r.Target = none →
      ∀ tr, env.LookupIP tr r.Target = .ok (ans r.Target) ∧ ans r.Target ≠ [])
    (s : Sys) (q : List TCPAddr) (hq : s.pool.addresses = some q) :
    populateTargets env recs s =
      (none,
        { pool := { s.pool with addresses := some (q ++ expandSrv env ans recs) },
          trace := s.trace ++ targetLookups env recs }) := by
  induction recs generalizing s q with
  | nil =>
    obtain ⟨pool, trace⟩ := s
    obtain ⟨a, b, c, d, e, f, g⟩ := pool
    simp only at hq
    subst hq
    simp [populateTargets, expandSrv, targetLookups]
  | cons r rest ih =>
    have hrest : ∀ r2 ∈ rest, env.ParseIP r2.Target = none →
        ∀ tr, env.LookupIP tr r2.Target = .ok (ans r2.Target) ∧ ans r2.Target ≠ [] :=
      fun r2 h2 => hres r2 (List.mem_cons_of_mem _ h2)
    cases hp : env.ParseIP r.Target with
    | some ip =>
      have h1 := populateLookup_literal env r.Target r.Port s ip hp
      have h2 := ih hrest
        { s with pool := { s.pool with
            addresses := some (s.pool.addresses.getD [] ++ [⟨ip, r.Port⟩]) } }
        (q ++ [⟨ip, r.Port⟩]) (by simp [hq])
      simp only [populateTargets, h1, h2]
      simp [expandSrv, targetLookups, hp]
    | none =>
      obtain ⟨hl, hne⟩ := hres r (List.mem_cons_self _ _) hp s.trace
      have h1 := populateLookup_resolved env r.Target r.Port s (ans r.Target) hp hl hne
      have h2 := ih hrest
        { pool := { s.pool with
            addresses := some (s.pool.addresses.getD [] ++
              (ans r.Target).map (fun ip => ⟨ip, r.Port⟩)) },
          trace := s.trace ++ [Event.lookupIP r.Target] }
        (q ++ (ans r.Target).map (fun ip => ⟨ip, r.Port⟩)) (by simp [hq])
      simp only [populateTargets, h1, h2]
      simp [expandSrv, targetLookups, hp]

theorem at_name_head (name : String) : ("@" ++ name).data.head? = some '@' := by
  simp [String.data_append]

theorem at_name_tail (name : String) : String.mk (("@" ++ name).data.drop 1) = name := by
  simp [String.data_append]

theorem expandSrv_ne_nil (env : Env) (ans : String → List NetIP) (recs : List SRV)
    (hne : recs ≠ [])
    (hres : ∀ r ∈ recs, env.ParseIP r.Target = none →
      ∀ tr, env.LookupIP tr r.Target = .ok (ans r.Target) ∧ ans r.Target ≠ []) :
    ∃ a q, expandSrv env ans recs = a :: q := by
  cases recs with
  | nil => exact absurd rfl hne
  | cons r rest =>
    cases hp : env.ParseIP r.Target with
    | some ip => exact ⟨⟨ip, r.Port⟩, _, by simp [expandSrv, hp]; rfl⟩
    | none =>
      obtain ⟨_, hn⟩ := hres r (List.mem_cons_self _ _) hp []
      cases ha : ans r.Target with
      | nil => exact absurd ha hn
      | cons ip ips => exact ⟨⟨ip, r.Port⟩, _, by simp [expandSrv, hp, ha]; rfl⟩

theorem resolveSelected_srv (env : Env) (s1 : Sys) (name : String)
    (ans : String → List NetIP) (recs : List SRV)
    (hq1 : s1.pool.addresses = some [])
    (hsrv : env.LookupSRV s1.trace (if s1.pool.rfc2782 then s1.pool.rfc2782Service else "")
      (if s1.pool.rfc2782 then "tcp" else "") name = .ok recs)
    (hne : recs ≠ [])
    (hres : ∀ r ∈ recs, env.ParseIP r.Target = none →
      ∀ tr, env.LookupIP tr r.Target = .ok (ans r.Target) ∧ ans r.Target ≠ []) :
    resolveSelected env ("@" ++ name) s1 =
      (none,
        resolvedTo s1 name false (some (expandSrv env ans recs))
          (Event.lookupSRV (if s1.pool.rfc2782 then s1.pool.rfc2782Service else "")
            (if s1.pool.rfc2782 then "tcp" else "") name :: targetLookups env recs)) := by
  have hproc : processSrv env name s1 =
      (.ok recs,
        { pool := { s1.pool with host := name, host_is_ip := false },
          trace := s1.trace ++
            [Event.lookupSRV (if s1.pool.rfc2782 then s1.pool.rfc2782Service else "")
              (if s1.pool.rfc2782 then "tcp" else "") name] }) := by
    simp [processSrv, hsrv, hne]
  have hexp := populateTargets_expand env ans recs hres
    { pool := { s1.pool with host := name, host_is_ip := false },
      trace := s1.trace ++
        [Event.lookupSRV (if s1.pool.rfc2782 then s1.pool.rfc2782Service else "")
          (if s1.pool.rfc2782 then "tcp" else "") name] } [] hq1
  simp only [resolveSelected, at_name_head, at_name_tail, if_true, hproc, hexp]
  simp [resolvedTo]

theorem populateTargets_resolve (env : Env) (recs : List SRV) (ips : List (List NetIP))
    (s : Sys) (q : List TCPAddr) (hq : s.pool.addresses = some q)
    (hres : TargetsResolve env s.trace recs ips) :
    populateTargets env recs s =
      (none,
        { pool := { s.pool with addresses := some (q ++ srvQueue recs ips) },
          trace := s.trace ++ targetLookups env recs }) := by
  induction recs generalizing ips s q with
  | nil =>
    obtain ⟨pool, trace⟩ := s
    obtain ⟨a, b, c, d, e, f, g⟩ := pool
    simp only at hq
    subst hq
    simp [populateTargets, srvQueue, targetLookups]
  | cons r rest ih =>
    cases ips with
    | nil => simp [TargetsResolve] at hres
    | cons l ls =>
      cases hp : env.ParseIP r.Target with
      | some ip =>
        simp only [TargetsResolve, hp] at hres
        obtain ⟨hl, hrest⟩ := hres
        subst hl
        have h1 := populateLookup_literal env r.Target r.Port s ip hp
        have h2 := ih ls
          { s with pool := { s.pool with
              addresses := some (s.pool.addresses.getD [] ++ [⟨ip, r.Port⟩]) } }
          (q ++ [⟨ip, r.Port⟩]) (by simp [hq]) hrest
        simp only [populateTargets, h1, h2]
        simp [srvQueue, targetLookups, hp]
      | none =>
        simp only [TargetsResolve, hp] at hres
        obtain ⟨hl, hne, hrest⟩ := hres
        have h1 := populateLookup_resolved env r.Target r.Port s l hp hl hne
        have h2 := ih ls
          { pool := { s.pool with
              addresses := some (s.pool.addresses.getD [] ++
                l.map (fun ip => ⟨ip, r.Port⟩)) },
            trace := s.trace ++ [Event.lookupIP r.Target] }
          (q ++ l.map (fun ip => ⟨ip, r.Port⟩)) (by simp [hq]) hrest
        simp only [populateTargets, h1, h2]
        simp [srvQueue, targetLookups, hp]

theorem srvQueue_ne_nil (env : Env) (tr : List Event) (recs : List SRV)
    (ips : List (List NetIP)) (hne : recs ≠ []) (hres : TargetsResolve env tr recs ips) :
    ∃ a q, srvQueue recs ips = a :: q := by
  cases recs with
  | nil => exact absurd rfl hne
  | cons r rest =>
    cases ips with
    | nil => simp [TargetsResolve] at hres
    | cons l ls =>
      cases hp : env.ParseIP r.Target with
      | some ip =>
        simp only [TargetsResolve, hp] at hres
        obtain ⟨hl, _⟩ := hres
        subst hl
        exact ⟨⟨ip, r.Port⟩, _, by simp [srvQueue]; rfl⟩
      | none =>
        simp only [TargetsResolve, hp] at hres
        obtain ⟨_, hn, _⟩ := hres
        cases l with
        | nil => exact absurd rfl hn
        | cons ip rest2 => exact ⟨⟨ip, r.Port⟩, _, by simp [srvQueue]; rfl⟩

theorem resolveSelected_srv_targets (env : Env) (s1 : Sys) (name : String)
    (recs : List SRV) (ips : List (List NetIP))
    (hq1 : s1.pool.addresses = some [])
    (hsrv : env.LookupSRV s1.trace (if s1.pool.rfc2782 then s1.pool.rfc2782Service else "")
      (if s1.pool.rfc2782 then "tcp" else "") name = .ok recs)
    (hne : recs ≠ [])
    (hres : TargetsResolve env
      (s1.trace ++ [Event.lookupSRV (if s1.pool.rfc2782 then s1.pool.rfc2782Service else "")
        (if s1.pool.rfc2782 then "tcp" else "") name]) recs ips) :
    resolveSelected env ("@" ++ name) s1 =
      (none,
        resolvedTo s1 name false (some (srvQueue recs ips))
          (Event.lookupSRV (if s1.pool.rfc2782 then s1.pool.rfc2782Service else "")
            (if s1.pool.rfc2782 then "tcp" else "") name :: targetLookups env recs)) := by
  have hproc : processSrv env name s1 =
      (.ok recs,
        { pool := { s1.pool with host := name, host_is_ip := false },
          trace := s1.trace ++
            [Event.lookupSRV (if s1.pool.rfc2782 then s1.pool.rfc2782Service else "")
              (if s1.pool.rfc2782 then "tcp" else "") name] }) := by
    simp [processSrv, hsrv, hne]
  have hexp := populateTargets_resolve env recs ips
    { pool := { s1.pool with host := name, host_is_ip := false },
      trace := s1.trace ++
        [Event.lookupSRV (if s1.pool.rfc2782 then s1.pool.rfc2782Service else "")
          (if s1.pool.rfc2782 then "tcp" else "") name] } [] hq1 hres
  simp only [resolveSelected, at_name_head, at_name_tail, if_true, hproc, hexp]
  simp [resolvedTo]

/-- C6: on an exhausted pool whose next selected specifier is `@name`, when the
SRV lookup for `name` answers the non-empty list `recs` and every target
resolves (`TargetsResolve`: a literal IP stands for itself and is not looked
up; any other target answers a non-empty list when the resolution looks it
up, whatever the resolver would answer at another time), the resolution
builds exactly the queue `srvQueue`: the targets' addresses in record order,
each list in resolver order, each address with its record's port; it made
the SRV lookup and one address lookup per non-literal target; and `Next`
returns the head of that queue and keeps the rest. -/
theorem Next_expands_srv (env : Env) (s s1 : Sys) (name : String)
    (recs : List SRV) (ips : List (List NetIP))
    (hnil : s.pool.addresses = none)
    (hsel : selectServer env { s with pool := { s.pool with addresses := some [] } }
      = some ("@" ++ name, s1))
    (hsrv : env.LookupSRV s1.trace (if s1.pool.rfc2782 then s1.pool.rfc2782Service else "")
      (if s1.pool.rfc2782 then "tcp" else "") name = .ok recs)
    (hne : recs ≠ [])
    (hres : TargetsResolve env
      (s1.trace ++ [Event.lookupSRV (if s1.pool.rfc2782 then s1.pool.rfc2782Service else "")
        (if s1.pool.rfc2782 then "tcp" else "") name]) recs ips) :
    populateAddresses env { s with pool := { s.pool with addresses := some [] } } =
      some (none,
        resolvedTo s1 name false (some (srvQueue recs ips))
          (Event.lookupSRV (if s1.pool.rfc2782 then s1.pool.rfc2782Service else "")
            (if s1.pool.rfc2782 then "tcp" else "") name :: targetLookups env recs)) ∧
    ∃ a q, srvQueue recs ips = a :: q ∧
      Next env s =
        some (⟨some a, env.TCPAddrString a ++ " (" ++ name ++ ")", none⟩,
          resolvedTo s1 name false (if q = [] then none else some q)
            (Event.lookupSRV (if s1.pool.rfc2782 then s1.pool.rfc2782Service else "")
              (if s1.pool.rfc2782 then "tcp" else "") name :: targetLookups env recs)) := by
  have hq1 := (selectServer_trace env _ s1 _ hsel).2.2
  have hr := resolveSelected_srv_targets env s1 name recs ips hq1 hsrv hne hres
  obtain ⟨a, q, haq⟩ := srvQueue_ne_nil env _ recs ips hne hres
  refine ⟨by simp only [populateAddresses, hsel, hr], a, q, haq, ?_⟩
  rw [Next_exhausted_ok env s s1 _ ("@" ++ name) a q hnil hsel hr (by simp [resolvedTo, haq])]
  simp [describe, resolvedTo]

/-- C6, at `@pair.example.com` in the world `rotEnv`: two records share the
target `t.example.com`, whose two addresses come in one order at the first
lookup and in the opposite order at the second. -/
theorem Next_expands_srv_witness :
    rotEnv.LookupIP (rotSelected.trace ++ [Event.lookupSRV "" "" "pair.example.com"])
        "t.example.com" = .ok [⟨[192, 0, 2, 1]⟩, ⟨[192, 0, 2, 2]⟩] ∧
    rotEnv.LookupIP
        (rotSelected.trace ++ [Event.lookupSRV "" "" "pair.example.com"] ++
          [Event.lookupIP "t.example.com"])
        "t.example.com" = .ok [⟨[192, 0, 2, 2]⟩, ⟨[192, 0, 2, 1]⟩] ∧
    srvQueue rotRecs
        [[⟨[192, 0, 2, 1]⟩, ⟨[192, 0, 2, 2]⟩], [⟨[192, 0, 2, 2]⟩, ⟨[192, 0, 2, 1]⟩]] =
      [⟨⟨[192, 0, 2, 1]⟩, 5043⟩, ⟨⟨[192, 0, 2, 2]⟩, 5043⟩,
        ⟨⟨[192, 0, 2, 2]⟩, 5044⟩, ⟨⟨[192, 0, 2, 1]⟩, 5044⟩] ∧
    targetLookups rotEnv rotRecs
      = [Event.lookupIP "t.example.com", Event.lookupIP "t.example.com"] ∧
    populateAddresses rotEnv
        { freshPool ["@pair.example.com"] with
          pool := { (freshPool ["@pair.example.com"]).pool with addresses := some [] } } =
      some (none,
        resolvedTo rotSelected "pair.example.com" false
          (some (srvQueue rotRecs
            [[⟨[192, 0, 2, 1]⟩, ⟨[192, 0, 2, 2]⟩], [⟨[192, 0, 2, 2]⟩, ⟨[192, 0, 2, 1]⟩]]))
          (Event.lookupSRV "" "" "pair.example.com" :: targetLookups rotEnv rotRecs)) ∧
    ∃ a q,
      srvQueue rotRecs
        [[⟨[192, 0, 2, 1]⟩, ⟨[192, 0, 2, 2]⟩], [⟨[192, 0, 2, 2]⟩, ⟨[192, 0, 2, 1]⟩]]
        = a :: q ∧
      Next rotEnv (freshPool ["@pair.example.com"]) =
        some (⟨some a, rotEnv.TCPAddrString a ++ " (" ++ "pair.example.com" ++ ")", none⟩,
          resolvedTo rotSelected "pair.example.com" false (if q = [] then none else some q)
            (Event.lookupSRV "" "" "pair.example.com" :: targetLookups rotEnv rotRecs)) :=
  ⟨rfl, rfl, by decide, by decide,
    Next_expands_srv rotEnv (freshPool ["@pair.example.com"]) rotSelected
      "pair.example.com" rotRecs
      [[⟨[192, 0, 2, 1]⟩, ⟨[192, 0, 2, 2]⟩], [⟨[192, 0, 2, 2]⟩, ⟨[192, 0, 2, 1]⟩]]
      rfl (by decide) rfl (by decide)
      ⟨rfl, by decide, rfl, by decide, rfl⟩⟩

/-! ## C7: format validation -/

theorem digit_iff (c : Char) : ('0' ≤ c ∧ c ≤ '9') ↔ c.isDigit = true := by
  simp [Char.isDigit, Char.le_def, UInt32.le_def]

theorem digit_value_le (c : Char) (h : c.isDigit = true) : c.toNat - '0'.toNat ≤ 9 := by
  have h2 : c.val ≤ 57 := by
    simp only [Char.isDigit, Bool.and_eq_true, decide_eq_true_eq] at h
    exact h.2
  have h3 : c.val.toNat ≤ 57 := h2
  show c.val.toNat - 48 ≤ 9
  omega

theorem foldl_digits_ge (cs : List Char) (n : Nat) :
    n ≤ cs.foldl (fun n c => n * 10 + (c.toNat - '0'.toNat)) n := by
  induction cs generalizing n with
  | nil => exact Nat.le_refl _
  | cons c cs ih =>
    simp only [List.foldl]
    exact Nat.le_trans (by omega) (ih _)

theorem parseUintLoop_iff (cs : List Char) (n p : Nat) (hn : n ≤ 65535) :
    parseUintLoop cs n = some p ↔
      (∀ c ∈ cs, c.isDigit = true) ∧
      cs.foldl (fun n c => n * 10 + (c.toNat - '0'.toNat)) n = p ∧ p ≤ 65535 := by
  induction cs generalizing n with
  | nil =>
    simp only [parseUintLoop, Option.some.injEq, List.not_mem_nil, false_implies, implies_true,
      List.foldl, true_and]
    constructor
    · intro h; subst h; exact ⟨rfl, hn⟩
    · intro h; exact h.1
  | cons c cs ih =>
    by_cases hd : c.isDigit = true
    · have hd2 : '0' ≤ c ∧ c ≤ '9' := (digit_iff c).mpr hd
      have hv := digit_value_le c hd
      have hcut : ¬ n ≥ (2 ^ 64 - 1) / 10 + 1 := by
        norm_num
        omega
      have h10 : (n * 10) % 2 ^ 64 = n * 10 := Nat.mod_eq_of_lt (by norm_num; omega)
      have h1 : (n * 10 + (c.toNat - '0'.toNat)) % 2 ^ 64 = n * 10 + (c.toNat - '0'.toNat) :=
        Nat.mod_eq_of_lt (by norm_num; omega)
      simp only [parseUintLoop, hd2, and_self, if_true, hcut, if_false, h10, h1, List.foldl,
        List.mem_cons, forall_eq_or_imp, hd, true_and]
      by_cases hbig : n * 10 + (c.toNat - '0'.toNat) > 2 ^ 16 - 1
      · have hge := foldl_digits_ge cs (n * 10 + (c.toNat - '0'.toNat))
        have hbig2 : 65535 < n * 10 + (c.toNat - '0'.toNat) := by
          norm_num at hbig; exact hbig
        rw [if_pos (Or.inr hbig)]
        constructor
        · intro h; simp at h
        · intro ⟨_, h2, h3⟩
          omega
      · have hlt : ¬ (n * 10 + (c.toNat - '0'.toNat) < n * 10) := by omega
        rw [if_neg (by simp only [not_or]; exact ⟨hlt, hbig⟩)]
        exact ih _ (by norm_num at hbig; exact hbig)
    · have hd2 : ¬ ('0' ≤ c ∧ c ≤ '9') := fun h => hd ((digit_iff c).mp h)
      simp only [parseUintLoop, hd2, if_false, List.mem_cons, forall_eq_or_imp, hd, false_and]
      simp

/-- The call `strconv.ParseUint(s, 10, 16)` succeeds with `p` exactly when `s`
is a decimal numeral of value `p` at most 65535. -/
theorem ParseUint16_iff (port_str : String) (p : Nat) :
    ParseUint16 port_str = some p ↔ IsPortNumeral port_str p := by
  unfold ParseUint16 IsPortNumeral decimalValue
  by_cases he : port_str.data = []
  · simp [he]
  · simp only [he, if_false, ne_eq, not_false_eq_true, true_and]
    exact parseUintLoop_iff port_str.data 0 p (by omega)

theorem populateLookup_error_kind (env : Env) (host : String) (port : Nat) (s : Sys)
    (e : PoolError) (h : (populateLookup env host port s).1.2 = some e) :
    e.isFormat = false ∧ e.isSrvLookup = false := by
  unfold populateLookup at h
  cases hp : env.ParseIP host with
  | some ip => simp [hp] at h
  | none =>
    cases hl : env.LookupIP s.trace host with
    | error err =>
      simp only [hp, hl, Option.some.injEq] at h
      subst h
      exact ⟨rfl, rfl⟩
    | ok ips =>
      by_cases hne : ips.length = 0
      · simp only [hp, hl, hne, if_true, Option.some.injEq] at h
        subst h
        exact ⟨rfl, rfl⟩
      · simp [hp, hl, hne] at h

/-- A call of `Next` on an exhausted pool, once the selection step has
returned: it cannot panic, and its error is the error of the resolution. -/
theorem Next_after_select (env : Env) (s s1 : Sys) (sel : String)
    (hnil : s.pool.addresses = none)
    (hsel : selectServer env { s with pool := { s.pool with addresses := some [] } }
      = some (sel, s1)) :
    ∃ r t, Next env s = some (r, t) ∧ r.err = (resolveSelected env sel s1).1 := by
  have hq1 := (selectServer_trace env _ s1 sel hsel).2.2
  obtain ⟨_, hok⟩ := resolveSelected_frame env sel s1
  generalize hres : resolveSelected env sel s1 = res at hok
  obtain ⟨e, s2⟩ := res
  cases e with
  | some err => exact ⟨_, _, Next_exhausted_error env s s1 s2 sel err hnil hsel hres, rfl⟩
  | none =>
    obtain ⟨a, l, hq⟩ := hok rfl
    rw [hq1] at hq
    simp only [Option.getD_some, List.nil_append] at hq
    exact ⟨_, _, Next_exhausted_ok env s s1 s2 sel a l hnil hsel hres hq, rfl⟩

/-- C7: on an exhausted pool whose next selected specifier does not start
with `@`: if the specifier cannot be split, `Next` fails with the format error
`Invalid hostport given`; if it splits but the port is not a decimal numeral
of value at most 65535 (`abc`, `65536` and the empty string are not), `Next`
fails with the format error `Invalid port given`; either way no DNS lookup is
made and the queue is `nil` afterwards as before; and if it splits and the
port is such a numeral, `Next` returns and its error, if any, is not a format
error. -/
theorem Next_format_validation (env : Env) (s s1 : Sys) (sel : String)
    (hnil : s.pool.addresses = none)
    (hsel : selectServer env { s with pool := { s.pool with addresses := some [] } }
      = some (sel, s1))
    (hat : sel.data.head? ≠ some '@') :
    lookups s1.trace = lookups s.trace ∧
    ((env.SplitHostPort sel).2.2 ≠ none →
      Next env s =
        some (⟨none, "", some (.invalidHostport sel)⟩,
          resolvedTo s1 (env.SplitHostPort sel).1 s1.pool.host_is_ip none [])) ∧
    ((env.SplitHostPort sel).2.2 = none →
      (∀ p, ¬ IsPortNumeral (env.SplitHostPort sel).2.1 p) →
      Next env s =
        some (⟨none, "", some (.invalidPort (env.SplitHostPort sel).2.1)⟩,
          resolvedTo s1 (env.SplitHostPort sel).1 s1.pool.host_is_ip none [])) ∧
    ((env.SplitHostPort sel).2.2 = none →
      (∃ p, IsPortNumeral (env.SplitHostPort sel).2.1 p) →
      ∃ r t, Next env s = some (r, t) ∧ ∀ e, r.err = some e → e.isFormat = false) ∧
    (PoolError.invalidHostport sel).isFormat = true ∧
    (PoolError.invalidPort (env.SplitHostPort sel).2.1).isFormat = true ∧
    (∀ p, ¬ IsPortNumeral "abc" p) ∧ (∀ p, ¬ IsPortNumeral "65536" p) ∧
    (∀ p, ¬ IsPortNumeral "" p) ∧ IsPortNumeral "0" 0 ∧ IsPortNumeral "65535" 65535 := by
  refine ⟨(selectServer_trace env _ s1 sel hsel).2.1, ?_, ?_, ?_, rfl, rfl, ?_, ?_, ?_, ?_, ?_⟩
  · intro hbad
    obtain ⟨e, he⟩ := Option.ne_none_iff_exists'.mp hbad
    have hres : resolveSelected env sel s1 =
        (some (.invalidHostport sel),
          { s1 with pool := { s1.pool with host := (env.SplitHostPort sel).1 } }) := by
      simp only [resolveSelected, hat, if_false, he]
    rw [Next_exhausted_error env s s1 _ sel _ hnil hsel hres]
    simp [resolvedTo]
  · intro hsplit hport
    have hp : ParseUint16 (env.SplitHostPort sel).2.1 = none := by
      cases h : ParseUint16 (env.SplitHostPort sel).2.1 with
      | none => rfl
      | some p => exact absurd ((ParseUint16_iff _ p).mp h) (hport p)
    have hres : resolveSelected env sel s1 =
        (some (.invalidPort (env.SplitHostPort sel).2.1),
          { s1 with pool := { s1.pool with host := (env.SplitHostPort sel).1 } }) := by
      simp only [resolveSelected, hat, if_false, hsplit, hp]
    rw [Next_exhausted_error env s s1 _ sel _ hnil hsel hres]
    simp [resolvedTo]
  · intro hsplit ⟨p, hport⟩
    have hp : ParseUint16 (env.SplitHostPort sel).2.1 = some p := (ParseUint16_iff _ p).mpr hport
    obtain ⟨r, t, hN, herr⟩ := Next_after_select env s s1 sel hnil hsel
    refine ⟨r, t, hN, fun e he => ?_⟩
    rw [herr] at he
    simp only [resolveSelected, hat, if_false, hsplit, hp] at he
    exact (populateLookup_error_kind env _ p _ e he).1
  · intro p h
    have h1 := (ParseUint16_iff "abc" p).mpr h
    have h2 : ParseUint16 "abc" = none := by decide
    rw [h2] at h1
    exact Option.noConfusion h1
  · intro p h
    have h1 := (ParseUint16_iff "65536" p).mpr h
    have h2 : ParseUint16 "65536" = none := by decide
    rw [h2] at h1
    exact Option.noConfusion h1
  · intro p h
    exact h.1 rfl
  · exact (ParseUint16_iff "0" 0).mp (by decide)
  · exact (ParseUint16_iff "65535" 65535).mp (by decide)

/-- C7, at the specifier `no-port-here`, which does not split, and at
`backup:abc`, whose port is not a numeral. -/
theorem Next_format_validation_witness :
    Next demoEnv (freshPool ["no-port-here"]) =
      some (⟨none, "", some (.invalidHostport "no-port-here")⟩,
        resolvedTo (freshSelected ["no-port-here"] "no-port-here") "" false none []) ∧
    Next demoEnv (freshPool ["backup:abc"]) =
      some (⟨none, "", some (.invalidPort "abc")⟩,
        resolvedTo (freshSelected ["backup:abc"] "backup:abc") "backup" false none []) :=
  ⟨(Next_format_validation demoEnv (freshPool ["no-port-here"])
      (freshSelected ["no-port-here"] "no-port-here") "no-port-here" rfl (by decide)
      (by decide)).2.1 (by decide),
   (Next_format_validation demoEnv (freshPool ["backup:abc"])
      (freshSelected ["backup:abc"] "backup:abc") "backup:abc" rfl (by decide)
      (by decide)).2.2.1 (by decide)
      (Next_format_validation demoEnv (freshPool ["backup:abc"])
        (freshSelected ["backup:abc"] "backup:abc") "backup:abc" rfl (by decide)
        (by decide)).2.2.2.2.2.2.1⟩

/-! ## C8: the call after a failure -/

/-- C8 (as stated, refuted): the call after a failed one can take the same
server again.  In the pool `10.0.0.1:9000`, `nohost:9000` the second
resolution takes `nohost:9000` and fails; it was the last entry of the cycle,
the list is reshuffled, and the third resolution takes `nohost:9000` again.
In the single-server pool `nohost:9000` every resolution takes that server. -/
theorem failed_server_retried_counterexample :
    demoEnv.PermOK ∧
    (NewAddressPool demoEnv ["10.0.0.1:9000", "nohost:9000"]).bind (resolutionLog demoEnv 3)
      = some [("10.0.0.1:9000", true), ("nohost:9000", false), ("nohost:9000", false)] ∧
    (NewAddressPool demoEnv ["nohost:9000"]).bind (resolutionLog demoEnv 2)
      = some [("nohost:9000", false), ("nohost:9000", false)] := by
  refine ⟨demoEnv_permOK, by decide, by decide⟩

/-- C8 (amended): on a pool with a non-empty server list, an exhausted queue
and a cursor that is not negative, let `c` be the position the selection
reads (`cursorBase`: the cursor, or 0 when it had run off the list).  If `Next` fails, the cursor is left at
`c + 1` and the queue is `nil`, so the immediately following call of `Next`
makes a selection of its own: when `c + 1 < len(servers)` it takes the entry
at position `c + 1` of the same list, without a reshuffle; when
`c + 1 = len(servers)` it reshuffles first and takes position 0 of the new
order. -/
theorem failed_server_cursor_moved_on (env : Env) (hperm : env.PermOK) (s : Sys)
    (hne : s.pool.servers ≠ []) (hnil : s.pool.addresses = none)
    (hcur : 0 ≤ s.pool.roundrobin) :
    ∃ sel s1 r t,
      selectServer env { s with pool := { s.pool with addresses := some [] } } = some (sel, s1) ∧
      s1.pool.servers[cursorBase s]? = some sel ∧
      Next env s = some (r, t) ∧
      (r.err ≠ none →
        t.pool.addresses = none ∧ t.pool.roundrobin = cursorBase s + 1 ∧
        t.pool.servers = s1.pool.servers ∧
        ∃ sel2 s2 r2 t2,
          selectServer env { t with pool := { t.pool with addresses := some [] } }
            = some (sel2, s2) ∧
          Next env t = some (r2, t2) ∧
          selections t2.trace = selections s.trace ++ [sel, sel2] ∧
          (cursorBase s + 1 < t.pool.servers.length →
            t.pool.servers[cursorBase s + 1]? = some sel2 ∧
            s2.pool.servers = t.pool.servers ∧ shuffles t2.trace = shuffles t.trace) ∧
          (cursorBase s + 1 = t.pool.servers.length →
            s2.pool.servers[0]? = some sel2 ∧
            shuffles t2.trace = shuffles t.trace ++ [Event.perm t.pool.servers.length])) := by
  obtain ⟨sel, s1, r, t, hsel, hS, hN, hselt, hrr, hsrv, _, herr, _⟩ :=
    Next_exhausted_selects env hperm s hne hnil hcur
  refine ⟨sel, s1, r, t, hsel, hS.2.2.2.1, hN, fun hfail => ?_⟩
  have hnilt := herr hfail
  have hrrt : t.pool.roundrobin = cursorBase s + 1 := hrr.trans hS.2.1
  have hlen : t.pool.servers.length = s.pool.servers.length := by
    rw [hsrv]; exact hS.1.length_eq
  have hnet : t.pool.servers ≠ [] := by
    intro h0
    rw [h0] at hlen
    exact hne (List.length_eq_zero.mp hlen.symm)
  have hcurt : 0 ≤ t.pool.roundrobin := by rw [hrrt]; omega
  obtain ⟨sel2, s2, r2, t2, hsel2, hS2, hN2, hselt2, _, _, _, _, hsh2⟩ :=
    Next_exhausted_selects env hperm t hnet hnilt hcurt
  refine ⟨hnilt, hrrt, hsrv, sel2, s2, r2, t2, hsel2, hN2, ?_, ?_, ?_⟩
  · rw [hselt2, hselt]; simp
  · intro hlt
    have hb : cursorBase t = cursorBase s + 1 := by
      have hn : ¬ ((t.pool.servers.length : Int) ≤ t.pool.roundrobin) := by rw [hrrt]; omega
      have hc : cursorBase t = t.pool.roundrobin.toNat := by unfold cursorBase; rw [if_neg hn]
      rw [hc, hrrt]
      omega
    obtain ⟨h1, h2⟩ := hS2.2.2.2.2.2.2.2.2.1 (by omega)
    have hx := hS2.2.2.2.1
    rw [hb, h1] at hx
    refine ⟨hx, h1, ?_⟩
    rw [hsh2, h2]
    simp [shuffles_append, shuffles]
  · intro heq
    have hb : cursorBase t = 0 := by
      unfold cursorBase
      rw [if_pos (by omega)]
    have h2 := hS2.2.2.2.2.2.2.2.2.2 (by omega)
    have hx := hS2.2.2.2.1
    rw [hb] at hx
    refine ⟨hx, ?_⟩
    rw [hsh2, h2]
    simp [shuffles_append, shuffles]

/-- C8 (amended), at the pool `nohost:9000`, `10.0.0.1:9000`, whose first
server fails to resolve. -/
theorem failed_server_cursor_moved_on_witness :
    demoEnv.PermOK ∧ (freshPool ["nohost:9000", "10.0.0.1:9000"]).pool.servers ≠ [] ∧
    (Next demoEnv (freshPool ["nohost:9000", "10.0.0.1:9000"])).map (fun x => x.1.err)
      = some (some (PoolError.lookupFailure "nohost" "no such host")) ∧
    ∃ sel s1 r t,
      selectServer demoEnv
        { freshPool ["nohost:9000", "10.0.0.1:9000"] with
          pool := { (freshPool ["nohost:9000", "10.0.0.1:9000"]).pool with
            addresses := some [] } } = some (sel, s1) ∧
      s1.pool.servers[cursorBase (freshPool ["nohost:9000", "10.0.0.1:9000"])]? = some sel ∧
      Next demoEnv (freshPool ["nohost:9000", "10.0.0.1:9000"]) = some (r, t) ∧
      (r.err ≠ none →
        t.pool.addresses = none ∧
        t.pool.roundrobin = cursorBase (freshPool ["nohost:9000", "10.0.0.1:9000"]) + 1 ∧
        t.pool.servers = s1.pool.servers ∧
        ∃ sel2 s2 r2 t2,
          selectServer demoEnv { t with pool := { t.pool with addresses := some [] } }
            = some (sel2, s2) ∧
          Next demoEnv t = some (r2, t2) ∧
          selections t2.trace
            = selections (freshPool ["nohost:9000", "10.0.0.1:9000"]).trace ++ [sel, sel2] ∧
          (cursorBase (freshPool ["nohost:9000", "10.0.0.1:9000"]) + 1 < t.pool.servers.length →
            t.pool.servers[cursorBase (freshPool ["nohost:9000", "10.0.0.1:9000"]) + 1]?
              = some sel2 ∧
            s2.pool.servers = t.pool.servers ∧ shuffles t2.trace = shuffles t.trace) ∧
          (cursorBase (freshPool ["nohost:9000", "10.0.0.1:9000"]) + 1 = t.pool.servers.length →
            s2.pool.servers[0]? = some sel2 ∧
            shuffles t2.trace = shuffles t.trace ++ [Event.perm t.pool.servers.length])) :=
  ⟨demoEnv_permOK, by decide, by decide,
    failed_server_cursor_moved_on demoEnv demoEnv_permOK
      (freshPool ["nohost:9000", "10.0.0.1:9000"]) (by decide) rfl (by decide)⟩

/-! ## `NextServer` and the reachable states -/

/-- With a cursor that is not negative the index `roundrobin % len(servers)`
of `NextServer` is in range. -/
theorem goIndex_tmod (l : List String) (i : Int) (hne : l ≠ []) (hi : 0 ≤ i) :
    ∃ x, goIndex l (Int.tmod i l.length) = some x ∧ l[i.toNat % l.length]? = some x := by
  have hpos : 0 < l.length := List.length_pos.mpr hne
  obtain ⟨m, rfl⟩ := Int.eq_ofNat_of_zero_le hi
  have hlt : m % l.length < l.length := Nat.mod_lt _ hpos
  refine ⟨l[m % l.length], ?_, ?_⟩
  · rw [← Int.ofNat_tmod, goIndex_natCast, List.getElem?_eq_getElem hlt]
  · simp [List.getElem?_eq_getElem hlt]

/-- When its index is in range `NextServer` returns; it leaves the queue, the
server list and the SRV mode alone and increments the cursor. -/
theorem NextServer_frame (env : Env) (s : Sys) (selected : String)
    (hne : s.pool.servers ≠ [])
    (hget : goIndex s.pool.servers (Int.tmod s.pool.roundrobin s.pool.servers.length)
      = some selected) :
    ∃ r t, NextServer env s = some (r, t) ∧
      t.pool.addresses = s.pool.addresses ∧ t.pool.servers = s.pool.servers ∧
      t.pool.roundrobin = goInc s.pool.roundrobin ∧
      t.pool.rfc2782 = s.pool.rfc2782 ∧ t.pool.rfc2782Service = s.pool.rfc2782Service := by
  have hpos : 0 < s.pool.servers.length := List.length_pos.mpr hne
  have hz : ¬ s.pool.servers.length = 0 := by omega
  by_cases hat : selected.data.head? = some '@'
  · obtain ⟨⟨f1, f2, f3, f4, _⟩, hq, _, _, hok⟩ :=
      processSrv_spec env (String.mk (selected.data.drop 1))
        { s with pool := { s.pool with roundrobin := goInc s.pool.roundrobin } }
    generalize hres : processSrv env (String.mk (selected.data.drop 1))
      { s with pool := { s.pool with roundrobin := goInc s.pool.roundrobin } } = res
      at f1 f2 f3 f4 hq hok
    obtain ⟨out, s2⟩ := res
    cases out with
    | error e =>
      exact ⟨("", some e), s2,
        by simp only [NextServer, hz, if_false, hget, hat, if_true, hres], hq, f1, f2, f3, f4⟩
    | ok srvs =>
      cases srvs with
      | nil => exact absurd rfl (hok [] rfl)
      | cons srv0 rest0 =>
        exact ⟨(env.JoinHostPort srv0.Target (toString srv0.Port), none), s2,
          by simp only [NextServer, hz, if_false, hget, hat, if_true, hres,
            List.getElem?_cons_zero], hq, f1, f2, f3, f4⟩
  · exact ⟨(selected, none),
      { s with pool := { s.pool with roundrobin := goInc s.pool.roundrobin } },
      by simp [NextServer, hz, hget, hat], rfl, rfl, rfl, rfl, rfl⟩

/-- A call of `NextServer` that returns was made on a non-empty list with its
index in range. -/
theorem NextServer_index (env : Env) (s t : Sys) (r : String × Option PoolError)
    (h : NextServer env s = some (r, t)) :
    s.pool.servers ≠ [] ∧
    ∃ selected,
      goIndex s.pool.servers (Int.tmod s.pool.roundrobin s.pool.servers.length)
        = some selected := by
  by_cases hne : s.pool.servers = []
  · simp [NextServer, hne] at h
  · refine ⟨hne, ?_⟩
    have hz : ¬ s.pool.servers.length = 0 := fun h0 => hne (List.length_eq_zero.mp h0)
    cases hget : goIndex s.pool.servers
        (Int.tmod s.pool.roundrobin s.pool.servers.length) with
    | none => simp [NextServer, hz, hget] at h
    | some selected => exact ⟨selected, rfl⟩

theorem processSrv_eval (env : Env) (name : String) (s : Sys) :
    (processSrv env name s).2 =
      { pool := { s.pool with host := name, host_is_ip := false },
        trace := s.trace ++
          [Event.lookupSRV (if s.pool.rfc2782 then s.pool.rfc2782Service else "")
            (if s.pool.rfc2782 then "tcp" else "") name] } ∧
    (∀ srv rest,
      env.LookupSRV s.trace (if s.pool.rfc2782 then s.pool.rfc2782Service else "")
        (if s.pool.rfc2782 then "tcp" else "") name = .ok (srv :: rest) →
      (processSrv env name s).1 = .ok (srv :: rest)) ∧
    (env.LookupSRV s.trace (if s.pool.rfc2782 then s.pool.rfc2782Service else "")
        (if s.pool.rfc2782 then "tcp" else "") name = .ok [] →
      (processSrv env name s).1 = .error (.srvNoTargets name)) ∧
    (∀ err,
      env.LookupSRV s.trace (if s.pool.rfc2782 then s.pool.rfc2782Service else "")
        (if s.pool.rfc2782 then "tcp" else "") name = .error err →
      (processSrv env name s).1 = .error (.srvLookupFailure name err)) := by
  refine ⟨?_, ?_, ?_, ?_⟩
  · cases hl : env.LookupSRV s.trace (if s.pool.rfc2782 then s.pool.rfc2782Service else "")
        (if s.pool.rfc2782 then "tcp" else "") name with
    | error err => simp [processSrv, hl]
    | ok srvs =>
      by_cases hne : srvs = []
      · simp [processSrv, hl, hne]
      · simp [processSrv, hl, hne]
  · intro srv rest hl
    simp [processSrv, hl]
  · intro hl
    simp [processSrv, hl]
  · intro err hl
    simp [processSrv, hl]

/-- What `NextServer` does when its index is in range: it takes
`servers[roundrobin % len(servers)]` and increments the cursor, whatever the
outcome; a specifier that does not start with `@` is returned as it is,
without error and without a lookup; for `@name` it makes the one SRV lookup
for `name` and returns `JoinHostPort(target, port)` of the first record when
the answer is non-empty, and an SRV lookup error when the answer is empty or
the lookup fails; the queue and the server list are as before. -/
theorem NextServer_spec (env : Env) (s : Sys) (selected : String)
    (hne : s.pool.servers ≠ [])
    (hget : goIndex s.pool.servers (Int.tmod s.pool.roundrobin s.pool.servers.length)
      = some selected) :
    ∃ r t,
      NextServer env s = some (r, t) ∧
      t.pool.roundrobin = goInc s.pool.roundrobin ∧
      t.pool.addresses = s.pool.addresses ∧ t.pool.servers = s.pool.servers ∧
      (selected.data.head? ≠ some '@' → r = (selected, none) ∧ t.trace = s.trace) ∧
      (∀ name, selected = "@" ++ name →
        t.trace = s.trace ++
          [Event.lookupSRV (if s.pool.rfc2782 then s.pool.rfc2782Service else "")
            (if s.pool.rfc2782 then "tcp" else "") name] ∧
        (∀ srv rest,
          env.LookupSRV s.trace (if s.pool.rfc2782 then s.pool.rfc2782Service else "")
            (if s.pool.rfc2782 then "tcp" else "") name = .ok (srv :: rest) →
          r = (env.JoinHostPort srv.Target (toString srv.Port), none)) ∧
        (env.LookupSRV s.trace (if s.pool.rfc2782 then s.pool.rfc2782Service else "")
            (if s.pool.rfc2782 then "tcp" else "") name = .ok [] →
          r = ("", some (.srvNoTargets name))) ∧
        (∀ err,
          env.LookupSRV s.trace (if s.pool.rfc2782 then s.pool.rfc2782Service else "")
            (if s.pool.rfc2782 then "tcp" else "") name = .error err →
          r = ("", some (.srvLookupFailure name err)))) := by
  have hpos : 0 < s.pool.servers.length := List.length_pos.mpr hne
  have hz : ¬ s.pool.servers.length = 0 := by omega
  by_cases hat : selected.data.head? = some '@'
  · obtain ⟨hst, hok, hempty, herr⟩ := processSrv_eval env (String.mk (selected.data.drop 1))
      { s with pool := { s.pool with roundrobin := goInc s.pool.roundrobin } }
    generalize hres : processSrv env (String.mk (selected.data.drop 1))
      { s with pool := { s.pool with roundrobin := goInc s.pool.roundrobin } } = res
      at hst hok hempty herr
    obtain ⟨out, s2⟩ := res
    simp only at hst hok hempty herr
    have hname : ∀ name, selected = "@" ++ name → String.mk (selected.data.drop 1) = name :=
      fun name h => by rw [h]; exact at_name_tail name
    cases out with
    | error e =>
      refine ⟨("", some e), s2, ?_, ?_, ?_, ?_, fun h => absurd hat h, ?_⟩
      · simp only [NextServer, hz, if_false, hget, hat, if_true, hres]
      · rw [hst]
      · rw [hst]
      · rw [hst]
      · intro name hsel
        rw [hname name hsel] at hst hok hempty herr
        refine ⟨by rw [hst], ?_, ?_, ?_⟩
        · intro srv rest hl
          exact absurd (hok srv rest hl) (by simp)
        · intro hl
          have := hempty hl
          simp only [Except.error.injEq] at this
          rw [this]
        · intro err hl
          have := herr err hl
          simp only [Except.error.injEq] at this
          rw [this]
    | ok srvs =>
      have hne2 := (processSrv_spec env (String.mk (selected.data.drop 1))
        { s with pool := { s.pool with roundrobin := goInc s.pool.roundrobin } }).2.2.2.2 srvs
        (by rw [hres])
      cases srvs with
      | nil => exact absurd rfl hne2
      | cons srv0 rest0 =>
        refine ⟨(env.JoinHostPort srv0.Target (toString srv0.Port), none), s2,
          ?_, ?_, ?_, ?_, fun h => absurd hat h, ?_⟩
        · simp only [NextServer, hz, if_false, hget, hat, if_true, hres,
            List.getElem?_cons_zero]
        · rw [hst]
        · rw [hst]
        · rw [hst]
        · intro name hsel
          rw [hname name hsel] at hst hok hempty herr
          refine ⟨by rw [hst], ?_, ?_, ?_⟩
          · intro srv rest hl
            have := hok srv rest hl
            simp only [Except.ok.injEq, List.cons.injEq] at this
            rw [this.1]
          · intro hl
            exact absurd (hempty hl) (by simp)
          · intro err hl
            exact absurd (herr err hl) (by simp)
  · refine ⟨(selected, none),
      { s with pool := { s.pool with roundrobin := goInc s.pool.roundrobin } }, ?_, rfl,
      rfl, rfl, fun _ => ⟨rfl, rfl⟩, ?_⟩
    · simp [NextServer, hz, hget, hat]
    · intro name hsel
      exact absurd (by rw [hsel]; exact at_name_head name) hat

/-! ## Steps that return, on any server list -/

theorem ReachableVia.reachable {env : Env} {servers : List String} {allow : Sys → Prop}
    {s : Sys} (h : ReachableVia env servers allow s) : Reachable env servers s := by
  induction h with
  | init h0 => exact Reachable.init h0
  | next _ hN ih => exact Reachable.next ih hN
  | nextServer _ _ hN ih => exact Reachable.nextServer ih hN
  | setRfc2782 enabled service _ ih => exact Reachable.setRfc2782 enabled service ih

/-- A selection that returns was made on a non-empty list and leaves a
permutation of it. -/
theorem selectServer_perm (env : Env) (hperm : env.PermOK) (s s1 : Sys) (sel : String)
    (h : selectServer env s = some (sel, s1)) :
    s.pool.servers ≠ [] ∧ s1.pool.servers.Perm s.pool.servers := by
  by_cases hne : s.pool.servers = []
  · exfalso
    have hnn := selectServer_nonneg env s s1 sel h
    obtain ⟨l1, hl1, hsh⟩ := shuffleServers_spec env hperm s
    rw [hne] at hl1
    have hl : l1 = [] := List.Perm.eq_nil hl1
    subst hl
    simp [selectServer, hne, hsh, hnn, goIndex] at h
  · obtain ⟨sel2, s2, h2, hS, _⟩ :=
      selectServer_selected env hperm s hne (selectServer_nonneg env s s1 sel h)
    rw [h] at h2
    simp only [Option.some.injEq, Prod.mk.injEq] at h2
    obtain ⟨rfl, rfl⟩ := h2
    exact ⟨hne, hS.1⟩

/-- A call of `Next` that returns was made on a non-empty list, leaves a
permutation of it, and leaves the queue `nil` or non-empty. -/
theorem Next_returns (env : Env) (hperm : env.PermOK) (s t : Sys) (r : NextResult)
    (h : Next env s = some (r, t)) :
    t.pool.servers.Perm s.pool.servers ∧ t.pool.addresses ≠ some [] := by
  cases hadd : s.pool.addresses with
  | some l =>
    cases l with
    | nil => simp [Next, popAddress, hadd] at h
    | cons a q =>
      rw [Next_queued env s a q hadd] at h
      simp only [Option.some.injEq, Prod.mk.injEq] at h
      obtain ⟨_, rfl⟩ := h
      refine ⟨List.Perm.refl _, ?_⟩
      by_cases hqe : q = [] <;> simp [hqe]
  | none =>
    cases hsel : selectServer env { s with pool := { s.pool with addresses := some [] } } with
    | none => simp [Next, hadd, populateAddresses, hsel] at h
    | some p =>
      obtain ⟨sel, s1⟩ := p
      obtain ⟨_, hp⟩ := selectServer_perm env hperm _ s1 sel hsel
      have hq1 := (selectServer_trace env _ s1 sel hsel).2.2
      obtain ⟨⟨f1, _⟩, hok⟩ := resolveSelected_frame env sel s1
      generalize hres : resolveSelected env sel s1 = res at f1 hok
      obtain ⟨e, s2⟩ := res
      cases e with
      | some err =>
        rw [Next_exhausted_error env s s1 s2 sel err hadd hsel hres] at h
        simp only [Option.some.injEq, Prod.mk.injEq] at h
        obtain ⟨_, rfl⟩ := h
        exact ⟨by show s2.pool.servers.Perm _; rw [f1]; exact hp, by simp⟩
      | none =>
        obtain ⟨a, l, hq⟩ := hok rfl
        rw [hq1] at hq
        simp only [Option.getD_some, List.nil_append] at hq
        rw [Next_exhausted_ok env s s1 s2 sel a l hadd hsel hres hq] at h
        simp only [Option.some.injEq, Prod.mk.injEq] at h
        obtain ⟨_, rfl⟩ := h
        refine ⟨by show s2.pool.servers.Perm _; rw [f1]; exact hp, ?_⟩
        by_cases hqe : l = [] <;> simp [hqe]

/-- A call of `NextServer` that returns leaves the server list and the queue alone. -/
theorem NextServer_returns (env : Env) (s t : Sys) (r : String × Option PoolError)
    (h : NextServer env s = some (r, t)) :
    t.pool.servers = s.pool.servers ∧ t.pool.addresses = s.pool.addresses := by
  obtain ⟨hne, selected, hget⟩ := NextServer_index env s t r h
  obtain ⟨r2, t2, h2, hadd, hsrv, _⟩ := NextServer_frame env s selected hne hget
  rw [h] at h2
  simp only [Option.some.injEq, Prod.mk.injEq] at h2
  obtain ⟨_, rfl⟩ := h2
  exact ⟨hsrv, hadd⟩

/-- A call of `Next` on an exhausted pool that returns found the cursor not
negative. -/
theorem Next_nonneg (env : Env) (s t : Sys) (r : NextResult)
    (hadd : s.pool.addresses = none) (h : Next env s = some (r, t)) :
    0 ≤ s.pool.roundrobin := by
  cases hsel : selectServer env { s with pool := { s.pool with addresses := some [] } } with
  | none => simp [Next, hadd, populateAddresses, hsel] at h
  | some p =>
    obtain ⟨sel, s1⟩ := p
    exact selectServer_nonneg env { s with pool := { s.pool with addresses := some [] } }
      s1 sel hsel

/-! ## C10: `IsLast` -/

/-- Between two calls of its public methods a pool holds a permutation of the
servers it was built from, and its queue is `nil` or non-empty. -/
theorem reachable_inv (env : Env) (hperm : env.PermOK) (servers : List String)
    (hne : servers ≠ []) (s : Sys) (h : Reachable env servers s) :
    s.pool.servers.Perm servers ∧ s.pool.addresses ≠ some [] := by
  have nonempty_of_perm : ∀ l : List String, l.Perm servers → l ≠ [] := by
    intro l hl h0
    rw [h0] at hl
    exact hne (List.Perm.nil_eq hl).symm
  induction h with
  | init h0 =>
    obtain ⟨l1, hl1, h1⟩ := NewAddressPool_spec env hperm servers
    rw [h1] at h0
    simp only [Option.some.injEq] at h0
    subst h0
    exact ⟨hl1, by simp⟩
  | @next s s1 r _ hN ih =>
    obtain ⟨hp, _⟩ := ih
    obtain ⟨h1, h2⟩ := Next_returns env hperm s s1 r hN
    exact ⟨h1.trans hp, h2⟩
  | @nextServer s s1 r _ hN ih =>
    obtain ⟨hp, hq⟩ := ih
    obtain ⟨hsrv, hadd⟩ := NextServer_returns env s s1 r hN
    exact ⟨by rw [hsrv]; exact hp, by rw [hadd]; exact hq⟩
  | setRfc2782 enabled service _ ih => exact ih

/-- C10: for a pool built from a non-empty server list, `IsLast` is true
right after construction; and in every state the pool can be in between two
calls of its public methods, `IsLast` is true exactly when the queue is
empty, and, provided the cursor is not negative when `IsLast` is true (a
resolution reads `servers[roundrobin]`), `Next` returns, it performs a
resolution (one new selection) exactly when `IsLast` was true before the call
and otherwise leaves history and cursor alone, and afterwards `IsLast` is true if the call failed, and if it
succeeded `IsLast` is true exactly when the address returned was the last of
the queue it was popped from (the queue held before the call, or the one the
resolution has just built). -/
theorem IsLast_iff_resolution_due (env : Env) (hperm : env.PermOK) (servers : List String)
    (hne : servers ≠ []) :
    (∃ s0, NewAddressPool env servers = some s0 ∧ IsLast s0 = true) ∧
    ∀ s, Reachable env servers s →
      (IsLast s = true ↔ s.pool.addresses.getD [] = []) ∧
      ((IsLast s = true → 0 ≤ s.pool.roundrobin) →
        ∃ r t, Next env s = some (r, t) ∧
          (IsLast s = true → ∃ sel, selections t.trace = selections s.trace ++ [sel]) ∧
          (IsLast s = false → t.trace = s.trace ∧ t.pool.roundrobin = s.pool.roundrobin) ∧
          (r.err ≠ none → IsLast t = true) ∧
          (r.err = none →
            ∃ a rest, r.addr = some a ∧
              (IsLast s = false → s.pool.addresses = some (a :: rest)) ∧
              (IsLast s = true → ∃ s2,
                populateAddresses env { s with pool := { s.pool with addresses := some [] } }
                  = some (none, s2) ∧ s2.pool.addresses = some (a :: rest)) ∧
              t.pool.addresses.getD [] = rest ∧
              (IsLast t = true ↔ rest = []))) := by
  constructor
  · obtain ⟨l1, _, h1⟩ := NewAddressPool_spec env hperm servers
    exact ⟨_, h1, rfl⟩
  · intro s hs
    obtain ⟨hp, hq⟩ := reachable_inv env hperm servers hne s hs
    have hsne : s.pool.servers ≠ [] := by
      intro h0
      rw [h0] at hp
      exact hne (List.Perm.nil_eq hp).symm
    cases hadd : s.pool.addresses with
    | none =>
      refine ⟨by simp [IsLast, hadd], fun hcur => ?_⟩
      have hrr : 0 ≤ s.pool.roundrobin := hcur (by simp [IsLast, hadd])
      obtain ⟨sel, s1, e, s2, hsel, hS, _, hres, ⟨_, _, _, _, f5, _⟩, hcases⟩ :=
        Next_exhausted env hperm s hsne hadd hrr
      have hpop : populateAddresses env { s with pool := { s.pool with addresses := some [] } }
          = some (e, s2) := by
        simp [populateAddresses, hsel, hres]
      have hselt : selections s2.trace = selections s.trace ++ [sel] := by
        rw [f5, hS.trace_facts.1]
      rcases hcases with ⟨err, he, hN⟩ | ⟨he, a, q, hq2, hN⟩
      · refine ⟨_, _, hN, fun _ => ⟨sel, hselt⟩, ?_, fun _ => rfl, fun h => ?_⟩
        · intro h; simp [IsLast, hadd] at h
        · simp at h
      · refine ⟨_, _, hN, fun _ => ⟨sel, hselt⟩, ?_, fun h => absurd rfl h, fun _ => ?_⟩
        · intro h; simp [IsLast, hadd] at h
        · refine ⟨a, q, rfl, ?_, fun _ => ⟨s2, by rw [hpop, he], hq2⟩, ?_, ?_⟩
          · intro h; simp [IsLast, hadd] at h
          · by_cases hqe : q = [] <;> simp [hqe]
          · by_cases hqe : q = [] <;> simp [IsLast, hqe]
    | some l =>
      cases l with
      | nil => exact absurd hadd hq
      | cons a q =>
        refine ⟨by simp [IsLast, hadd], fun _ => ⟨_, _, Next_queued env s a q hadd, ?_, ?_,
          fun h => absurd rfl h, fun _ => ?_⟩⟩
        · intro h; simp [IsLast, hadd] at h
        · intro _; exact ⟨rfl, rfl⟩
        · refine ⟨a, q, rfl, fun _ => rfl, ?_, ?_, ?_⟩
          · intro h; simp [IsLast, hadd] at h
          · by_cases hqe : q = [] <;> simp [hqe]
          · by_cases hqe : q = [] <;> simp [IsLast, hqe]

/-- C10, at the pool `a.example.com:5043` after its first call of `Next`, when
one address is still queued. -/
theorem IsLast_iff_resolution_due_witness :
    demoEnv.PermOK ∧ Reachable demoEnv ["a.example.com:5043"] demoQueued ∧
    IsLast demoQueued = false ∧
    (∃ s0, NewAddressPool demoEnv ["a.example.com:5043"] = some s0 ∧ IsLast s0 = true) ∧
    (IsLast demoQueued = true ↔ demoQueued.pool.addresses.getD [] = []) ∧
    ∃ r t, Next demoEnv demoQueued = some (r, t) ∧
      (IsLast demoQueued = false →
        t.trace = demoQueued.trace ∧ t.pool.roundrobin = demoQueued.pool.roundrobin) ∧
      (r.err ≠ none → IsLast t = true) :=
  ⟨demoEnv_permOK,
    Reachable.next (r := ⟨some ⟨⟨[192, 0, 2, 1]⟩, 5043⟩, "192.0.2.1:5043 (a.example.com)", none⟩)
      (Reachable.init (s := demoBuilt) (by decide)) (by decide),
    by decide,
    (IsLast_iff_resolution_due demoEnv demoEnv_permOK ["a.example.com:5043"] (by decide)).1,
    ((IsLast_iff_resolution_due demoEnv demoEnv_permOK ["a.example.com:5043"] (by decide)).2
      demoQueued
      (Reachable.next
        (r := ⟨some ⟨⟨[192, 0, 2, 1]⟩, 5043⟩, "192.0.2.1:5043 (a.example.com)", none⟩)
        (Reachable.init (s := demoBuilt) (by decide)) (by decide))).1,
    (((IsLast_iff_resolution_due demoEnv demoEnv_permOK ["a.example.com:5043"] (by decide)).2
      demoQueued
      (Reachable.next
        (r := ⟨some ⟨⟨[192, 0, 2, 1]⟩, 5043⟩, "192.0.2.1:5043 (a.example.com)", none⟩)
        (Reachable.init (s := demoBuilt) (by decide)) (by decide))).2
      (fun _ => by decide)).elim
      (fun r h => h.elim (fun t h => ⟨r, t, h.1, h.2.2.1, h.2.2.2.1⟩))⟩

/-- The cursor after a call of `Next`: between 1 and the length of the list
when the call resolved, as before when it only popped the queue. -/
theorem Next_cursor (env : Env) (hperm : env.PermOK) (s t : Sys) (r : NextResult)
    (hne : s.pool.servers ≠ []) (hq : s.pool.addresses ≠ some [])
    (h : Next env s = some (r, t)) :
    (s.pool.addresses = none →
      1 ≤ t.pool.roundrobin ∧ t.pool.roundrobin ≤ t.pool.servers.length) ∧
    (s.pool.addresses ≠ none →
      t.pool.roundrobin = s.pool.roundrobin ∧ t.pool.servers = s.pool.servers ∧
      t.trace = s.trace) := by
  cases hadd : s.pool.addresses with
  | some l =>
    cases l with
    | nil => exact absurd hadd hq
    | cons a q =>
      rw [Next_queued env s a q hadd] at h
      simp only [Option.some.injEq, Prod.mk.injEq] at h
      obtain ⟨_, rfl⟩ := h
      exact ⟨fun h0 => by simp at h0, fun _ => ⟨rfl, rfl, rfl⟩⟩
  | none =>
    obtain ⟨sel, s1, r2, t2, _, hS, hN, _, hrr, hsrv, _, _, _⟩ :=
      Next_exhausted_selects env hperm s hne hadd (Next_nonneg env s t r hadd h)
    rw [hN] at h
    simp only [Option.some.injEq, Prod.mk.injEq] at h
    obtain ⟨_, rfl⟩ := h
    refine ⟨fun _ => ?_, fun h0 => absurd rfl h0⟩
    have h1 := hS.2.1
    have h2 := hS.2.2.1
    have h3 := hS.1.length_eq
    rw [hrr, hsrv, h1, h3]
    omega

/-! ## C11: the cursor bound -/

/-- C11 (as stated, refuted): `NextServer` moves the cursor on without ever
resetting it.  After `NewAddressPool` and two calls of `NextServer` on the
one-server pool `backup:9000` the cursor is 2 and the list has length 1. -/
theorem cursor_exceeds_length_counterexample :
    demoEnv.PermOK ∧
    (NewAddressPool demoEnv ["backup:9000"]).bind (fun s0 =>
      (NextServer demoEnv s0).bind (fun x =>
        (NextServer demoEnv x.2).map (fun y =>
          (y.1, y.2.pool.roundrobin, y.2.pool.servers.length))))
      = some (("backup:9000", none), 2, 1) ∧
    ¬ (2 ≤ 1) := by
  refine ⟨demoEnv_permOK, by decide, by decide⟩

/-- C11 (amended): for a pool built from a non-empty server list, along every
sequence of `Next` and `SetRfc2782` calls (the queries change nothing) the
cursor stays within `0 .. len(servers)`; in every state the pool can reach,
`NextServer` calls included, in which the cursor is not negative, a call of
`Next` on an exhausted queue leaves the cursor within `1 .. len(servers)` (the
selection resets a cursor that has run off the list before reading it); and
in every such state in which the cursor is below the largest `int`, a call
of `NextServer` leaves the cursor exactly one higher, without a reset. -/
theorem cursor_bound (env : Env) (hperm : env.PermOK) (servers : List String)
    (hne : servers ≠ []) :
    (∀ s, ReachableVia env servers (fun _ => False) s →
      0 ≤ s.pool.roundrobin ∧ s.pool.roundrobin ≤ s.pool.servers.length) ∧
    (∀ s, Reachable env servers s → s.pool.addresses = none → 0 ≤ s.pool.roundrobin →
      ∃ r t, Next env s = some (r, t) ∧
        1 ≤ t.pool.roundrobin ∧ t.pool.roundrobin ≤ t.pool.servers.length) ∧
    (∀ s, Reachable env servers s → 0 ≤ s.pool.roundrobin → s.pool.roundrobin < maxInt →
      ∃ r t, NextServer env s = some (r, t) ∧
        t.pool.roundrobin = s.pool.roundrobin + 1) := by
  have nonempty : ∀ s, Reachable env servers s → s.pool.servers ≠ [] := by
    intro s hs h0
    have hp := (reachable_inv env hperm servers hne s hs).1
    rw [h0] at hp
    exact hne (List.Perm.nil_eq hp).symm
  refine ⟨?_, ?_, ?_⟩
  · intro s hs
    induction hs with
    | init h0 =>
      obtain ⟨l1, _, h1⟩ := NewAddressPool_spec env hperm servers
      rw [h1] at h0
      simp only [Option.some.injEq] at h0
      subst h0
      exact ⟨Int.le_refl 0, Int.ofNat_nonneg _⟩
    | @next s s1 r hs hN ih =>
      have hr := hs.reachable
      have hq := (reachable_inv env hperm servers hne s hr).2
      obtain ⟨h1, h2⟩ := Next_cursor env hperm s s1 r (nonempty s hr) hq hN
      cases hadd : s.pool.addresses with
      | none =>
        obtain ⟨h3, h4⟩ := h1 hadd
        exact ⟨by omega, h4⟩
      | some l =>
        obtain ⟨e1, e2, _⟩ := h2 (by rw [hadd]; simp)
        rw [e1, e2]
        exact ih
    | nextServer _ hallow _ _ => exact absurd hallow (fun h => h)
    | setRfc2782 enabled service _ ih => exact ih
  · intro s hs hadd hrr
    obtain ⟨sel, s1, r, t, _, _, hN, _⟩ :=
      Next_exhausted_selects env hperm s (nonempty s hs) hadd hrr
    have hq : s.pool.addresses ≠ some [] := by rw [hadd]; simp
    exact ⟨r, t, hN, (Next_cursor env hperm s t r (nonempty s hs) hq hN).1 hadd⟩
  · intro s hs hrr hmax
    obtain ⟨selected, hget, _⟩ := goIndex_tmod s.pool.servers s.pool.roundrobin
      (nonempty s hs) hrr
    obtain ⟨r, t, hN, _, _, hcur, _⟩ := NextServer_frame env s selected (nonempty s hs) hget
    exact ⟨r, t, hN, by rw [hcur, goInc_eq _ hrr hmax]⟩

/-- C11 (amended), at the pool `a.example.com:5043` after its first call of `Next`. -/
theorem cursor_bound_witness :
    demoEnv.PermOK ∧
    ReachableVia demoEnv ["a.example.com:5043"] (fun _ => False) demoQueued ∧
    (0 ≤ demoQueued.pool.roundrobin ∧
      demoQueued.pool.roundrobin ≤ demoQueued.pool.servers.length) ∧
    ∃ r t, NextServer demoEnv demoQueued = some (r, t) ∧
      t.pool.roundrobin = demoQueued.pool.roundrobin + 1 :=
  ⟨demoEnv_permOK,
    ReachableVia.next
      (r := ⟨some ⟨⟨[192, 0, 2, 1]⟩, 5043⟩, "192.0.2.1:5043 (a.example.com)", none⟩)
      (ReachableVia.init (s := demoBuilt) (by decide)) (by decide),
    (cursor_bound demoEnv demoEnv_permOK ["a.example.com:5043"] (by decide)).1 demoQueued
      (ReachableVia.next
        (r := ⟨some ⟨⟨[192, 0, 2, 1]⟩, 5043⟩, "192.0.2.1:5043 (a.example.com)", none⟩)
        (ReachableVia.init (s := demoBuilt) (by decide)) (by decide)),
    (cursor_bound demoEnv demoEnv_permOK ["a.example.com:5043"] (by decide)).2.2 demoQueued
      (Reachable.next
        (r := ⟨some ⟨⟨[192, 0, 2, 1]⟩, 5043⟩, "192.0.2.1:5043 (a.example.com)", none⟩)
        (Reachable.init (s := demoBuilt) (by decide)) (by decide))
      (by decide) (by decide)⟩

/-- A run of `Next` calls leads from a reachable state to a reachable state. -/
theorem reachable_runNext (env : Env) (servers : List String) (n : Nat) (s sn : Sys)
    (hs : Reachable env servers s)
    (h : (runNext env n s).map (fun x => x.2) = some sn) : Reachable env servers sn := by
  induction n generalizing s with
  | zero =>
    simp only [runNext, Option.map_some', Option.some.injEq] at h
    subst h
    exact hs
  | succ n ih =>
    unfold runNext at h
    cases hN : Next env s with
    | none => simp [hN] at h
    | some p =>
      obtain ⟨r, s1⟩ := p
      apply ih s1 (Reachable.next hs hN)
      cases hrest : runNext env n s1 with
      | none => simp [hN, hrest] at h
      | some q =>
        obtain ⟨rs, s2⟩ := q
        simpa [hN, hrest] using h

/-! ## C13: the server list is a permutation of the input -/

/-- C13: when the random source returns permutations, `NewAddressPool` returns
a pool whose server list is a permutation of the list it was given, of the
same length; `Next` (reshuffles included), `NextServer` and `SetRfc2782` each
leave a permutation of the list they found (the queries change nothing); so in
every state the pool can reach its list is a permutation of the list given at
construction. -/
theorem servers_always_permutation (env : Env) (hperm : env.PermOK) (servers : List String) :
    (∃ s0, NewAddressPool env servers = some s0 ∧ s0.pool.servers.Perm servers ∧
      s0.pool.servers.length = servers.length) ∧
    (∀ s r t, Next env s = some (r, t) → t.pool.servers.Perm s.pool.servers) ∧
    (∀ s r t, NextServer env s = some (r, t) → t.pool.servers = s.pool.servers) ∧
    (∀ s enabled service, (SetRfc2782 s enabled service).pool.servers = s.pool.servers) ∧
    (∀ s, Reachable env servers s →
      s.pool.servers.Perm servers ∧ s.pool.servers.length = servers.length) := by
  obtain ⟨l1, hl1, h1⟩ := NewAddressPool_spec env hperm servers
  refine ⟨⟨_, h1, hl1, hl1.length_eq⟩,
    fun s r t h => (Next_returns env hperm s t r h).1,
    fun s r t h => (NextServer_returns env s t r h).1,
    fun _ _ _ => rfl, ?_⟩
  intro s hs
  suffices h : s.pool.servers.Perm servers from ⟨h, h.length_eq⟩
  induction hs with
  | init h0 =>
    rw [h1] at h0
    simp only [Option.some.injEq] at h0
    subst h0
    exact hl1
  | next _ hN ih => exact (Next_returns env hperm _ _ _ hN).1.trans ih
  | nextServer _ hN ih =>
    rw [(NextServer_returns env _ _ _ hN).1]
    exact ih
  | setRfc2782 enabled service _ ih => exact ih

/-- C13, at the pool built from `10.0.0.1:9000`, `10.0.0.2:9000` after three
calls of `Next`, the third of which reshuffled the list into the opposite
order, then `SetRfc2782(true, "courier")` and a call of `NextServer`. -/
theorem servers_always_permutation_witness :
    demoEnv.PermOK ∧
    NewAddressPool demoEnv ["10.0.0.1:9000", "10.0.0.2:9000"] = some demoPair ∧
    (runNext demoEnv 3 demoPair).map (fun x => x.2) = some demoThird ∧
    NextServer demoEnv (SetRfc2782 demoThird true "courier")
      = some (("10.0.0.1:9000", none), demoFourth) ∧
    Reachable demoEnv ["10.0.0.1:9000", "10.0.0.2:9000"] demoFourth ∧
    shuffles demoFourth.trace = [Event.perm 2, Event.perm 2] ∧
    demoFourth.pool.servers = ["10.0.0.2:9000", "10.0.0.1:9000"] ∧
    demoFourth.pool.servers.Perm ["10.0.0.1:9000", "10.0.0.2:9000"] ∧
    demoFourth.pool.servers.length = ["10.0.0.1:9000", "10.0.0.2:9000"].length :=
  ⟨demoEnv_permOK, by decide, by decide, by decide,
    Reachable.nextServer (s := SetRfc2782 demoThird true "courier")
      (r := ("10.0.0.1:9000", none))
      (Reachable.setRfc2782 true "courier"
        (reachable_runNext demoEnv ["10.0.0.1:9000", "10.0.0.2:9000"] 3 demoPair demoThird
          (Reachable.init (by decide)) (by decide)))
      (by decide),
    by decide, rfl,
    (servers_always_permutation demoEnv demoEnv_permOK
      ["10.0.0.1:9000", "10.0.0.2:9000"]).2.2.2.2 demoFourth
      (Reachable.nextServer (s := SetRfc2782 demoThird true "courier")
        (r := ("10.0.0.1:9000", none))
        (Reachable.setRfc2782 true "courier"
          (reachable_runNext demoEnv ["10.0.0.1:9000", "10.0.0.2:9000"] 3 demoPair demoThird
            (Reachable.init (by decide)) (by decide)))
        (by decide))⟩

/-! ## Queue non-emptiness, and index safety while the cursor is not negative -/

/-- Whenever `populateAddresses` returns without error it has appended at
least one address to the queue; and for a pool built from a non-empty server
list, in every state it can reach by `Next`, `NextServer` and `SetRfc2782`
the queue is `nil` or non-empty, and, as long as the cursor is not negative,
neither `Next` (with the `populateAddresses` it calls on a `nil` queue) nor
`NextServer` panics: the reads `p.addresses[0]` and `p.servers[p.roundrobin]`
are in range. -/
theorem safety_in_range (env : Env) (hperm : env.PermOK) (servers : List String)
    (hne : servers ≠ []) :
    (∀ s s2, populateAddresses env s = some (none, s2) →
      ∃ a l, s2.pool.addresses = some (s.pool.addresses.getD [] ++ a :: l)) ∧
    (∀ s, Reachable env servers s →
      (s.pool.addresses = none ∨ ∃ a l, s.pool.addresses = some (a :: l))) ∧
    (∀ s, Reachable env servers s → 0 ≤ s.pool.roundrobin →
      (∃ r t, Next env s = some (r, t)) ∧
      (∃ r t, NextServer env s = some (r, t)) ∧
      (s.pool.addresses = none →
        ∃ sel s1,
          selectServer env { s with pool := { s.pool with addresses := some [] } }
            = some (sel, s1) ∧
          populateAddresses env { s with pool := { s.pool with addresses := some [] } }
            = some (resolveSelected env sel s1))) := by
  refine ⟨?_, ?_, ?_⟩
  · intro s s2 h
    unfold populateAddresses at h
    cases hsel : selectServer env s with
    | none => simp [hsel] at h
    | some p =>
      obtain ⟨sel, s1⟩ := p
      simp only [hsel, Option.some.injEq] at h
      have hq1 := (selectServer_trace env s s1 sel hsel).2.2
      obtain ⟨_, hok⟩ := resolveSelected_frame env sel s1
      rw [h] at hok
      rw [← hq1]
      exact hok rfl
  · intro s hs
    obtain ⟨_, hq⟩ := reachable_inv env hperm servers hne s hs
    cases hadd : s.pool.addresses with
    | none => exact Or.inl rfl
    | some l =>
      cases l with
      | nil => exact absurd hadd hq
      | cons a q => exact Or.inr ⟨a, q, rfl⟩
  · intro s hs hrr
    obtain ⟨hp, hq⟩ := reachable_inv env hperm servers hne s hs
    have hsne : s.pool.servers ≠ [] := by
      intro h0
      rw [h0] at hp
      exact hne (List.Perm.nil_eq hp).symm
    obtain ⟨selected, hget, _⟩ := goIndex_tmod s.pool.servers s.pool.roundrobin hsne hrr
    obtain ⟨r2, t2, hN2, _⟩ := NextServer_frame env s selected hsne hget
    cases hadd : s.pool.addresses with
    | none =>
      obtain ⟨sel, s1, r, t, hsel, _, hN, _⟩ :=
        Next_exhausted_selects env hperm s hsne hadd hrr
      exact ⟨⟨r, t, hN⟩, ⟨r2, t2, hN2⟩,
        fun _ => ⟨sel, s1, hsel, by simp only [populateAddresses, hsel]⟩⟩
    | some l =>
      cases l with
      | nil => exact absurd hadd hq
      | cons a q =>
        exact ⟨⟨_, _, Next_queued env s a q hadd⟩, ⟨r2, t2, hN2⟩,
          fun h0 => by simp at h0⟩


/-! ## What a resolution adds to the history -/

theorem populateLookup_trace (env : Env) (host : String) (port : Nat) (s : Sys) :
    ∃ ext, (populateLookup env host port s).2.trace = s.trace ++ ext ∧
      ∀ e ∈ ext, ∃ h, e = Event.lookupIP h := by
  cases hp : env.ParseIP host with
  | some ip =>
    rw [populateLookup_literal env host port s ip hp]
    exact ⟨[], by simp, by simp⟩
  | none =>
    refine ⟨[Event.lookupIP host], ?_, by simp⟩
    cases hl : env.LookupIP s.trace host with
    | error err => simp [populateLookup, hp, hl]
    | ok ips =>
      by_cases hne : ips = []
      · simp [populateLookup, hp, hl, hne]
      · rw [populateLookup_resolved env host port s ips hp hl hne]

theorem populateTargets_trace (env : Env) (srvs : List SRV) (s : Sys) :
    ∃ ext, (populateTargets env srvs s).2.trace = s.trace ++ ext ∧
      ∀ e ∈ ext, ∃ h, e = Event.lookupIP h := by
  induction srvs generalizing s with
  | nil => exact ⟨[], by simp [populateTargets], by simp⟩
  | cons srv rest ih =>
    obtain ⟨ext1, h1, hall1⟩ := populateLookup_trace env srv.Target srv.Port s
    unfold populateTargets
    generalize populateLookup env srv.Target srv.Port s = r at h1
    obtain ⟨⟨b, e⟩, s1⟩ := r
    cases e with
    | some err => exact ⟨ext1, h1, hall1⟩
    | none =>
      obtain ⟨ext2, h2, hall2⟩ := ih s1
      simp only at h1
      refine ⟨ext1 ++ ext2, ?_, ?_⟩
      · simp only
        rw [h2, h1, List.append_assoc]
      · intro e he
        rcases List.mem_append.mp he with h | h
        · exact hall1 e h
        · exact hall2 e h

/-- The method `processSrv`, in terms of the query form and of the
mode-independent reading of the answer. -/
theorem processSrv_query (env : Env) (name : String) (s : Sys) :
    processSrv env name s =
      (srvOutcome name (env.LookupSRV s.trace (srvQuery s.pool).1 (srvQuery s.pool).2 name),
        { pool := { s.pool with host := name, host_is_ip := false },
          trace := s.trace ++
            [Event.lookupSRV (srvQuery s.pool).1 (srvQuery s.pool).2 name] }) := by
  have hq1 : (srvQuery s.pool).1 = if s.pool.rfc2782 then s.pool.rfc2782Service else "" := by
    unfold srvQuery; split <;> rfl
  have hq2 : (srvQuery s.pool).2 = if s.pool.rfc2782 then "tcp" else "" := by
    unfold srvQuery; split <;> rfl
  rw [hq1, hq2]
  cases hl : env.LookupSRV s.trace (if s.pool.rfc2782 then s.pool.rfc2782Service else "")
      (if s.pool.rfc2782 then "tcp" else "") name with
  | error err => simp [processSrv, hl, srvOutcome]
  | ok srvs =>
    cases srvs with
    | nil => simp [processSrv, hl, srvOutcome]
    | cons r rs => simp [processSrv, hl, srvOutcome]

/-- A call of `Next` on an exhausted pool, once the selection step has
returned, in terms of the outcome of the resolution. -/
theorem Next_after_select_cases (env : Env) (s s1 : Sys) (sel : String)
    (hnil : s.pool.addresses = none)
    (hsel : selectServer env { s with pool := { s.pool with addresses := some [] } }
      = some (sel, s1)) :
    (∃ err, (resolveSelected env sel s1).1 = some err ∧
      Next env s =
        some (⟨none, "", some err⟩,
          { (resolveSelected env sel s1).2 with
            pool := { (resolveSelected env sel s1).2.pool with addresses := none } })) ∨
    ((resolveSelected env sel s1).1 = none ∧
      ∃ a q, (resolveSelected env sel s1).2.pool.addresses = some (a :: q) ∧
        Next env s =
          some (⟨some a,
              describe env (resolveSelected env sel s1).2.pool.host_is_ip
                (resolveSelected env sel s1).2.pool.host a, none⟩,
            { (resolveSelected env sel s1).2 with
              pool := { (resolveSelected env sel s1).2.pool with
                addresses := if q = [] then none else some q } })) := by
  have hq1 := (selectServer_trace env _ s1 sel hsel).2.2
  obtain ⟨_, hok⟩ := resolveSelected_frame env sel s1
  generalize hres : resolveSelected env sel s1 = res at hok
  obtain ⟨e, s2⟩ := res
  cases e with
  | some err =>
    exact Or.inl ⟨err, rfl, Next_exhausted_error env s s1 s2 sel err hnil hsel hres⟩
  | none =>
    obtain ⟨a, l, hq⟩ := hok rfl
    rw [hq1] at hq
    simp only [Option.getD_some, List.nil_append] at hq
    exact Or.inr ⟨rfl, a, l, hq, Next_exhausted_ok env s s1 s2 sel a l hnil hsel hres hq⟩

/-- Whatever the random source does, a selection that returns leaves the SRV
mode and the host fields alone. -/
theorem selectServer_mode (env : Env) (s s1 : Sys) (sel : String)
    (h : selectServer env s = some (sel, s1)) :
    s1.pool.rfc2782 = s.pool.rfc2782 ∧ s1.pool.rfc2782Service = s.pool.rfc2782Service ∧
    s1.pool.host = s.pool.host ∧ s1.pool.host_is_ip = s.pool.host_is_ip := by
  unfold selectServer at h
  split at h
  · simp at h
  · rename_i s2 hs2
    split at h
    · simp at h
    · rename_i selected hsel
      simp only [Option.some.injEq, Prod.mk.injEq] at h
      obtain ⟨rfl, rfl⟩ := h
      by_cases hr : s.pool.roundrobin ≥ s.pool.servers.length
      · rw [if_pos hr] at hs2
        unfold shuffleServers at hs2
        split at hs2
        · simp at hs2
        · simp only [Option.map_some', Option.some.injEq] at hs2
          subst hs2
          exact ⟨rfl, rfl, rfl, rfl⟩
      · rw [if_neg hr] at hs2
        simp only [Option.some.injEq] at hs2
        subst hs2
        exact ⟨rfl, rfl, rfl, rfl⟩

/-! ## C14: the form of the SRV query -/

theorem resolveSelected_srv_query (env : Env) (s1 : Sys) (name : String) :
    resolveSelected env ("@" ++ name) s1 =
      match srvOutcome name
          (env.LookupSRV s1.trace (srvQuery s1.pool).1 (srvQuery s1.pool).2 name) with
      | .error err =>
        (some err,
          resolvedTo s1 name false s1.pool.addresses
            [Event.lookupSRV (srvQuery s1.pool).1 (srvQuery s1.pool).2 name])
      | .ok srvs =>
        populateTargets env srvs
          (resolvedTo s1 name false s1.pool.addresses
            [Event.lookupSRV (srvQuery s1.pool).1 (srvQuery s1.pool).2 name]) := by
  simp only [resolveSelected, at_name_head, at_name_tail, if_true, processSrv_query]
  cases srvOutcome name
      (env.LookupSRV s1.trace (srvQuery s1.pool).1 (srvQuery s1.pool).2 name) with
  | error err => rfl
  | ok srvs => rfl

theorem resolveSelected_srv_trace (env : Env) (s1 : Sys) (name : String) :
    ∃ ext, (resolveSelected env ("@" ++ name) s1).2.trace =
        s1.trace ++ Event.lookupSRV (srvQuery s1.pool).1 (srvQuery s1.pool).2 name :: ext ∧
      ∀ e ∈ ext, ∃ h, e = Event.lookupIP h := by
  rw [resolveSelected_srv_query]
  cases srvOutcome name
      (env.LookupSRV s1.trace (srvQuery s1.pool).1 (srvQuery s1.pool).2 name) with
  | error err => exact ⟨[], by simp [resolvedTo], by simp⟩
  | ok srvs =>
    obtain ⟨ext, h1, h2⟩ := populateTargets_trace env srvs
      (resolvedTo s1 name false s1.pool.addresses
        [Event.lookupSRV (srvQuery s1.pool).1 (srvQuery s1.pool).2 name])
    refine ⟨ext, ?_, h2⟩
    simp only
    rw [h1]
    simp [resolvedTo]

theorem Next_mode (env : Env) (s t : Sys) (r : NextResult) (h : Next env s = some (r, t)) :
    t.pool.rfc2782 = s.pool.rfc2782 ∧ t.pool.rfc2782Service = s.pool.rfc2782Service := by
  cases hadd : s.pool.addresses with
  | some l =>
    cases l with
    | nil => simp [Next, popAddress, hadd] at h
    | cons a q =>
      rw [Next_queued env s a q hadd] at h
      simp only [Option.some.injEq, Prod.mk.injEq] at h
      obtain ⟨_, rfl⟩ := h
      exact ⟨rfl, rfl⟩
  | none =>
    cases hsel : selectServer env { s with pool := { s.pool with addresses := some [] } } with
    | none => simp [Next, hadd, populateAddresses, hsel] at h
    | some p =>
      obtain ⟨sel, s1⟩ := p
      obtain ⟨m1, m2, _, _⟩ := selectServer_mode env _ s1 sel hsel
      obtain ⟨⟨_, _, f3, f4, _⟩, _⟩ := resolveSelected_frame env sel s1
      rcases Next_after_select_cases env s s1 sel hadd hsel with ⟨err, _, hN⟩ | ⟨_, a, q, _, hN⟩
      · rw [hN] at h
        simp only [Option.some.injEq, Prod.mk.injEq] at h
        obtain ⟨_, rfl⟩ := h
        exact ⟨f3.trans m1, f4.trans m2⟩
      · rw [hN] at h
        simp only [Option.some.injEq, Prod.mk.injEq] at h
        obtain ⟨_, rfl⟩ := h
        exact ⟨f3.trans m1, f4.trans m2⟩

theorem NextServer_mode (env : Env) (s t : Sys) (r : String × Option PoolError)
    (h : NextServer env s = some (r, t)) :
    t.pool.rfc2782 = s.pool.rfc2782 ∧ t.pool.rfc2782Service = s.pool.rfc2782Service := by
  obtain ⟨hne, selected, hget⟩ := NextServer_index env s t r h
  obtain ⟨r2, t2, h2, _, _, _, h3, h4⟩ := NextServer_frame env s selected hne hget
  rw [h] at h2
  simp only [Option.some.injEq, Prod.mk.injEq] at h2
  obtain ⟨_, rfl⟩ := h2
  exact ⟨h3, h4⟩

theorem srvQuery_congr (p q : Pool) (h1 : q.rfc2782 = p.rfc2782)
    (h2 : q.rfc2782Service = p.rfc2782Service) : srvQuery q = srvQuery p := by
  unfold srvQuery
  rw [h1, h2]

/-- C14: the SRV query for an `@name` specifier is issued with the pair
`srvQuery`: the configured service and `tcp` once `SetRfc2782(true, service)`
has been called, two empty strings after `SetRfc2782(false, _)` and by default
after construction, and `Next` and `NextServer` leave the mode as it is.  Both
`Next` (through `populateAddresses`) and `NextServer` issue exactly that one
query for `name`, the specifier without its `@`; what they make of the answer
(`srvOutcome`, then the expansion of the targets or the first record) does not
depend on the mode. -/
theorem srv_query_form (env : Env) :
    (∀ servers s0, NewAddressPool env servers = some s0 → srvQuery s0.pool = ("", "")) ∧
    (∀ s service, srvQuery (SetRfc2782 s true service).pool = (service, "tcp")) ∧
    (∀ s service, srvQuery (SetRfc2782 s false service).pool = ("", "")) ∧
    (∀ s r t, Next env s = some (r, t) → srvQuery t.pool = srvQuery s.pool) ∧
    (∀ s r t, NextServer env s = some (r, t) → srvQuery t.pool = srvQuery s.pool) ∧
    (∀ s s1 name, s.pool.addresses = none →
      selectServer env { s with pool := { s.pool with addresses := some [] } }
        = some ("@" ++ name, s1) →
      resolveSelected env ("@" ++ name) s1 =
        (match srvOutcome name
            (env.LookupSRV s1.trace (srvQuery s.pool).1 (srvQuery s.pool).2 name) with
        | .error err =>
          (some err,
            resolvedTo s1 name false s1.pool.addresses
              [Event.lookupSRV (srvQuery s.pool).1 (srvQuery s.pool).2 name])
        | .ok srvs =>
          populateTargets env srvs
            (resolvedTo s1 name false s1.pool.addresses
              [Event.lookupSRV (srvQuery s.pool).1 (srvQuery s.pool).2 name])) ∧
      ∃ r t ext, Next env s = some (r, t) ∧
        t.trace = s1.trace ++ Event.lookupSRV (srvQuery s.pool).1 (srvQuery s.pool).2 name :: ext ∧
        ∀ e ∈ ext, ∃ h, e = Event.lookupIP h) ∧
    (∀ s name, s.pool.servers ≠ [] →
      goIndex s.pool.servers (Int.tmod s.pool.roundrobin s.pool.servers.length)
        = some ("@" ++ name) →
      NextServer env s =
        some (srvConnectTarget env (srvOutcome name
            (env.LookupSRV s.trace (srvQuery s.pool).1 (srvQuery s.pool).2 name)),
          { pool := { s.pool with
              roundrobin := goInc s.pool.roundrobin, host := name, host_is_ip := false },
            trace := s.trace ++
              [Event.lookupSRV (srvQuery s.pool).1 (srvQuery s.pool).2 name] })) := by
  refine ⟨?_, ?_, ?_, ?_, ?_, ?_, ?_⟩
  · intro servers s0 h
    unfold NewAddressPool shuffleServers at h
    split at h
    · simp at h
    · simp only [Option.some.injEq] at h
      subst h
      rfl
  · intro s service
    simp [srvQuery, SetRfc2782]
  · intro s service
    simp [srvQuery, SetRfc2782]
  · intro s r t h
    obtain ⟨h1, h2⟩ := Next_mode env s t r h
    exact srvQuery_congr _ _ h1 h2
  · intro s r t h
    obtain ⟨h1, h2⟩ := NextServer_mode env s t r h
    exact srvQuery_congr _ _ h1 h2
  · intro s s1 name hnil hsel
    obtain ⟨m1, m2, _, _⟩ := selectServer_mode env _ s1 _ hsel
    have hq : srvQuery s1.pool = srvQuery s.pool := srvQuery_congr _ _ m1 m2
    refine ⟨by rw [← hq]; exact resolveSelected_srv_query env s1 name, ?_⟩
    obtain ⟨ext, hext, hall⟩ := resolveSelected_srv_trace env s1 name
    rw [hq] at hext
    rcases Next_after_select_cases env s s1 _ hnil hsel with ⟨err, _, hN⟩ | ⟨_, a, q, _, hN⟩
    · exact ⟨_, _, ext, hN, hext, hall⟩
    · exact ⟨_, _, ext, hN, hext, hall⟩
  · intro s name hne hget
    have hz : ¬ s.pool.servers.length = 0 := fun h => hne (List.length_eq_zero.mp h)
    have hq : srvQuery
        ({ s with pool := { s.pool with roundrobin := goInc s.pool.roundrobin } } : Sys).pool
        = srvQuery s.pool := srvQuery_congr _ _ rfl rfl
    have hp := processSrv_query env name
      { s with pool := { s.pool with roundrobin := goInc s.pool.roundrobin } }
    rw [hq] at hp
    simp only [NextServer, hz, if_false, hget, at_name_head, at_name_tail, if_true, hp]
    cases env.LookupSRV s.trace (srvQuery s.pool).1 (srvQuery s.pool).2 name with
    | error err => simp [srvOutcome, srvConnectTarget]
    | ok srvs =>
      cases srvs with
      | nil => simp [srvOutcome, srvConnectTarget]
      | cons r rs => simp [srvOutcome, srvConnectTarget]

/-- C14, at the pool `@logs.example.com`, `backup:9000`: `NextServer` in
RFC 2782 mode with the service `courier`, and `Next` in the default mode. -/
theorem srv_query_form_witness :
    (NextServer demoEnv demoRfcPool).map (fun x => (x.1, x.2.trace))
      = some (("a.example.com:5043", none),
          [Event.lookupSRV "courier" "tcp" "logs.example.com"]) ∧
    NextServer demoEnv demoRfcPool =
      some (srvConnectTarget demoEnv (srvOutcome "logs.example.com"
          (demoEnv.LookupSRV demoRfcPool.trace (srvQuery demoRfcPool.pool).1
            (srvQuery demoRfcPool.pool).2 "logs.example.com")),
        { pool := { demoRfcPool.pool with
            roundrobin := goInc demoRfcPool.pool.roundrobin, host := "logs.example.com",
            host_is_ip := false },
          trace := demoRfcPool.trace ++
            [Event.lookupSRV (srvQuery demoRfcPool.pool).1 (srvQuery demoRfcPool.pool).2
              "logs.example.com"] }) ∧
    srvQuery (freshPool ["@logs.example.com", "backup:9000"]).pool = ("", "") ∧
    ∃ r t ext, Next demoEnv (freshPool ["@logs.example.com", "backup:9000"]) = some (r, t) ∧
      t.trace = demoSrvSelected.trace ++
        Event.lookupSRV (srvQuery (freshPool ["@logs.example.com", "backup:9000"]).pool).1
          (srvQuery (freshPool ["@logs.example.com", "backup:9000"]).pool).2
          "logs.example.com" :: ext ∧
      ∀ e ∈ ext, ∃ h, e = Event.lookupIP h :=
  ⟨by decide,
    (srv_query_form demoEnv).2.2.2.2.2.2 demoRfcPool "logs.example.com" (by decide) (by decide),
    by decide,
    ((srv_query_form demoEnv).2.2.2.2.2.1 (freshPool ["@logs.example.com", "backup:9000"])
      demoSrvSelected "logs.example.com" rfl (by decide)).2⟩

/-! ## C16: cycles and reshuffles -/

theorem skeleton_append (a b : List Event) : skeleton (a ++ b) = skeleton a ++ skeleton b := by
  simp [skeleton]

theorem skeleton_lookups (ext : List Event)
    (h : ∀ e ∈ ext, (∃ host, e = Event.lookupIP host) ∨
      (∃ a b c, e = Event.lookupSRV a b c)) : skeleton ext = [] := by
  unfold skeleton
  rw [List.filter_eq_nil_iff]
  intro e he
  rcases h e he with ⟨host, rfl⟩ | ⟨a, b, c, rfl⟩ <;> simp

theorem at_of_head (sel : String) (h : sel.data.head? = some '@') :
    sel = "@" ++ String.mk (sel.data.drop 1) := by
  apply String.ext
  obtain ⟨data⟩ := sel
  cases data with
  | nil => simp at h
  | cons c cs =>
    simp only [List.head?_cons, Option.some.injEq] at h
    subst h
    simp [String.data_append]

/-- A resolution adds only lookups to the history. -/
theorem resolveSelected_trace (env : Env) (sel : String) (s : Sys) :
    ∃ ext, (resolveSelected env sel s).2.trace = s.trace ++ ext ∧
      ∀ e ∈ ext, (∃ host, e = Event.lookupIP host) ∨ (∃ a b c, e = Event.lookupSRV a b c) := by
  by_cases hat : sel.data.head? = some '@'
  · rw [at_of_head sel hat]
    obtain ⟨ext, h1, h2⟩ := resolveSelected_srv_trace env s (String.mk (sel.data.drop 1))
    refine ⟨_ :: ext, h1, ?_⟩
    intro e he
    rcases List.mem_cons.mp he with rfl | h
    · exact Or.inr ⟨_, _, _, rfl⟩
    · exact Or.inl (h2 e h)
  · unfold resolveSelected
    simp only [hat, if_false]
    cases hsplit : (env.SplitHostPort sel).2.2 with
    | some e => exact ⟨[], by simp, by simp⟩
    | none =>
      cases hport : ParseUint16 (env.SplitHostPort sel).2.1 with
      | none => exact ⟨[], by simp, by simp⟩
      | some port =>
        obtain ⟨ext, h1, h2⟩ := populateLookup_trace env (env.SplitHostPort sel).1 port
          { s with pool := { s.pool with host := (env.SplitHostPort sel).1 } }
        exact ⟨ext, h1, fun e he => Or.inl (h2 e he)⟩

theorem resolveSelected_skeleton (env : Env) (sel : String) (s : Sys) :
    skeleton (resolveSelected env sel s).2.trace = skeleton s.trace := by
  obtain ⟨ext, h1, h2⟩ := resolveSelected_trace env sel s
  rw [h1, skeleton_append, skeleton_lookups ext h2, List.append_nil]

theorem withShuffles_append (N k : Nat) (xs : List String) (x : String) :
    withShuffles N k (xs ++ [x]) =
      withShuffles N k xs ++
        ((if k + xs.length ≠ 0 ∧ (k + xs.length) % N = 0 then [Event.perm N] else []) ++
          [Event.select x]) := by
  induction xs generalizing k with
  | nil => simp [withShuffles]
  | cons y ys ih =>
    have hk : k + 1 + ys.length = k + (ys.length + 1) := by omega
    have h1 := ih (k + 1)
    rw [hk] at h1
    show _ ++ Event.select y :: withShuffles N (k + 1) (ys ++ [x]) = _
    rw [h1]
    simp [withShuffles]

theorem Next_shuffle_inv (env : Env) (hperm : env.PermOK) (servers : List String)
    (hne : servers ≠ []) (s : Sys) (hinv : CycleInv servers s) (hsh : ShuffleInv servers s)
    (r : NextResult) (t : Sys) (hN : Next env s = some (r, t)) : ShuffleInv servers t := by
  obtain ⟨hq, hnn, hS, hle, hpos', q, hlen, _, _⟩ := hinv
  have hpos : 0 < servers.length := List.length_pos.mpr hne
  have hslen : s.pool.servers.length = servers.length := hS.length_eq
  have hsne : s.pool.servers ≠ [] := by
    intro h0
    rw [h0] at hslen
    simp at hslen
    omega
  cases hadd : s.pool.addresses with
  | some l =>
    cases l with
    | nil => exact absurd hadd hq
    | cons a l =>
      rw [Next_queued env s a l hadd] at hN
      simp only [Option.some.injEq, Prod.mk.injEq] at hN
      obtain ⟨_, rfl⟩ := hN
      exact hsh
  | none =>
    obtain ⟨sel, s1, e, s2, _, hSel, _, hres, ⟨_, _, _, _, f5, _⟩, hcases⟩ :=
      Next_exhausted env hperm s hsne hadd hnn
    have hsk : skeleton s2.trace = skeleton s1.trace := by
      have := resolveSelected_skeleton env sel s1
      rw [hres] at this
      exact this
    have hgoal : skeleton s2.trace =
        Event.perm servers.length :: withShuffles servers.length 0 (selections s2.trace) := by
      rw [hsk, f5, hSel.trace_facts.1, withShuffles_append]
      obtain ⟨_, _, _, _, _, _, _, _, hlt, hge⟩ := hSel
      rcases lt_or_le s.pool.roundrobin (s.pool.servers.length : Int) with hr | hr
      · rw [(hlt hr).2, skeleton_append, hsh]
        have hcond : ¬ (0 + (selections s.trace).length ≠ 0 ∧
            (0 + (selections s.trace).length) % servers.length = 0) := by
          intro ⟨h1, h2⟩
          rw [Nat.zero_add] at h1 h2
          rw [hlen, Nat.add_comm, Nat.add_mul_mod_self_right,
            Nat.mod_eq_of_lt (by omega)] at h2
          have := hpos' (Nat.pos_of_ne_zero h1)
          omega
        rw [if_neg hcond]
        simp [skeleton]
      · rw [hge hr, skeleton_append, hsh]
        have hcond : 0 + (selections s.trace).length ≠ 0 ∧
            (0 + (selections s.trace).length) % servers.length = 0 := by
          have hrN : s.pool.roundrobin.toNat = servers.length := by omega
          rw [Nat.zero_add, hlen, hrN]
          constructor
          · omega
          · rw [← Nat.succ_mul]
            exact Nat.mul_mod_left _ _
        rw [if_pos hcond, hslen]
        simp [skeleton]
    rcases hcases with ⟨err, _, hN2⟩ | ⟨_, a, l, _, hN2⟩
    · rw [hN2] at hN
      simp only [Option.some.injEq, Prod.mk.injEq] at hN
      obtain ⟨_, rfl⟩ := hN
      exact hgoal
    · rw [hN2] at hN
      simp only [Option.some.injEq, Prod.mk.injEq] at hN
      obtain ⟨_, rfl⟩ := hN
      exact hgoal

/-- A run of `Next` from a state satisfying both invariants keeps them. -/
theorem run_cycle_shuffles (env : Env) (hperm : env.PermOK) (servers : List String)
    (hne : servers ≠ []) (n : Nat) (s : Sys) (hinv : CycleInv servers s)
    (hsh : ShuffleInv servers s) :
    ∃ log rs sn, resolutionLog env n s = some log ∧ runNext env n s = some (rs, sn) ∧
      CycleInv servers sn ∧ ShuffleInv servers sn ∧
      selections sn.trace = selections s.trace ++ log.map (fun e => e.1) := by
  induction n generalizing s with
  | zero => exact ⟨[], [], s, rfl, rfl, hinv, hsh, by simp⟩
  | succ n ih =>
    obtain ⟨r, s1, hN, hinv1, hsel⟩ := Next_cycle env hperm servers hne s hinv
    have hsh1 := Next_shuffle_inv env hperm servers hne s hinv hsh r s1 hN
    obtain ⟨log, rs, sn, hlog, hrun, hinvn, hshn, hseln⟩ := ih s1 hinv1 hsh1
    refine ⟨((selections s1.trace).drop (selections s.trace).length).map
        (fun server => (server, r.err.isNone)) ++ log, r :: rs, sn, ?_, ?_, hinvn, hshn, ?_⟩
    · simp only [resolutionLog, hN, hlog]
    · simp only [runNext, hN, hrun]
    · rcases hsel with ⟨_, sel, h1⟩ | ⟨_, h1, _, _⟩
      · rw [hseln, h1]
        simp
      · rw [hseln, h1]
        simp

/-- C16: for a pool built from a non-empty list of `N` servers and driven by
`Next` alone, with `log` the server resolutions made so far, failed and
successful alike: no call panics; for every `c` the resolutions numbered
`cN+1 .. (c+1)N` are, in order, a permutation of the list given to the
constructor; the shuffles and selections of the history are the shuffle of
construction followed by the selections with one shuffle right before each
resolution numbered `cN+1`, `c >= 1`, and none elsewhere; and after `k >= 1`
resolutions the cursor is `((k-1) mod N) + 1` (0 before the first). -/
theorem cycle_aligned_reshuffle (env : Env) (hperm : env.PermOK) (servers : List String)
    (hne : servers ≠ []) (n : Nat) :
    ∃ s0 rs sn log, NewAddressPool env servers = some s0 ∧
      runNext env n s0 = some (rs, sn) ∧ resolutionLog env n s0 = some log ∧
      (∀ c, (c + 1) * servers.length ≤ log.length →
        (((log.map (fun e => e.1)).drop (c * servers.length)).take servers.length).Perm
          servers) ∧
      skeleton sn.trace =
        Event.perm servers.length ::
          withShuffles servers.length 0 (log.map (fun e => e.1)) ∧
      sn.pool.roundrobin =
        ((if log.length = 0 then 0 else (log.length - 1) % servers.length + 1 : Nat) : Int) := by
  have hpos : 0 < servers.length := List.length_pos.mpr hne
  obtain ⟨s0, h0, hinv, hsel0, _, _⟩ := NewAddressPool_cycle env hperm servers
  have hsh0 : ShuffleInv servers s0 := by
    obtain ⟨l1, _, h1⟩ := NewAddressPool_spec env hperm servers
    rw [h1] at h0
    simp only [Option.some.injEq] at h0
    subst h0
    simp [ShuffleInv, skeleton, selections, withShuffles]
  obtain ⟨log, rs, sn, hlog, hrun, hinvn, hshn, hseln⟩ :=
    run_cycle_shuffles env hperm servers hne n s0 hinv hsh0
  rw [hsel0, List.nil_append] at hseln
  refine ⟨s0, rs, sn, log, h0, hrun, hlog, fun c hc => ?_, ?_, ?_⟩
  · rw [← hseln]
    apply cycle_chunks servers _ _ _ hinvn.2.2 hpos c
    rw [hseln, List.length_map]
    exact hc
  · rw [← hseln]
    exact hshn
  · obtain ⟨_, hnn, _, hle, hpos', q, hlen, _, _⟩ := hinvn
    rw [hseln, List.length_map] at hlen hpos'
    rw [← Int.toNat_of_nonneg hnn]
    congr 1
    by_cases hz : log.length = 0
    · rw [if_pos hz]
      omega
    · rw [if_neg hz]
      have hr := hpos' (Nat.pos_of_ne_zero hz)
      have h1 : log.length - 1 = (sn.pool.roundrobin.toNat - 1) + q * servers.length := by
        omega
      rw [h1, Nat.add_mul_mod_self_right, Nat.mod_eq_of_lt (by omega)]
      omega

/-- C16, at the two-server pool whose first server fails, over five calls. -/
theorem cycle_aligned_reshuffle_witness :
    ∃ s0 rs sn log, NewAddressPool demoEnv ["nohost:9000", "10.0.0.1:9000"] = some s0 ∧
      runNext demoEnv 5 s0 = some (rs, sn) ∧ resolutionLog demoEnv 5 s0 = some log ∧
      (∀ c, (c + 1) * ["nohost:9000", "10.0.0.1:9000"].length ≤ log.length →
        (((log.map (fun e => e.1)).drop (c * ["nohost:9000", "10.0.0.1:9000"].length)).take
          ["nohost:9000", "10.0.0.1:9000"].length).Perm ["nohost:9000", "10.0.0.1:9000"]) ∧
      skeleton sn.trace =
        Event.perm ["nohost:9000", "10.0.0.1:9000"].length ::
          withShuffles ["nohost:9000", "10.0.0.1:9000"].length 0 (log.map (fun e => e.1)) ∧
      sn.pool.roundrobin =
        ((if log.length = 0 then 0
          else (log.length - 1) % ["nohost:9000", "10.0.0.1:9000"].length + 1 : Nat) : Int) :=
  cycle_aligned_reshuffle demoEnv demoEnv_permOK ["nohost:9000", "10.0.0.1:9000"]
    (by decide) 5

/-! ## C15: the two-server example -/

theorem runStates_append (env : Env) (m k : Nat) (s : Sys) (L1 L2 : List (NextResult × Sys))
    (h1 : runStates env m s = some L1) (h2 : runStates env k (endState s L1) = some L2) :
    runStates env (m + k) s = some (L1 ++ L2) := by
  induction m generalizing s L1 with
  | zero =>
    simp only [runStates, Option.some.injEq] at h1
    subst h1
    simpa [endState] using h2
  | succ m ih =>
    unfold runStates at h1
    cases hN : Next env s with
    | none => simp [hN] at h1
    | some p =>
      obtain ⟨r, s1⟩ := p
      cases hrest : runStates env m s1 with
      | none => simp [hN, hrest] at h1
      | some rest =>
        simp only [hN, hrest, Option.some.injEq] at h1
        subst h1
        have h3 := ih s1 rest hrest h2
        have hmk : m + 1 + k = (m + k) + 1 := by omega
        rw [hmk]
        simp only [runStates, hN, h3, List.cons_append]

theorem perm_pair (a b : String) (l : List String) (h : l.Perm [a, b]) :
    l = [a, b] ∨ l = [b, a] := by
  have hlen := h.length_eq
  match l, hlen with
  | [x, y], _ =>
    have hx := h.mem_iff (a := x)
    have hy := h.mem_iff (a := y)
    have hc := h.count_eq a
    have hd := h.count_eq b
    simp at hx hy
    simp [List.count_cons] at hc hd
    rcases hx with rfl | rfl <;> rcases hy with rfl | rfl <;> simp_all

/-- The two calls of `Next` that resolve an `@name` specifier with two SRV
records of one address each, and drain its queue. -/
theorem runStates_two_targets (env : Env) (s s1 : Sys) (name : String)
    (ans : String → List NetIP) (r1 r2 : SRV) (i1 i2 : NetIP)
    (hnil : s.pool.addresses = none)
    (hsel : selectServer env { s with pool := { s.pool with addresses := some [] } }
      = some ("@" ++ name, s1))
    (hsrv : env.LookupSRV s1.trace (if s1.pool.rfc2782 then s1.pool.rfc2782Service else "")
      (if s1.pool.rfc2782 then "tcp" else "") name = .ok [r1, r2])
    (hres : ∀ r ∈ [r1, r2], env.ParseIP r.Target = none →
      ∀ tr, env.LookupIP tr r.Target = .ok (ans r.Target) ∧ ans r.Target ≠ [])
    (h1 : (match env.ParseIP r1.Target with
      | some ip => [ip]
      | none => ans r1.Target) = [i1])
    (h2 : (match env.ParseIP r2.Target with
      | some ip => [ip]
      | none => ans r2.Target) = [i2]) :
    runStates env 2 s =
      some [(⟨some ⟨i1, r1.Port⟩, env.TCPAddrString ⟨i1, r1.Port⟩ ++ " (" ++ name ++ ")", none⟩,
              resolvedTo s1 name false (some [⟨i2, r2.Port⟩])
                (Event.lookupSRV (if s1.pool.rfc2782 then s1.pool.rfc2782Service else "")
                  (if s1.pool.rfc2782 then "tcp" else "") name :: targetLookups env [r1, r2])),
            (⟨some ⟨i2, r2.Port⟩, env.TCPAddrString ⟨i2, r2.Port⟩ ++ " (" ++ name ++ ")", none⟩,
              resolvedTo s1 name false none
                (Event.lookupSRV (if s1.pool.rfc2782 then s1.pool.rfc2782Service else "")
                  (if s1.pool.rfc2782 then "tcp" else "") name :: targetLookups env [r1, r2]))] := by
  have hq1 := (selectServer_trace env _ s1 _ hsel).2.2
  have hr := resolveSelected_srv env s1 name ans [r1, r2] hq1 hsrv (by simp) hres
  have hexp : expandSrv env ans [r1, r2] = [⟨i1, r1.Port⟩, ⟨i2, r2.Port⟩] := by
    simp [expandSrv, h1, h2]
  rw [hexp] at hr
  have hrun := runStates_resolve_drain env s s1 _ ("@" ++ name) ⟨i1, r1.Port⟩ [⟨i2, r2.Port⟩]
    hnil hsel hr rfl
  rw [show ([⟨i2, r2.Port⟩] : List TCPAddr).length + 1 = 2 from rfl] at hrun
  rw [hrun]
  simp [drained, describe, resolvedTo]

/-- The one call of `Next` that resolves a `host:port` specifier whose host has
one address. -/
theorem runStates_one_address (env : Env) (s s1 : Sys) (sel host port_str : String) (p : Nat)
    (ip : NetIP) (hnil : s.pool.addresses = none)
    (hsel : selectServer env { s with pool := { s.pool with addresses := some [] } }
      = some (sel, s1))
    (hat : sel.data.head? ≠ some '@')
    (hsplit : env.SplitHostPort sel = (host, port_str, none))
    (hport : ParseUint16 port_str = some p)
    (hip : env.ParseIP host = none)
    (hlook : env.LookupIP s1.trace host = .ok [ip]) :
    runStates env 1 s =
      some [(⟨some ⟨ip, p⟩, env.TCPAddrString ⟨ip, p⟩ ++ " (" ++ host ++ ")", none⟩,
              resolvedTo s1 host false none [Event.lookupIP host])] := by
  have hq1 := (selectServer_trace env _ s1 _ hsel).2.2
  have hr := resolveSelected_hostport_dns env s1 sel host port_str p [ip] hat hsplit hport hip
    hlook (by simp)
  rw [hq1] at hr
  simp only [Option.getD_some, List.nil_append, List.map] at hr
  have hrun := runStates_resolve_drain env s s1 _ sel ⟨ip, p⟩ [] hnil hsel hr rfl
  rw [show ([] : List TCPAddr).length + 1 = 1 from rfl] at hrun
  rw [hrun]
  simp [drained, describe, resolvedTo]

theorem selectServer_in_range (env : Env) (s : Sys) (sel : String)
    (hlt : s.pool.roundrobin < s.pool.servers.length)
    (hget : goIndex s.pool.servers s.pool.roundrobin = some sel) :
    selectServer env s =
      some (sel,
        { pool := { s.pool with roundrobin := s.pool.roundrobin + 1 },
          trace := s.trace ++ [Event.select sel] }) := by
  have h : ¬ s.pool.roundrobin ≥ s.pool.servers.length := by omega
  simp [selectServer, h, hget]

/-- C15 (amended): for the pool built from `@logs.example.com`, `backup:9000`
in the default SRV mode, with a resolver that answers two SRV records for
`logs.example.com`, each target having one address (`i1`, `i2`) and `backup`
having the one address `ib`: the first three calls of `Next` succeed, whatever
order the initial shuffle chose.  When the SRV entry came first they return
`(i1, port1)`, `(i2, port2)`, `(ib, 9000)` and `IsLastServer` is false, false,
true after them; when `backup` came first they return `(ib, 9000)`,
`(i1, port1)`, `(i2, port2)` and `IsLastServer` is false, true, true. -/
theorem two_server_srv_example (env : Env) (hperm : env.PermOK)
    (ans : String → List NetIP) (r1 r2 : SRV) (i1 i2 ib : NetIP)
    (hsplit : env.SplitHostPort "backup:9000" = ("backup", "9000", none))
    (hsrv : ∀ tr, env.LookupSRV tr "" "" "logs.example.com" = .ok [r1, r2])
    (hres : ∀ r ∈ [r1, r2], env.ParseIP r.Target = none →
      ∀ tr, env.LookupIP tr r.Target = .ok (ans r.Target) ∧ ans r.Target ≠ [])
    (h1 : (match env.ParseIP r1.Target with
      | some ip => [ip]
      | none => ans r1.Target) = [i1])
    (h2 : (match env.ParseIP r2.Target with
      | some ip => [ip]
      | none => ans r2.Target) = [i2])
    (hb : env.ParseIP "backup" = none)
    (hlb : ∀ tr, env.LookupIP tr "backup" = .ok [ib]) :
    ∃ s0 L, NewAddressPool env ["@logs.example.com", "backup:9000"] = some s0 ∧
      runStates env 3 s0 = some L ∧
      ((s0.pool.servers = ["@logs.example.com", "backup:9000"] ∧
        L.map (fun x => (x.1.addr, x.1.err)) =
          [(some ⟨i1, r1.Port⟩, none), (some ⟨i2, r2.Port⟩, none), (some ⟨ib, 9000⟩, none)] ∧
        L.map (fun x => IsLastServer x.2) = [some false, some false, some true]) ∨
       (s0.pool.servers = ["backup:9000", "@logs.example.com"] ∧
        L.map (fun x => (x.1.addr, x.1.err)) =
          [(some ⟨ib, 9000⟩, none), (some ⟨i1, r1.Port⟩, none), (some ⟨i2, r2.Port⟩, none)] ∧
        L.map (fun x => IsLastServer x.2) = [some false, some true, some true])) := by
  obtain ⟨l1, hl1, h0⟩ := NewAddressPool_spec env hperm ["@logs.example.com", "backup:9000"]
  rcases perm_pair _ _ l1 hl1 with rfl | rfl
  · have hselA := selectServer_in_range env
      { pool := { servers := ["@logs.example.com", "backup:9000"], rfc2782 := false,
                  rfc2782Service := "", roundrobin := 0, host_is_ip := false, host := "",
                  addresses := some [] },
        trace := [Event.perm 2] } ("@" ++ "logs.example.com") (by simp) rfl
    have hrunA := runStates_two_targets env
      { pool := { servers := ["@logs.example.com", "backup:9000"], rfc2782 := false,
                  rfc2782Service := "", roundrobin := 0, host_is_ip := false, host := "",
                  addresses := none },
        trace := [Event.perm 2] } _ "logs.example.com" ans r1 r2 i1 i2 rfl hselA (hsrv _)
      hres h1 h2
    have hselB := selectServer_in_range env
      { pool := { servers := ["@logs.example.com", "backup:9000"], rfc2782 := false,
                  rfc2782Service := "", roundrobin := 1, host_is_ip := false,
                  host := "logs.example.com", addresses := some [] },
        trace := [Event.perm 2] ++ [Event.select ("@" ++ "logs.example.com")] ++
          (Event.lookupSRV "" "" "logs.example.com" :: targetLookups env [r1, r2]) }
      "backup:9000" (by simp) rfl
    have hrunB := runStates_one_address env
      { pool := { servers := ["@logs.example.com", "backup:9000"], rfc2782 := false,
                  rfc2782Service := "", roundrobin := 1, host_is_ip := false,
                  host := "logs.example.com", addresses := none },
        trace := [Event.perm 2] ++ [Event.select ("@" ++ "logs.example.com")] ++
          (Event.lookupSRV "" "" "logs.example.com" :: targetLookups env [r1, r2]) }
      _ "backup:9000" "backup" "9000" 9000 ib rfl hselB (by decide) hsplit (by decide) hb
      (hlb _)
    have hrun := runStates_append env 2 1 _ _ _ hrunA hrunB
    exact ⟨_, _, h0, hrun, Or.inl ⟨rfl, by simp, by simp [IsLastServer, resolvedTo]; decide⟩⟩
  · have hselB := selectServer_in_range env
      { pool := { servers := ["backup:9000", "@logs.example.com"], rfc2782 := false,
                  rfc2782Service := "", roundrobin := 0, host_is_ip := false, host := "",
                  addresses := some [] },
        trace := [Event.perm 2] } "backup:9000" (by simp) rfl
    have hrunB := runStates_one_address env
      { pool := { servers := ["backup:9000", "@logs.example.com"], rfc2782 := false,
                  rfc2782Service := "", roundrobin := 0, host_is_ip := false, host := "",
                  addresses := none },
        trace := [Event.perm 2] }
      _ "backup:9000" "backup" "9000" 9000 ib rfl hselB (by decide) hsplit (by decide) hb
      (hlb _)
    have hselA := selectServer_in_range env
      { pool := { servers := ["backup:9000", "@logs.example.com"], rfc2782 := false,
                  rfc2782Service := "", roundrobin := 1, host_is_ip := false,
                  host := "backup", addresses := some [] },
        trace := [Event.perm 2] ++ [Event.select "backup:9000"] ++ [Event.lookupIP "backup"] }
      ("@" ++ "logs.example.com") (by simp) rfl
    have hrunA := runStates_two_targets env
      { pool := { servers := ["backup:9000", "@logs.example.com"], rfc2782 := false,
                  rfc2782Service := "", roundrobin := 1, host_is_ip := false,
                  host := "backup", addresses := none },
        trace := [Event.perm 2] ++ [Event.select "backup:9000"] ++ [Event.lookupIP "backup"] }
      _ "logs.example.com" ans r1 r2 i1 i2 rfl hselA (hsrv _) hres h1 h2
    have hrun := runStates_append env 1 2 _ _ _ hrunB hrunA
    exact ⟨_, _, h0, hrun, Or.inr ⟨rfl, by simp, by simp [IsLastServer, resolvedTo]; decide⟩⟩

theorem cycleEnv_permOK : cycleEnv.PermOK := by
  intro tr n
  exact List.reverse_perm _

/-- C15 (as stated, refuted): when the initial shuffle puts `backup:9000`
first, the second call of `Next` selects the last server of the cycle, so
`IsLastServer` is already true after the second call, while one address of
the SRV entry is still to be returned. -/
theorem two_server_srv_counterexample :
    cycleEnv.PermOK ∧
    (NewAddressPool cycleEnv ["@logs.example.com", "backup:9000"]).bind (fun s0 =>
      (runStates cycleEnv 3 s0).map (fun L =>
        (s0.pool.servers, L.map (fun x => (x.1.addr, x.1.err)),
          L.map (fun x => IsLastServer x.2))))
      = some (["backup:9000", "@logs.example.com"],
          [(some ⟨⟨[192, 0, 2, 9]⟩, 9000⟩, none), (some ⟨⟨[192, 0, 2, 1]⟩, 5043⟩, none),
            (some ⟨⟨[192, 0, 2, 2]⟩, 5044⟩, none)],
          [some false, some true, some true]) := by
  exact ⟨cycleEnv_permOK, rfl⟩

/-- C15 (amended), in the resolver world of the counterexample. -/
theorem two_server_srv_example_witness :
    ∃ s0 L, NewAddressPool cycleEnv ["@logs.example.com", "backup:9000"] = some s0 ∧
      runStates cycleEnv 3 s0 = some L ∧
      ((s0.pool.servers = ["@logs.example.com", "backup:9000"] ∧
        L.map (fun x => (x.1.addr, x.1.err)) =
          [(some ⟨⟨[192, 0, 2, 1]⟩, 5043⟩, none), (some ⟨⟨[192, 0, 2, 2]⟩, 5044⟩, none),
            (some ⟨⟨[192, 0, 2, 9]⟩, 9000⟩, none)] ∧
        L.map (fun x => IsLastServer x.2) = [some false, some false, some true]) ∨
       (s0.pool.servers = ["backup:9000", "@logs.example.com"] ∧
        L.map (fun x => (x.1.addr, x.1.err)) =
          [(some ⟨⟨[192, 0, 2, 9]⟩, 9000⟩, none), (some ⟨⟨[192, 0, 2, 1]⟩, 5043⟩, none),
            (some ⟨⟨[192, 0, 2, 2]⟩, 5044⟩, none)] ∧
        L.map (fun x => IsLastServer x.2) = [some false, some true, some true])) :=
  two_server_srv_example cycleEnv cycleEnv_permOK cycleAns
    ⟨"t1.example.com", 5043, 10, 0⟩ ⟨"t2.example.com", 5044, 20, 0⟩
    ⟨[192, 0, 2, 1]⟩ ⟨[192, 0, 2, 2]⟩ ⟨[192, 0, 2, 9]⟩
    (by decide) (fun _ => rfl)
    (by
      intro r hr _ tr
      simp only [List.mem_cons, List.mem_singleton, List.not_mem_nil, or_false] at hr
      rcases hr with rfl | rfl
      · exact ⟨rfl, by decide⟩
      · exact ⟨rfl, by decide⟩)
    (by decide) (by decide) rfl (fun _ => rfl)

/-! ## C12: the description -/

theorem populateLookup_flag (env : Env) (host : String) (port : Nat) (s : Sys)
    (h : (populateLookup env host port s).1.2 = none) :
    (populateLookup env host port s).1.1 = (env.ParseIP host).isSome := by
  cases hp : env.ParseIP host with
  | some ip => rw [populateLookup_literal env host port s ip hp]; rfl
  | none =>
    cases hl : env.LookupIP s.trace host with
    | error err => simp [populateLookup, hp, hl] at h
    | ok ips =>
      by_cases hne : ips = []
      · simp [populateLookup, hp, hl, hne] at h
      · rw [populateLookup_resolved env host port s ips hp hl hne]; rfl

/-- A resolution that succeeds leaves the host fields its specifier calls for. -/
theorem resolveSelected_label (env : Env) (sel : String) (s : Sys)
    (h : (resolveSelected env sel s).1 = none) (a : TCPAddr) :
    describe env (resolveSelected env sel s).2.pool.host_is_ip
      (resolveSelected env sel s).2.pool.host a = expectedDesc env sel a := by
  by_cases hat : sel.data.head? = some '@'
  · have hsel := at_of_head sel hat
    have hq := resolveSelected_srv_query env s (String.mk (sel.data.drop 1))
    rw [← hsel] at hq
    rw [hq] at h ⊢
    generalize srvOutcome (String.mk (sel.data.drop 1))
        (env.LookupSRV s.trace (srvQuery s.pool).1 (srvQuery s.pool).2
          (String.mk (sel.data.drop 1))) = out at h ⊢
    cases out with
    | error err => exact absurd h (by simp)
    | ok srvs =>
      obtain ⟨_, h1, h2, _⟩ := populateTargets_frame env srvs
        (resolvedTo s (String.mk (sel.data.drop 1)) false s.pool.addresses
          [Event.lookupSRV (srvQuery s.pool).1 (srvQuery s.pool).2
            (String.mk (sel.data.drop 1))])
      simp only
      rw [h1, h2]
      simp [describe, expectedDesc, hat, resolvedTo]
  · unfold resolveSelected at h ⊢
    simp only [hat, if_false] at h ⊢
    cases hsplit : (env.SplitHostPort sel).2.2 with
    | some e => simp [hsplit] at h
    | none =>
      cases hport : ParseUint16 (env.SplitHostPort sel).2.1 with
      | none => simp [hsplit, hport] at h
      | some port =>
        simp only [hsplit, hport] at h ⊢
        have hflag := populateLookup_flag env (env.SplitHostPort sel).1 port
          { s with pool := { s.pool with host := (env.SplitHostPort sel).1 } } h
        obtain ⟨_, hhost, _⟩ := populateLookup_frame env (env.SplitHostPort sel).1 port
          { s with pool := { s.pool with host := (env.SplitHostPort sel).1 } }
        simp only [hflag, hhost]
        cases hp : env.ParseIP (env.SplitHostPort sel).1 with
        | some ip => simp [describe, expectedDesc, hat, hp]
        | none => simp [describe, expectedDesc, hat, hp]

/-- A successful call of `Next` on a pool whose host fields are those of the
specifier that built its queue returns the description that specifier calls
for, and leaves such a pool. -/
theorem Next_label (env : Env) (s t : Sys) (r : NextResult) (hinv : LabelInv env s)
    (hN : Next env s = some (r, t)) :
    LabelInv env t ∧
    (r.err = none → ∃ a sel, r.addr = some a ∧ (selections t.trace).getLast? = some sel ∧
      r.desc = expectedDesc env sel a) := by
  cases hadd : s.pool.addresses with
  | some l =>
    cases l with
    | nil => simp [Next, popAddress, hadd] at hN
    | cons a q =>
      rw [Next_queued env s a q hadd] at hN
      simp only [Option.some.injEq, Prod.mk.injEq] at hN
      obtain ⟨rfl, rfl⟩ := hN
      rcases hinv with h0 | ⟨sel, hlast, hdesc⟩
      · rw [hadd] at h0; simp at h0
      · exact ⟨Or.inr ⟨sel, hlast, hdesc⟩, fun _ => ⟨a, sel, rfl, hlast, hdesc a⟩⟩
  | none =>
    cases hsel : selectServer env { s with pool := { s.pool with addresses := some [] } } with
    | none => simp [Next, hadd, populateAddresses, hsel] at hN
    | some p =>
      obtain ⟨sel, s1⟩ := p
      have hs1 := (selectServer_trace env _ s1 sel hsel).1
      obtain ⟨⟨_, _, _, _, f5, _⟩, _⟩ := resolveSelected_frame env sel s1
      have hlast : (selections (resolveSelected env sel s1).2.trace).getLast? = some sel := by
        rw [f5, hs1]
        simp
      rcases Next_after_select_cases env s s1 sel hadd hsel with
        ⟨err, _, hN2⟩ | ⟨hok, a, q, _, hN2⟩
      · rw [hN2] at hN
        simp only [Option.some.injEq, Prod.mk.injEq] at hN
        obtain ⟨rfl, rfl⟩ := hN
        exact ⟨Or.inl rfl, fun h => by simp at h⟩
      · rw [hN2] at hN
        simp only [Option.some.injEq, Prod.mk.injEq] at hN
        obtain ⟨rfl, rfl⟩ := hN
        exact ⟨Or.inr ⟨sel, hlast, fun b => resolveSelected_label env sel s1 hok b⟩,
          fun _ => ⟨a, sel, rfl, hlast, resolveSelected_label env sel s1 hok a⟩⟩

theorem NextServer_plain (env : Env) (s : Sys) (sel : String)
    (hz : s.pool.servers.length ≠ 0)
    (hget : goIndex s.pool.servers (Int.tmod s.pool.roundrobin s.pool.servers.length)
      = some sel)
    (hat : sel.data.head? ≠ some '@') :
    NextServer env s =
      some ((sel, none),
        { s with pool := { s.pool with roundrobin := goInc s.pool.roundrobin } }) := by
  simp [NextServer, hz, hget, hat]

theorem NextServer_label (env : Env) (s t : Sys) (r : String × Option PoolError)
    (hinv : LabelInv env s) (hquiet : quietNextServer s)
    (hN : NextServer env s = some (r, t)) : LabelInv env t := by
  rcases hquiet with h0 | hplain
  · exact Or.inl (by rw [(NextServer_returns env s t r hN).2]; exact h0)
  · obtain ⟨hne, selected, hget⟩ := NextServer_index env s t r hN
    have hz : s.pool.servers.length ≠ 0 := fun h0 => hne (List.length_eq_zero.mp h0)
    rw [NextServer_plain env s _ hz hget (hplain _ hget)] at hN
    simp only [Option.some.injEq, Prod.mk.injEq] at hN
    obtain ⟨_, rfl⟩ := hN
    exact hinv

theorem reachable_label (env : Env) (servers : List String) (s : Sys)
    (h : ReachableVia env servers quietNextServer s) : LabelInv env s := by
  induction h with
  | init h0 =>
    unfold NewAddressPool shuffleServers at h0
    split at h0
    · simp at h0
    · simp only [Option.some.injEq] at h0
      subst h0
      exact Or.inl rfl
  | next _ hN ih => exact (Next_label env _ _ _ ih hN).1
  | nextServer _ hquiet hN ih => exact NextServer_label env _ _ _ ih hquiet hN
  | setRfc2782 enabled service _ ih => exact ih

/-- C12 (as stated, refuted): a `NextServer` call on an `@name` specifier
overwrites the host of a queue that is still in use.  In the pool
`a.example.com:5043`, `@logs.example.com` the first `Next` resolves
`a.example.com` to two addresses and returns the first, `NextServer` then
looks up `logs.example.com`, and the second `Next` returns the second address
of `a.example.com` described as `192.0.2.2:5043 (logs.example.com)`. -/
theorem description_after_NextServer_counterexample :
    demoEnv.PermOK ∧
    (NewAddressPool demoEnv ["a.example.com:5043", "@logs.example.com"]).bind (fun s0 =>
      (Next demoEnv s0).bind (fun x1 =>
        (NextServer demoEnv x1.2).bind (fun x2 =>
          (Next demoEnv x2.2).map (fun x3 => (x1.1, x2.1, x3.1, selections x3.2.trace)))))
      = some (⟨some ⟨⟨[192, 0, 2, 1]⟩, 5043⟩, "192.0.2.1:5043 (a.example.com)", none⟩,
          ("a.example.com:5043", none),
          ⟨some ⟨⟨[192, 0, 2, 2]⟩, 5043⟩, "192.0.2.2:5043 (logs.example.com)", none⟩,
          ["a.example.com:5043"]) ∧
    expectedDesc demoEnv "a.example.com:5043" ⟨⟨[192, 0, 2, 2]⟩, 5043⟩
      = "192.0.2.2:5043 (a.example.com)" ∧
    "192.0.2.2:5043 (logs.example.com)" ≠ "192.0.2.2:5043 (a.example.com)" := by
  exact ⟨demoEnv_permOK, rfl, rfl, by decide⟩

/-- C12 (amended): along every sequence of `Next`, `SetRfc2782` and
`NextServer` calls in which `NextServer` is not called on an `@name`
specifier while addresses are still queued, each successful `Next` returns
the description called for by the specifier whose resolution produced the
returned address (the last one selected): for `@name` the address followed by
`(name)`; for `host:port` the bare address when the host is a literal IP and
the address followed by `(host)` otherwise. -/
theorem description_labelling (env : Env) (servers : List String) (s : Sys)
    (hs : ReachableVia env servers quietNextServer s) (r : NextResult) (t : Sys)
    (hN : Next env s = some (r, t)) (hok : r.err = none) :
    ∃ a sel, r.addr = some a ∧ (selections t.trace).getLast? = some sel ∧
      r.desc = expectedDesc env sel a :=
  (Next_label env s t r (reachable_label env servers s hs) hN).2 hok

/-- C12 (amended), at the second call of `Next` on the pool `a.example.com:5043`. -/
theorem description_labelling_witness :
    ReachableVia demoEnv ["a.example.com:5043"] quietNextServer demoQueued ∧
    Next demoEnv demoQueued =
      some (⟨some ⟨⟨[192, 0, 2, 2]⟩, 5043⟩, "192.0.2.2:5043 (a.example.com)", none⟩,
        demoDrained) ∧
    ∃ a sel,
      (⟨some ⟨⟨[192, 0, 2, 2]⟩, 5043⟩, "192.0.2.2:5043 (a.example.com)", none⟩ :
        NextResult).addr = some a ∧
      (selections demoDrained.trace).getLast? = some sel ∧
      (⟨some ⟨⟨[192, 0, 2, 2]⟩, 5043⟩, "192.0.2.2:5043 (a.example.com)", none⟩ :
        NextResult).desc = expectedDesc demoEnv sel a :=
  ⟨ReachableVia.next
      (r := ⟨some ⟨⟨[192, 0, 2, 1]⟩, 5043⟩, "192.0.2.1:5043 (a.example.com)", none⟩)
      (ReachableVia.init (s := demoBuilt) (by decide)) (by decide),
    by decide,
    description_labelling demoEnv ["a.example.com:5043"] demoQueued
      (ReachableVia.next
        (r := ⟨some ⟨⟨[192, 0, 2, 1]⟩, 5043⟩, "192.0.2.1:5043 (a.example.com)", none⟩)
        (ReachableVia.init (s := demoBuilt) (by decide)) (by decide))
      ⟨some ⟨⟨[192, 0, 2, 2]⟩, 5043⟩, "192.0.2.2:5043 (a.example.com)", none⟩ demoDrained
      (by decide) rfl⟩

/-! ## The cursor of `NextServer` at the end of the `int` range -/

/-- Calls of `NextServer` on a list of plain specifiers count the cursor up
as far as the largest `int`. -/
theorem reachable_cursor (env : Env) (servers : List String) (s : Sys)
    (hs : Reachable env servers s) (hne : s.pool.servers ≠ [])
    (hplain : ∀ x ∈ s.pool.servers, x.data.head? ≠ some '@')
    (hrr : 0 ≤ s.pool.roundrobin) (n : Nat) (hn : s.pool.roundrobin + n ≤ maxInt) :
    Reachable env servers
      { s with pool := { s.pool with roundrobin := s.pool.roundrobin + n } } := by
  induction n with
  | zero =>
    obtain ⟨⟨a, b, c, d, e, f, g⟩, tr⟩ := s
    simpa using hs
  | succ n ih =>
    have hn1 : s.pool.roundrobin + (n : Int) ≤ maxInt := by
      have : ((n + 1 : Nat) : Int) = (n : Int) + 1 := by push_cast; rfl
      omega
    have hlt : s.pool.roundrobin + (n : Int) < maxInt := by
      have : ((n + 1 : Nat) : Int) = (n : Int) + 1 := by push_cast; rfl
      omega
    have ih1 := ih hn1
    have hnn : 0 ≤ s.pool.roundrobin + (n : Int) := by omega
    obtain ⟨x, hget, hx⟩ := goIndex_tmod s.pool.servers (s.pool.roundrobin + (n : Int)) hne hnn
    have hmem : x ∈ s.pool.servers := List.mem_iff_getElem?.mpr ⟨_, hx⟩
    have hz : s.pool.servers.length ≠ 0 := fun h0 => hne (List.length_eq_zero.mp h0)
    have hNS := NextServer_plain env
      { s with pool := { s.pool with roundrobin := s.pool.roundrobin + (n : Int) } } x hz hget
      (hplain x hmem)
    have h2 : Reachable env servers
        { s with pool := { s.pool with
            roundrobin := goInc (s.pool.roundrobin + (n : Int)) } } :=
      Reachable.nextServer ih1 hNS
    have e : goInc (s.pool.roundrobin + (n : Int)) = s.pool.roundrobin + ((n + 1 : Nat) : Int) := by
      rw [goInc_eq _ hnn hlt]
      push_cast
      ring
    rw [e] at h2
    exact h2

theorem demoCursorAt_reachable (c : Int) (h0 : 0 ≤ c) (h1 : c ≤ maxInt) :
    Reachable demoEnv ["10.0.0.1:9000", "10.0.0.2:9000"] (demoCursorAt c) := by
  have h := reachable_cursor demoEnv ["10.0.0.1:9000", "10.0.0.2:9000"] demoPair
    (Reachable.init (by decide)) (by decide) (by decide) (by decide) c.toNat
    (by
      rw [Int.toNat_of_nonneg h0]
      show 0 + c ≤ maxInt
      omega)
  have e : demoPair.pool.roundrobin + (c.toNat : Int) = c := by
    rw [Int.toNat_of_nonneg h0]
    show 0 + c = c
    omega
  rw [e] at h
  exact h

theorem demoCursorAt_minInt_reachable :
    Reachable demoEnv ["10.0.0.1:9000", "10.0.0.2:9000"] (demoCursorAt minInt) :=
  Reachable.nextServer (r := ("10.0.0.2:9000", none))
    (demoCursorAt_reachable maxInt (by decide) (by decide)) (by decide)

theorem demoCursorAt_minInt_succ_reachable :
    Reachable demoEnv ["10.0.0.1:9000", "10.0.0.2:9000"] (demoCursorAt (minInt + 1)) :=
  Reachable.nextServer (r := ("10.0.0.1:9000", none)) demoCursorAt_minInt_reachable (by decide)

/-- C9 (a defect of the code): the cursor of `NextServer` is an `int` that is
never reset, so it overflows.  The pool built from `10.0.0.1:9000`,
`10.0.0.2:9000` reaches the cursor `maxInt` by calls of `NextServer` alone;
the next call returns `10.0.0.2:9000` and leaves the cursor at `minInt`, which
is not the old cursor plus one; the call after that leaves `minInt + 1`; and
in that state, on a non-empty server list, `NextServer` panics instead of
selecting `servers[roundrobin mod len(servers)]`: Go's `%` gives the index
`-1`. -/
theorem NextServer_cursor_overflow :
    Reachable demoEnv ["10.0.0.1:9000", "10.0.0.2:9000"] (demoCursorAt maxInt) ∧
    (demoCursorAt maxInt).pool.servers ≠ [] ∧
    NextServer demoEnv (demoCursorAt maxInt)
      = some (("10.0.0.2:9000", none), demoCursorAt minInt) ∧
    (demoCursorAt minInt).pool.roundrobin ≠ (demoCursorAt maxInt).pool.roundrobin + 1 ∧
    NextServer demoEnv (demoCursorAt minInt)
      = some (("10.0.0.1:9000", none), demoCursorAt (minInt + 1)) ∧
    Reachable demoEnv ["10.0.0.1:9000", "10.0.0.2:9000"] (demoCursorAt (minInt + 1)) ∧
    (demoCursorAt (minInt + 1)).pool.servers ≠ [] ∧
    Int.tmod (demoCursorAt (minInt + 1)).pool.roundrobin
      (demoCursorAt (minInt + 1)).pool.servers.length = -1 ∧
    NextServer demoEnv (demoCursorAt (minInt + 1)) = none :=
  ⟨demoCursorAt_reachable maxInt (by decide) (by decide), by decide, by decide, by decide,
    by decide, demoCursorAt_minInt_succ_reachable, by decide, by decide, by decide⟩

/-- C17 (a defect of the code): the read `p.servers[p.roundrobin]` of
`populateAddresses` goes out of range along a sequence of `NextServer` and
`Next` calls.  The pool built from `10.0.0.1:9000`, `10.0.0.2:9000` reaches,
by calls of `NextServer` alone, a state whose queue is `nil` and whose cursor
has overflowed to `minInt`; there the cursor is below `len(p.servers)`, so it
is not reset, the selection step panics on the negative index, and so do
`populateAddresses` and `Next`. -/
theorem index_out_of_range_after_overflow :
    Reachable demoEnv ["10.0.0.1:9000", "10.0.0.2:9000"] (demoCursorAt minInt) ∧
    (demoCursorAt minInt).pool.servers ≠ [] ∧
    (demoCursorAt minInt).pool.addresses = none ∧
    (demoCursorAt minInt).pool.roundrobin < (demoCursorAt minInt).pool.servers.length ∧
    goIndex (demoCursorAt minInt).pool.servers (demoCursorAt minInt).pool.roundrobin = none ∧
    selectServer demoEnv
      { demoCursorAt minInt with
        pool := { (demoCursorAt minInt).pool with addresses := some [] } } = none ∧
    populateAddresses demoEnv
      { demoCursorAt minInt with
        pool := { (demoCursorAt minInt).pool with addresses := some [] } } = none ∧
    Next demoEnv (demoCursorAt minInt) = none :=
  ⟨demoCursorAt_minInt_reachable, by decide, rfl, by decide, by decide, by decide, by decide,
    by decide⟩

end AddressPool
